import Mathlib

/-! The optimisation driver of `optimize/minimize.go`.

A shallow embedding of the stats monitor of `minimize`, of the helpers it calls
(`updateEvaluationStats`, `checkEvaluationLimits`, `checkLocationConvergence`,
`checkIterationLimits`, `copyLocation`, `performMajorIteration`), of the start of
`minimize` (`launch`), of its distributor and of its workers (`worker`, `evaluate`),
and of the entry point `Minimize` with its validation (`checkOptimization`) and its
initial location (`getInitLocation`).

Conventions of the embedding.

* A Go `float64` is a value of `F64`: not-a-number, the two infinities, or a finite
  value (a rational; the comparisons of the source are exact on the represented
  values, and no arithmetic on floats is performed by the driver).
* A Go `[]float64` is a `Slice`: `none` is the nil slice, `some l` a non-nil slice
  with elements `l`.  Capacities are not tracked (see `resize`).
* A Go pointer that may be nil is an `Option`; an `error` is an `Option String`.
* Go `int` and `time.Duration` values are embedded as `Int`.  The only arithmetic
  on them is the increment of a counter by one for each task handled, which stays
  far below `2^63` in any run, so no wrap-around is modelled.
* A panic is `Except.error` carrying the panic message.
* The callbacks of the caller (`Problem.Status`, `Recorder.Record`,
  `FunctionConverge.FunctionConverged`) and the clock (`time.Since`) may answer
  differently at every call: each is a function of the number of calls made before,
  and the state of the run counts the calls.
* The goroutines communicate through channels; the stats monitor is embedded as a
  fold of `monitorStep` over the sequence of tasks it receives from `statsChan`,
  and what it does to the channels `results` and `done` is recorded in its state.
  The distributor is embedded likewise, over the tasks it reads from `operations`
  before and after it observes `done`, and a worker over the tasks it receives from
  `workerChan` until that channel is closed.
* The goroutines together are embedded as a transition system (`System`, `sysStep`),
  one action for each communication of the distributor, the workers and the monitor,
  enabled as the Go statement is; `runMinimize` runs a call of `minimize` under a
  schedule of these actions.
-/

namespace Optimize

/-! ## Floating point values and slices -/

/-- A `float64` value. -/
inductive F64 where
  | nan
  | negInf
  | fin (q : ℚ)
  | posInf
  deriving DecidableEq

namespace F64

/-- The zero value of `float64`. -/
def zero : F64 := fin 0

/-- Go's `a < b` on `float64`: false as soon as one side is not a number. -/
def lt : F64 → F64 → Bool
  | nan, _ => false
  | _, nan => false
  | negInf, negInf => false
  | negInf, _ => true
  | fin _, negInf => false
  | fin a, fin b => decide (a < b)
  | fin _, posInf => true
  | posInf, _ => false

/-- Go's `math.IsInf(f, -1)`. -/
def isNegInf : F64 → Bool
  | negInf => true
  | _ => false

/-- Go's `math.Abs`. -/
def abs : F64 → F64
  | nan => nan
  | negInf => posInf
  | fin q => fin |q|
  | posInf => posInf

/-- Go's `math.Max`: `+Inf` wins over everything, then not-a-number. -/
def max : F64 → F64 → F64
  | posInf, _ => posInf
  | _, posInf => posInf
  | nan, _ => nan
  | _, nan => nan
  | negInf, b => b
  | a, negInf => a
  | fin a, fin b => fin (Max.max a b)

end F64

/-- A `[]float64`; `none` is the nil slice. -/
abbrev Slice := Option (List F64)

namespace Slice

/-- The elements of a slice (none for the nil slice). -/
def elems : Slice → List F64
  | none => []
  | some l => l

/-- Go's `len`. -/
def len (s : Slice) : Nat := s.elems.length

/-- Go's `make([]float64, n)`. -/
def make (n : Nat) : Slice := some (List.replicate n F64.zero)

/-- Go's `copy(dst, src)`: overwrites the first `min(len(dst), len(src))` elements
of `dst`; a nil `dst` stays nil. -/
def copy (dst src : Slice) : Slice :=
  match dst with
  | none => none
  | some d => some (src.elems.take d.length ++ d.drop src.len)

end Slice

/-- Modelled from the spec: `resize` (declared outside `minimize.go`) returns a
slice of length `dim`, "resized": the slice itself cut to `dim` when it is long
enough, a newly made slice otherwise.  The nil slice cut to length 0 is nil. -/
def resize (x : Slice) (dim : Nat) : Slice :=
  if dim > x.len then Slice.make dim
  else match x with
    | none => none
    | some l => some (l.take dim)

/-- Modelled from the spec: `floats.Norm(s, +Inf)`, the infinity norm, the largest
absolute value of an element (0 for no element). -/
def normInf (s : Slice) : F64 :=
  s.elems.foldl (fun norm v => F64.max norm (F64.abs v)) F64.zero

/-! ## Status, Operation, Location, Stats -/

/-- An `error` value; `none` is `nil`. -/
abbrev Error := Option String

/-- Modelled from the spec: the `Status` values (declared outside `minimize.go`);
`custom` stands for the statuses a caller defines for `Problem.Status`. -/
inductive Status where
  | NotTerminated
  | MethodConverge
  | FunctionThreshold
  | GradientThreshold
  | FunctionNegativeInfinity
  | FunctionEvaluationLimit
  | GradientEvaluationLimit
  | HessianEvaluationLimit
  | IterationLimit
  | RuntimeLimit
  | Failure
  | custom (code : Nat)
  deriving DecidableEq, Repr

/-- Modelled from the spec: an `Operation` is a bit set (declared outside
`minimize.go`); the evaluation operations combine by bitwise or, the others are
single tags. -/
abbrev Operation := Nat

/-- Modelled from the spec: the tag `NoOperation`, the empty bit set. -/
def NoOperation : Operation := 0

/-- Modelled from the spec: the tag `InitIteration`. -/
def InitIteration : Operation := 1

/-- Modelled from the spec: the tag `PostIteration`. -/
def PostIteration : Operation := 2

/-- Modelled from the spec: the tag `MajorIteration`. -/
def MajorIteration : Operation := 4

/-- Modelled from the spec: the tag `MethodDone`. -/
def MethodDone : Operation := 8

/-- Modelled from the spec: the evaluation bit `FuncEvaluation`. -/
def FuncEvaluation : Operation := 16

/-- Modelled from the spec: the evaluation bit `GradEvaluation`. -/
def GradEvaluation : Operation := 32

/-- Modelled from the spec: the evaluation bit `HessEvaluation`. -/
def HessEvaluation : Operation := 64

/-- Modelled from the spec: the internal tag `signalDone` of a worker that exits. -/
def signalDone : Operation := 128

/-- Modelled from the spec: the three evaluation bits together. -/
def evalMask : Operation := FuncEvaluation ||| GradEvaluation ||| HessEvaluation

/-- Modelled from the spec: `Operation.isEvaluation`, true of the non-empty
combinations of `FuncEvaluation`, `GradEvaluation` and `HessEvaluation` and of
nothing else. -/
def isEvaluation (op : Operation) : Bool :=
  op &&& evalMask != 0 && (op &&& evalMask) == op

/-- Modelled from the spec: `mat.SymDense`, a symmetric matrix of order `n`; `data`
is its row-major backing array, of which the upper triangle is used. -/
structure SymDense where
  n : Nat
  data : List F64
  deriving DecidableEq

namespace SymDense

/-- The entry at row `i`, column `j`, read from the upper triangle. -/
def At (m : SymDense) (i j : Nat) : F64 :=
  if i ≤ j then m.data.getD (i * m.n + j) F64.zero else m.data.getD (j * m.n + i) F64.zero

/-- Modelled from the spec: `mat.NewSymDense(n, nil)`, "allocate-square": the zero
matrix of order `n`. -/
def new (n : Nat) : SymDense := ⟨n, List.replicate (n * n) F64.zero⟩

/-- Modelled from the spec: `dst.CopySym(src)`, "copy-from": the order of `dst` is
kept, and the entries of the upper triangle that both matrices have are taken from
`src`. -/
def CopySym (dst src : SymDense) : SymDense :=
  { n := dst.n
    data := (List.range (dst.n * dst.n)).map fun k =>
      let i := k / dst.n
      let j := k % dst.n
      if i ≤ j ∧ j < Nat.min dst.n src.n then src.At i j else dst.data.getD k F64.zero }

/-- Two symmetric matrices are equal: same order, same entries. -/
def Equal (a b : SymDense) : Prop :=
  a.n = b.n ∧ ∀ i j, i < a.n → j < a.n → a.At i j = b.At i j

end SymDense

/-- Modelled from the spec: the type `Location` (declared outside `minimize.go`),
with the fields `X`, `F`, `Gradient`, `Hessian` that `minimize.go` reads and
writes. -/
structure Location where
  X : Slice := none
  F : F64 := F64.zero
  Gradient : Slice := none
  Hessian : Option SymDense := none
  deriving DecidableEq

/-- Modelled from the spec: the type `Stats` (declared outside `minimize.go`), the
counters of the run and its runtime. -/
structure Stats where
  MajorIterations : Int := 0
  FuncEvaluations : Int := 0
  GradEvaluations : Int := 0
  HessEvaluations : Int := 0
  Runtime : Int := 0
  deriving DecidableEq, Repr

/-- The `Task` of the source; the embedded `*Location` may be nil. -/
structure Task where
  ID : Int := 0
  Op : Operation := NoOperation
  Location : Option Location := none
  deriving DecidableEq

/-! ## Problem, Recorder, Settings, Method -/

/-- Modelled from the spec: the type `Problem` (declared outside `minimize.go`),
with the fields `minimize.go` calls.  `Grad` and `Hess` return the new contents of the
destination they are given; `Status` answers its `k`-th call (counted from 0) with
`f k`. -/
structure Problem where
  Func : Option (List F64 → F64) := none
  Grad : Option (List F64 → List F64 → List F64) := none
  Hess : Option (SymDense → List F64 → SymDense) := none
  Status : Option (Nat → Optimize.Status × Error) := none

/-- One call of `Recorder.Record`: its three arguments. -/
structure RecordCall where
  loc : Option Location
  op : Operation
  stats : Stats
  deriving DecidableEq

/-- Modelled from the spec: the interface `Recorder` (declared outside
`minimize.go`): the answer of `Init`, and the answer of the `k`-th call of `Record`
(counted from 0), which may depend on its arguments. -/
structure Recorder where
  Init : Error := none
  Record : Nat → Option Location → Operation → Stats → Error := fun _ _ _ _ => none

/-- Modelled from the spec: the type `Settings` (declared outside `minimize.go`),
with the fields `minimize.go` reads; the defaults are Go's zero values.
`FunctionConverge`, when configured, answers its `k`-th call of `FunctionConverged`
(counted from 0, after `Init`) on the value `f` with `c k f`. -/
structure Settings where
  InitValues : Option Location := none
  FunctionThreshold : F64 := F64.zero
  GradientThreshold : F64 := F64.zero
  FunctionConverge : Option (Nat → F64 → Status) := none
  MajorIterations : Int := 0
  Runtime : Int := 0
  FuncEvaluations : Int := 0
  GradEvaluations : Int := 0
  HessEvaluations : Int := 0
  Recorder : Option Optimize.Recorder := none
  Concurrent : Int := 0

/-- Modelled from the spec: what `Needs()` of a method answers (declared outside
`minimize.go`): whether it needs the gradient, the Hessian. -/
structure Needs where
  Gradient : Bool := false
  Hessian : Bool := false
  deriving DecidableEq

/-- The interface `Method` of the source, as far as the driver calls it: `Needs`,
`Init` (on the dimension and the count of tasks), and `Status` when the method is a
`Statuser` (the answer of the one call made after the method has closed
`operations`).  `Run` is the producer of the tasks that reach the monitor. -/
structure Method where
  Needs : Optimize.Needs := {}
  Init : Int → Int → Int := fun _ tasks => tasks
  Status : Option (Optimize.Status × Error) := none

/-- Modelled from the spec: the type `Result` (declared outside `minimize.go`). -/
structure Result where
  Location : Optimize.Location
  Stats : Optimize.Stats
  Status : Optimize.Status
  deriving DecidableEq

/-! ## The helpers of the monitor -/

/-- The function `updateEvaluationStats` of the source. -/
def updateEvaluationStats (stats : Stats) (op : Operation) : Stats :=
  let stats := if op &&& FuncEvaluation ≠ 0 then
    { stats with FuncEvaluations := stats.FuncEvaluations + 1 } else stats
  let stats := if op &&& GradEvaluation ≠ 0 then
    { stats with GradEvaluations := stats.GradEvaluations + 1 } else stats
  let stats := if op &&& HessEvaluation ≠ 0 then
    { stats with HessEvaluations := stats.HessEvaluations + 1 } else stats
  stats

/-- The function `checkLocationConvergence` of the source; `calls` counts the calls
of `FunctionConverged` made before, and the new count is returned with the
verdict. -/
def checkLocationConvergence (loc : Location) (settings : Settings) (calls : Nat) :
    Status × Nat :=
  if F64.isNegInf loc.F then (Status.FunctionNegativeInfinity, calls)
  else if loc.Gradient ≠ none ∧ F64.lt (normInf loc.Gradient) settings.GradientThreshold then
    (Status.GradientThreshold, calls)
  else if F64.lt loc.F settings.FunctionThreshold then (Status.FunctionThreshold, calls)
  else match settings.FunctionConverge with
    | some c => (c calls loc.F, calls + 1)
    | none => (Status.NotTerminated, calls)

/-- The function `checkEvaluationLimits` of the source; `polls` counts the calls of
`p.Status` made before, and the new count is returned with the status and the
error. -/
def checkEvaluationLimits (p : Problem) (polls : Nat) (stats : Stats) (settings : Settings) :
    Status × Error × Nat :=
  let limits (polls : Nat) : Status × Error × Nat :=
    if settings.FuncEvaluations > 0 ∧ stats.FuncEvaluations ≥ settings.FuncEvaluations then
      (Status.FunctionEvaluationLimit, none, polls)
    else if settings.GradEvaluations > 0 ∧ stats.GradEvaluations ≥ settings.GradEvaluations then
      (Status.GradientEvaluationLimit, none, polls)
    else if settings.HessEvaluations > 0 ∧ stats.HessEvaluations ≥ settings.HessEvaluations then
      (Status.HessianEvaluationLimit, none, polls)
    else (Status.NotTerminated, none, polls)
  match p.Status with
  | some f =>
    let (status, err) := f polls
    if err ≠ none ∨ status ≠ Status.NotTerminated then (status, err, polls + 1)
    else limits (polls + 1)
  | none => limits polls

/-- The function `checkIterationLimits` of the source. -/
def checkIterationLimits (_loc : Location) (stats : Stats) (settings : Settings) : Status :=
  if settings.MajorIterations > 0 ∧ stats.MajorIterations ≥ settings.MajorIterations then
    Status.IterationLimit
  else if settings.Runtime > 0 ∧ stats.Runtime ≥ settings.Runtime then Status.RuntimeLimit
  else Status.NotTerminated

/-- The function `copyLocation` of the source; the new value of `dst` is returned. -/
def copyLocation (dst src : Location) : Location :=
  let X := Slice.copy (resize dst.X src.X.len) src.X
  let Gradient := Slice.copy (resize dst.Gradient src.Gradient.len) src.Gradient
  let Hessian :=
    match src.Hessian with
    | some h =>
      let d := match dst.Hessian with
        | none => SymDense.new src.X.len
        | some d => if d.n ≠ src.X.len then SymDense.new src.X.len else d
      some (d.CopySym h)
    | none => dst.Hessian
  { X := X, F := src.F, Gradient := Gradient, Hessian := Hessian }

/-- The function `performMajorIteration` of the source.  `elapsed` is what
`time.Since(startTime)` answers, `calls` counts the calls of `FunctionConverged`
made before.  Returned: the status, the new `optLoc`, the new `stats`, the new
count of calls. -/
def performMajorIteration (optLoc loc : Location) (stats : Stats) (elapsed : Int)
    (settings : Settings) (calls : Nat) : Status × Location × Stats × Nat :=
  let optLoc := copyLocation optLoc loc
  let stats := { stats with MajorIterations := stats.MajorIterations + 1 }
  let stats := { stats with Runtime := elapsed }
  let (status, calls) := checkLocationConvergence optLoc settings calls
  if status ≠ Status.NotTerminated then (status, optLoc, stats, calls)
  else (checkIterationLimits optLoc stats settings, optLoc, stats, calls)

/-! ## The stats monitor of `minimize` -/

/-- The variables of the monitor loop of `minimize`, what the loop has done to the
channels, and the counts of the calls made so far.

* `results`: the tasks sent on the channel `results`, oldest first;
* `resultsClosed`, `doneClosed`: how many times `close(results)` and `close(done)`
  were executed;
* `polls`: calls of `prob.Status`; `records`: the calls of `Recorder.Record`;
  `converges`: calls of `FunctionConverged`; `ticks`: readings of the clock. -/
structure Monitor where
  stats : Stats := {}
  optLoc : Location := {}
  workersDone : Int := 0
  status : Status := Status.NotTerminated
  err : Error := none
  finalStatus : Status := Status.NotTerminated
  finalError : Error := none
  methodDone : Bool := false
  results : List Task := []
  resultsClosed : Nat := 0
  doneClosed : Nat := 0
  polls : Nat := 0
  records : List RecordCall := []
  converges : Nat := 0
  ticks : Nat := 0

/-- A send `results <- task`: it panics on a closed channel. -/
def sendResults (s : Monitor) (task : Task) : Except String Monitor :=
  if s.resultsClosed > 0 then Except.error "send on closed channel"
  else Except.ok { s with results := s.results ++ [task] }

/-- The statement `close(results)`: it panics on a closed channel. -/
def closeResults (s : Monitor) : Except String Monitor :=
  if s.resultsClosed > 0 then Except.error "close of closed channel"
  else Except.ok { s with resultsClosed := s.resultsClosed + 1 }

/-- The `switch task.Op` of the monitor loop, for a task that is not `signalDone`:
the evaluation branch (`default`), `NoOperation`, `MajorIteration`, `MethodDone`. -/
def handleTask (prob : Problem) (settings : Settings) (since : Nat → Int)
    (s : Monitor) (task : Task) : Except String Monitor :=
  if task.Op = NoOperation then Except.ok s
  else if task.Op = MajorIteration then
    match task.Location with
    | none => Except.error "invalid memory address or nil pointer dereference"
    | some loc =>
      let r := performMajorIteration s.optLoc loc s.stats (since s.ticks) settings s.converges
      Except.ok { s with status := r.1, optLoc := r.2.1, stats := r.2.2.1,
                         converges := r.2.2.2, ticks := s.ticks + 1 }
  else if task.Op = MethodDone then
    Except.ok { s with methodDone := true, status := Status.MethodConverge }
  else if !isEvaluation task.Op then Except.error "minimize: evaluation task expected"
  else
    let stats := updateEvaluationStats s.stats task.Op
    let r := checkEvaluationLimits prob s.polls stats settings
    Except.ok { s with stats := stats, status := r.1, err := r.2.1, polls := r.2.2 }

/-- The call of the Recorder in the monitor loop: made when a Recorder is
configured, the status is `NotTerminated` and the error is nil. -/
def recordTask (settings : Settings) (since : Nat → Int) (s : Monitor) (task : Task) :
    Monitor :=
  match settings.Recorder with
  | none => s
  | some rec =>
    if s.status = Status.NotTerminated ∧ s.err = none then
      let stats := { s.stats with Runtime := since s.ticks }
      let err := rec.Record s.records.length task.Location task.Op stats
      { s with stats := stats, ticks := s.ticks + 1, err := err,
               records := s.records ++ [⟨task.Location, task.Op, stats⟩],
               status := if err ≠ none then Status.Failure else s.status }
    else s

/-- The first-termination block of the monitor loop: `select` on `done`. -/
def latch (s : Monitor) : Except String Monitor :=
  if s.status ≠ Status.NotTerminated ∨ s.err ≠ none then
    if s.doneClosed > 0 then Except.ok s
    else do
      let s := { s with finalStatus := s.status, finalError := s.err }
      let s ← sendResults s { Op := PostIteration }
      Except.ok { s with doneClosed := s.doneClosed + 1 }
  else Except.ok s

/-- The last block of the monitor loop: the task goes back to the method. -/
def returnTask (nTasks : Int) (s : Monitor) (task : Task) : Except String Monitor :=
  if s.workersDone ≠ nTasks ∧ task.Op ≠ MethodDone then sendResults s task
  else Except.ok s

/-- One iteration of `for task := range statsChan` in `minimize`. -/
def monitorStep (prob : Problem) (settings : Settings) (nTasks : Int) (since : Nat → Int)
    (s : Monitor) (task : Task) : Except String Monitor :=
  if task.Op = signalDone then
    let s := { s with workersDone := s.workersDone + 1 }
    if s.workersDone = nTasks then closeResults s else Except.ok s
  else do
    let s ← handleTask prob settings since s task
    let s := recordTask settings since s task
    let s ← latch s
    returnTask nTasks s task

/-- The loop `for task := range statsChan` of `minimize`, on the tasks that arrive
on `statsChan` until it is closed. -/
def monitorLoop (prob : Problem) (settings : Settings) (nTasks : Int) (since : Nat → Int) :
    Monitor → List Task → Except String Monitor
  | s, [] => Except.ok s
  | s, task :: rest =>
    match monitorStep prob settings nTasks since s task with
    | Except.error e => Except.error e
    | Except.ok s1 => monitorLoop prob settings nTasks since s1 rest

/-- The block after the monitor loop of `minimize`: the status of a method that
sent `MethodDone`. -/
def finish (method : Method) (s : Monitor) : Except String (Status × Error) :=
  if s.methodDone then
    match method.Status with
    | none => Except.error "optimize: method returned MethodDone but is not a Statuser"
    | some (finalStatus, finalError) =>
      if finalStatus = Status.NotTerminated then
        Except.error "optimize: method returned MethodDone but a NotTerminated status"
      else Except.ok (finalStatus, finalError)
  else Except.ok (s.finalStatus, s.finalError)

/-- The task count of `minimize`: what is asked of `method.Init`. -/
def requestedTasks (settings : Settings) : Int :=
  if settings.Concurrent = 0 then 1 else settings.Concurrent

/-- The counts of the calls made to the caller's callbacks and to the clock before
`minimize` is entered. -/
structure Calls where
  polls : Nat := 0
  records : List RecordCall := []
  converges : Nat := 0
  ticks : Nat := 0

/-- The monitor at the entry of its loop in `minimize`: the variables of the loop
have their zero values, the channels are open and nothing was sent. -/
def entry (stats : Stats) (optLoc : Location) (calls : Calls) : Monitor :=
  { stats := stats, optLoc := optLoc, polls := calls.polls, records := calls.records,
    converges := calls.converges, ticks := calls.ticks }

/-- The function `minimize` of the source.  `calls` holds the counts of the calls
made before; `arriving` is the sequence of tasks that reach the monitor on
`statsChan` until that channel is closed (which sequences the goroutines can
deliver is the matter of `runMinimize`).  Returned: the final status and error, and
the final state of the monitor (with the `stats` and `optLoc` that `minimize`
updates in place). -/
def minimize (prob : Problem) (method : Method) (settings : Settings) (stats : Stats)
    (_initOp : Operation) (_initLoc : Location) (optLoc : Location) (since : Nat → Int)
    (calls : Calls) (arriving : List Task) : Except String ((Status × Error) × Monitor) :=
  let dim : Int := optLoc.X.len
  let nTasks := requestedTasks settings
  let newNTasks := method.Init dim nTasks
  if newNTasks > nTasks then Except.error "optimize: too many tasks returned by Method"
  else
    let nTasks := newNTasks
    if nTasks < 0 then Except.error "makechan: size out of range"
    else if nTasks = 0 then Except.error "index out of range [0] with length 0"
    else
      match monitorLoop prob settings nTasks since (entry stats optLoc calls) arriving with
      | Except.error e => Except.error e
      | Except.ok s =>
        match finish method s with
        | Except.error e => Except.error e
        | Except.ok r => Except.ok (r, s)

/-! ## The entry point `Minimize` -/

/-- The function `newLocation` of the source. -/
def newLocation (dim : Nat) (method : Method) : Location :=
  { X := Slice.make dim
    Gradient := if method.Needs.Gradient then Slice.make dim else none
    Hessian := if method.Needs.Hessian then some (SymDense.new dim) else none }

/-- The function `getInitLocation` of the source. -/
def getInitLocation (dim : Nat) (initX : Slice) (initValues : Option Location)
    (method : Method) : Except String (Operation × Location) :=
  let needs := method.Needs
  let loc := newLocation dim method
  match initX with
  | none =>
    if initValues ≠ none then
      Except.error "optimize: initValues is non-nil but no initial location specified"
    else Except.ok (NoOperation, loc)
  | some _ =>
    let loc := { loc with X := Slice.copy loc.X initX }
    match initValues with
    | none => Except.ok (NoOperation, loc)
    | some initValues =>
      if initValues.X ≠ none then
        Except.error "optimize: location specified in InitValues (only use InitX)"
      else
        let loc := { loc with F := initValues.F }
        let op := FuncEvaluation
        let withGradient : Except String (Operation × Location) :=
          if initValues.Gradient ≠ none then
            if initValues.Gradient.len ≠ dim then
              Except.error "optimize: initial gradient does not match problem dimension"
            else if needs.Gradient then
              Except.ok (op ||| GradEvaluation,
                { loc with Gradient := Slice.copy loc.Gradient initValues.Gradient })
            else Except.ok (op, loc)
          else Except.ok (op, loc)
        match withGradient with
        | Except.error e => Except.error e
        | Except.ok (op, loc) =>
          match initValues.Hessian with
          | some h =>
            if h.n ≠ dim then
              Except.error "optimize: initial Hessian does not match problem dimension"
            else if needs.Hessian then
              match loc.Hessian with
              | none => Except.error "invalid memory address or nil pointer dereference"
              | some d => Except.ok (op ||| HessEvaluation,
                  { loc with Hessian := some (d.CopySym h) })
            else Except.ok (op, loc)
          | none => Except.ok (op, loc)

/-- Modelled from the spec: `Problem.satisfies` (declared outside `minimize.go`),
an error when the method needs a gradient or a Hessian that the problem does not
provide. -/
def Problem.satisfies (p : Problem) (method : Method) : Error :=
  if method.Needs.Gradient ∧ p.Grad.isNone then
    some "optimize: problem does not provide needed Grad function"
  else if method.Needs.Hessian ∧ p.Hess.isNone then
    some "optimize: problem does not provide needed Hess function"
  else none

/-- Modelled from the spec: the constant `badProblem` (declared outside
`minimize.go`), the message of the panic on a problem without `Func`. -/
def badProblem : String := "optimize: objective function is undefined"

/-- What `checkOptimization` has called: `polls` counts the calls of `p.Status`,
`inits` the calls of `Recorder.Init`. -/
structure Checked where
  err : Error := none
  polls : Nat := 0
  inits : Nat := 0
  deriving DecidableEq

/-- The function `checkOptimization` of the source. -/
def checkOptimization (p : Problem) (dim : Int) (method : Method)
    (recorder : Option Recorder) : Except String Checked :=
  if p.Func.isNone then Except.error badProblem
  else if dim ≤ 0 then Except.error "optimize: impossible problem dimension"
  else
    match p.satisfies method with
    | some err => Except.ok { err := some err }
    | none =>
      let polled : Checked :=
        match p.Status with
        | some f => { err := (f 0).2, polls := 1 }
        | none => {}
      if polled.err ≠ none then Except.ok polled
      else
        match recorder with
        | some r => Except.ok { polled with err := r.Init, inits := 1 }
        | none => Except.ok polled

/-- Modelled from the spec: the defaults `Minimize` falls back on (declared outside
`minimize.go`): the quasi-Newton method, the derivative-free method, and the local
default settings. -/
structure Defaults where
  BFGS : Method := {}
  NelderMead : Method := {}
  DefaultSettingsLocal : Settings := {}

/-- The function `getDefaultMethod` of the source. -/
def getDefaultMethod (d : Defaults) (p : Problem) : Method :=
  if p.Grad.isSome then d.BFGS else d.NelderMead

/-- What a call of `Minimize` comes to: a panic, or the returned `(*Result, error)`;
and what it has called on the way: `polls` counts the calls of `p.Status`, `inits`
those of `Recorder.Init`, `records` lists the calls of `Recorder.Record`, and
`started` tells whether `minimize` was entered.  (After a panic inside `minimize`
the counts are those at its entry.) -/
structure Outcome where
  panicked : Option String := none
  result : Option Result := none
  err : Error := none
  polls : Nat := 0
  inits : Nat := 0
  records : List RecordCall := []
  started : Bool := false

/-- The method `Minimize` works with: the one given, `getDefaultMethod` for nil. -/
def chosenMethod (d : Defaults) (p : Problem) (method : Option Method) : Method :=
  match method with
  | none => getDefaultMethod d p
  | some m => m

/-- The settings `Minimize` works with: the ones given, `DefaultSettingsLocal()` for
nil. -/
def chosenSettings (d : Defaults) (settings : Option Settings) : Settings :=
  match settings with
  | none => d.DefaultSettingsLocal
  | some s => s

/-- The optimum `Minimize` starts from: `newLocation(dim, method)` with `F = +Inf`. -/
def initialOptimum (dim : Nat) (method : Method) : Location :=
  { newLocation dim method with F := F64.posInf }

/-- The block "Send initial location to Recorder" of `Minimize`: the error of the
call of `Record` and the calls made. -/
def recordInit (settings : Settings) (optLoc : Location) (stats : Stats) :
    Error × List RecordCall :=
  match settings.Recorder with
  | some r => (r.Record 0 (some optLoc) InitIteration stats, [⟨some optLoc, InitIteration, stats⟩])
  | none => (none, [])

/-- The block "Cleanup and collect results" of `Minimize`: the error that is
returned and the calls of `Record` made, given the error `err` of `minimize` and the
monitor `s` it ended in. -/
def recordPost (settings : Settings) (err : Error) (s : Monitor) : Error × List RecordCall :=
  match settings.Recorder with
  | some r =>
    if err = none then
      (r.Record s.records.length (some s.optLoc) PostIteration s.stats,
       s.records ++ [⟨some s.optLoc, PostIteration, s.stats⟩])
    else (err, s.records)
  | none => (err, s.records)

/-- The function `Minimize` of the source.  `since k` is the `k`-th reading of
`time.Since(startTime)`; `arriving` is the sequence of tasks that reach the monitor
of `minimize` on `statsChan`. -/
def Minimize (d : Defaults) (since : Nat → Int) (arriving : List Task)
    (p : Problem) (initX : Slice) (settings : Option Settings) (method : Option Method) :
    Outcome :=
  let method := chosenMethod d p method
  let settings := chosenSettings d settings
  let stats : Stats := {}
  let dim := initX.len
  match checkOptimization p dim method settings.Recorder with
  | Except.error e => { panicked := some e }
  | Except.ok c =>
    if c.err ≠ none then { err := c.err, polls := c.polls, inits := c.inits }
    else
      let optLoc := initialOptimum dim method
      match getInitLocation dim initX settings.InitValues method with
      | Except.error e => { panicked := some e, polls := c.polls, inits := c.inits }
      | Except.ok (initOp, initLoc) =>
        let stats := { stats with Runtime := since 0 }
        let first := recordInit settings optLoc stats
        if first.1 ≠ none then
          { err := first.1, polls := c.polls, inits := c.inits, records := first.2 }
        else
          match minimize p method settings stats initOp initLoc optLoc since
              { polls := c.polls, records := first.2, converges := 0, ticks := 1 } arriving with
          | Except.error e =>
            { panicked := some e, polls := c.polls, inits := c.inits, records := first.2,
              started := true }
          | Except.ok ((status, err), s) =>
            let last := recordPost settings err s
            let stats := { s.stats with Runtime := since s.ticks }
            { result := some { Location := s.optLoc, Stats := stats, Status := status }
              err := last.1, polls := s.polls, inits := c.inits, records := last.2,
              started := true }

/-! ## The distributor of `minimize` -/

/-- Where the distributor sends a task it has read from `operations`. -/
inductive Routed where
  | toWorkers (task : Task)
  | toMonitor (task : Task)
  deriving DecidableEq

/-- The `switch task.Op` of the distributor, for a task read before `done` is
observed: a panic, a send on `statsChan`, or a send on `workerChan`. -/
def route (task : Task) : Except String Routed :=
  if task.Op = InitIteration then Except.error "optimize: Method returned InitIteration"
  else if task.Op = PostIteration then Except.error "optimize: Method returned PostIteration"
  else if task.Op = NoOperation ∨ task.Op = MajorIteration ∨ task.Op = MethodDone then
    Except.ok (Routed.toMonitor task)
  else if !isEvaluation task.Op then Except.error "optimize: expecting evaluation operation"
  else Except.ok (Routed.toWorkers task)

/-- What the distributor has done to its channels: the tasks sent on `workerChan`
and on `statsChan`, oldest first, and whether it has closed them. -/
structure Distributed where
  workerChan : List Task := []
  statsChan : List Task := []
  workerChanClosed : Bool := false
  statsChanClosed : Bool := false
  deriving DecidableEq

/-- One turn of the `select` of the distributor on a task from `operations`. -/
def distributeStep (d : Distributed) (task : Task) : Except String Distributed :=
  match route task with
  | Except.error e => Except.error e
  | Except.ok (Routed.toWorkers t) => Except.ok { d with workerChan := d.workerChan ++ [t] }
  | Except.ok (Routed.toMonitor t) => Except.ok { d with statsChan := d.statsChan ++ [t] }

/-- The `select` loop of the distributor on the tasks it reads from `operations`
before it observes `done`. -/
def distributeRunning : Distributed → List Task → Except String Distributed
  | d, [] => Except.ok d
  | d, task :: rest =>
    match distributeStep d task with
    | Except.error e => Except.error e
    | Except.ok d1 => distributeRunning d1 rest

/-- The branch `case <-done` of the distributor: `workerChan` is closed, the tasks
still read from `operations` until the method closes it are forwarded when they are
`MajorIteration` and dropped otherwise, and `statsChan` is closed. -/
def distributeDraining (d : Distributed) (after : List Task) : Distributed :=
  { d with workerChanClosed := true
           statsChan := d.statsChan ++ after.filter fun task => task.Op = MajorIteration
           statsChanClosed := true }

/-- The function `distributor` of `minimize`: `before` are the tasks the method
sends that are read before `done` is observed, `after` the tasks read afterwards. -/
def distributor (before after : List Task) : Except String Distributed :=
  match distributeRunning {} before with
  | Except.error e => Except.error e
  | Except.ok d => Except.ok (distributeDraining d after)

/-- The operations that the distributor forwards to the monitor while running. -/
def monitorOp (op : Operation) : Bool :=
  op == NoOperation || op == MajorIteration || op == MethodDone

/-- A task with the operation `InitIteration`. -/
def initTask : Task := { Op := InitIteration }

/-- A task asking for the function and the gradient. -/
def funcGradTask : Task :=
  { Op := FuncEvaluation ||| GradEvaluation, Location := some { X := some [F64.fin 1] } }

/-! ## The evaluation of the problem by a worker -/

/-- A call of one of the callbacks of the problem, with the arguments it is given:
`Func(x)`, `Grad(grad, x)`, `Hess(hess, x)`. -/
inductive Callback where
  | Func (x : List F64)
  | Grad (grad : Slice) (x : List F64)
  | Hess (hess : Option SymDense) (x : List F64)
  deriving DecidableEq

/-- The evaluation bit that a call of a callback answers. -/
def Callback.bit : Callback → Operation
  | Callback.Func _ => FuncEvaluation
  | Callback.Grad _ _ => GradEvaluation
  | Callback.Hess _ _ => HessEvaluation

/-- The point `x` that a call of a callback is given. -/
def Callback.point : Callback → List F64
  | Callback.Func x => x
  | Callback.Grad _ x => x
  | Callback.Hess _ x => x

/-- What a call of `evaluate` comes to: a panic or not, the location and the scratch
vector `x` as it leaves them, and the calls of the callbacks it has made, in
order. -/
structure Evaluated where
  panicked : Option String := none
  loc : Location
  x : Slice
  calls : List Callback := []
  deriving DecidableEq

/-- The statement `loc.F = p.Func(x)` of `evaluate`, when the operation asks for it;
a nil `Func` is a panic. -/
def evaluateFunc (p : Problem) (op : Operation) (r : Evaluated) : Evaluated :=
  if r.panicked ≠ none then r
  else if op &&& FuncEvaluation ≠ 0 then
    match p.Func with
    | none => { r with panicked := some "invalid memory address or nil pointer dereference" }
    | some f =>
      { r with loc := { r.loc with F := f r.x.elems }
               calls := r.calls ++ [Callback.Func r.x.elems] }
  else r

/-- The statement `p.Grad(loc.Gradient, x)` of `evaluate`, when the operation asks
for it; a nil `Grad` is a panic. -/
def evaluateGrad (p : Problem) (op : Operation) (r : Evaluated) : Evaluated :=
  if r.panicked ≠ none then r
  else if op &&& GradEvaluation ≠ 0 then
    match p.Grad with
    | none => { r with panicked := some "invalid memory address or nil pointer dereference" }
    | some g =>
      { r with loc := { r.loc with Gradient := r.loc.Gradient.map fun d => g d r.x.elems }
               calls := r.calls ++ [Callback.Grad r.loc.Gradient r.x.elems] }
  else r

/-- The statement `p.Hess(loc.Hessian, x)` of `evaluate`, when the operation asks
for it; a nil `Hess` is a panic. -/
def evaluateHess (p : Problem) (op : Operation) (r : Evaluated) : Evaluated :=
  if r.panicked ≠ none then r
  else if op &&& HessEvaluation ≠ 0 then
    match p.Hess with
    | none => { r with panicked := some "invalid memory address or nil pointer dereference" }
    | some h =>
      { r with loc := { r.loc with Hessian := r.loc.Hessian.map fun d => h d r.x.elems }
               calls := r.calls ++ [Callback.Hess r.loc.Hessian r.x.elems] }
  else r

/-- The function `evaluate` of the source.  The callbacks are functions of the
contents of `x` (a callback that writes to its argument `x` is outside the
embedding), and `Grad` and `Hess` give the new contents of the destination they are
handed.  The message of the panic on an operation that is not an evaluation ends, in
the source, with the operation. -/
def evaluate (p : Problem) (loc : Location) (op : Operation) (x : Slice) : Evaluated :=
  if !isEvaluation op then
    { panicked := some "optimize: invalid evaluation", loc := loc, x := x }
  else
    let x := Slice.copy x loc.X
    evaluateHess p op (evaluateGrad p op (evaluateFunc p op { loc := loc, x := x }))

/-- A problem whose function is the first coordinate, whose gradient is set to the
point and whose Hessian is left as it is. -/
def firstCoordinate : Problem :=
  { Func := some fun x => x.headD F64.zero
    Grad := some fun _ x => x
    Hess := some fun h _ => h }

/-- A location at `X = [3, 4]` with room for a gradient. -/
def roomyLoc : Location :=
  { X := some [F64.fin 3, F64.fin 4], F := F64.fin 9, Gradient := some [F64.zero, F64.zero] }

/-- What a worker goroutine comes to: a panic or not, and the tasks it has sent on
`statsChan`, in order. -/
structure Worked where
  panicked : Option String := none
  statsChan : List Task := []

/-- The loop `for task := range workerChan` of a worker, over the tasks it receives
until `workerChan` is closed, with the scratch vector `x` that it keeps from one
task to the next: each task is evaluated in place (its `Location` is a pointer) and
sent on `statsChan`.  A nil `Location` is a panic of `evaluate`, after the test of
the operation.  A panic ends the worker with what it has sent so far. -/
def workerLoop (prob : Problem) : Slice → List Task → Worked
  | _, [] => {}
  | x, task :: rest =>
    match task.Location with
    | none =>
      if !isEvaluation task.Op then { panicked := some "optimize: invalid evaluation" }
      else { panicked := some "invalid memory address or nil pointer dereference" }
    | some loc =>
      let r := evaluate prob loc task.Op x
      match r.panicked with
      | some msg => { panicked := some msg }
      | none =>
        let w := workerLoop prob r.x rest
        { w with statsChan := { task with Location := some r.loc } :: w.statsChan }

/-- The function literal `worker` of `minimize`: the scratch vector is made with
`dim` elements, the loop runs over the tasks received, and when it ends (the channel
`workerChan` is closed) the worker sends `Task{Op: signalDone}`. -/
def worker (prob : Problem) (dim : Nat) (received : List Task) : Worked :=
  let w := workerLoop prob (Slice.make dim) received
  if w.panicked ≠ none then w
  else { w with statsChan := w.statsChan ++ [{ Op := signalDone }] }

/-- A task is evaluated by a worker with a scratch vector of `dim` elements: it has
a location, `evaluate` on it does not panic, and the task sent on is the same task
with the location as `evaluate` leaves it. -/
def evaluatedBy (prob : Problem) (dim : Nat) (task sent : Task) : Prop :=
  ∃ loc x, task.Location = some loc ∧ x.len = dim ∧
    (evaluate prob loc task.Op x).panicked = none ∧
    sent = { task with Location := some (evaluate prob loc task.Op x).loc }

/-- A task that a worker can evaluate: an evaluation, with a location, that asks
only for callbacks that the problem has. -/
def evaluable (prob : Problem) (task : Task) : Prop :=
  isEvaluation task.Op = true ∧ task.Location ≠ none ∧
  (task.Op &&& FuncEvaluation ≠ 0 → prob.Func.isSome = true) ∧
  (task.Op &&& GradEvaluation ≠ 0 → prob.Grad.isSome = true) ∧
  (task.Op &&& HessEvaluation ≠ 0 → prob.Hess.isSome = true)

/-! ## The goroutines of `minimize` together

The distributor, the workers and the stats monitor run concurrently and meet on the
channels `operations` (buffered, `nTasks` places), `workerChan` and `statsChan`
(unbuffered) and `done` (never sent on, only closed).  The embedding is a transition
system on the state `System`: each `Action` is one step of one goroutine, enabled as
the Go statement it stands for is (a receive on an unbuffered channel needs a sender
blocked in its send; the case `<-done` needs `done` closed; a `range` over a channel
ends when the channel is closed and empty).  The goroutine of the method is the
caller's code: it may send any task on `operations` and close it.  The channel
`results` is the record kept in the state of the monitor, as above; a turn of the
loop of the monitor is one step, since what is left of a turn after `close(done)`
only sends on `results`, which no goroutine of `minimize` reads, and a turn that
blocks there for ever is a run that is cut short.  A panic of any goroutine ends the
program: no action is enabled after it. -/

/-- Where the distributor goroutine stands. -/
inductive Distributor where
  | selecting
  | toStats (task : Task)
  | toWorkers (task : Task)
  | draining
  | drainToStats (task : Task)
  | returned
  deriving DecidableEq

/-- The distributor has taken the case `<-done` of its `select`. -/
def Distributor.sawDone : Distributor → Bool
  | Distributor.draining => true
  | Distributor.drainToStats _ => true
  | Distributor.returned => true
  | _ => false

/-- Where a worker goroutine stands: at the `range workerChan` with its scratch vector
`x`, blocked in `statsChan <- task`, blocked in `statsChan <- Task{Op: signalDone}`,
or returned. -/
inductive Worker where
  | receiving (x : Slice)
  | sending (x : Slice) (task : Task)
  | signalling
  | returned
  deriving DecidableEq

/-- The worker is blocked in a send on `statsChan`. -/
def Worker.blocked : Worker → Bool
  | Worker.sending _ _ => true
  | Worker.signalling => true
  | _ => false

/-- The state of the goroutines of `minimize` and of their channels: the tasks
buffered on `operations`, the channels that are closed, where the distributor and
each worker stand, the state of the monitor, the tasks the monitor has received
from `statsChan` so far, whether its loop has ended, the pair `minimize` has
returned, and the panic of the program. -/
structure System where
  operations : List Task := []
  operationsClosed : Bool := false
  workerChanClosed : Bool := false
  statsChanClosed : Bool := false
  distributor : Distributor := Distributor.selecting
  workers : List Worker := []
  monitor : Monitor := {}
  received : List Task := []
  loopEnded : Bool := false
  returned : Option (Status × Error) := none
  panicked : Option String := none

/-- One step of one goroutine. -/
inductive Action where
  | methodSend (task : Task)
  | methodClose
  | distribute
  | observeDone
  | drain
  | closeStats
  | work (i : Nat)
  | workerEnd (i : Nat)
  | monitorFromDistributor
  | monitorFromWorker (i : Nat)
  | monitorEnd
  deriving DecidableEq

/-- The `switch task.Op` of the first case of the distributor: the task goes to
`statsChan` or to `workerChan` (the distributor blocks in the send), or the
distributor panics. -/
def distributeTask (sys : System) (task : Task) : System :=
  match route task with
  | Except.error e => { sys with panicked := some e }
  | Except.ok (Routed.toMonitor t) => { sys with distributor := Distributor.toStats t }
  | Except.ok (Routed.toWorkers t) => { sys with distributor := Distributor.toWorkers t }

/-- The body of `for task := range workerChan` up to the send: the worker evaluates
the task in place with its scratch vector and blocks in `statsChan <- task`. -/
def workTask (prob : Problem) (sys : System) (i : Nat) (x : Slice) (task : Task) : System :=
  match task.Location with
  | none =>
    if !isEvaluation task.Op then { sys with panicked := some "optimize: invalid evaluation" }
    else { sys with panicked := some "invalid memory address or nil pointer dereference" }
  | some loc =>
    let r := evaluate prob loc task.Op x
    match r.panicked with
    | some msg => { sys with panicked := some msg }
    | none =>
      { sys with workers :=
          sys.workers.set i (Worker.sending r.x { task with Location := some r.loc }) }

/-- One turn of the loop `for task := range statsChan` of the monitor on the task it
has received. -/
def monitorReceive (prob : Problem) (settings : Settings) (nTasks : Int) (since : Nat → Int)
    (sys : System) (task : Task) : System :=
  match monitorStep prob settings nTasks since sys.monitor task with
  | Except.error e => { sys with panicked := some e }
  | Except.ok m => { sys with monitor := m, received := sys.received ++ [task] }

/-- One step of the goroutines of `minimize`; `none` when the action is not enabled
in the state.

* `methodSend`, `methodClose`: the method sends a task on `operations` (there is
  room in the buffer) or closes it; on a closed channel both panic.
* `distribute`: the case `task := <-operations` of the `select` of the distributor;
  a closed and empty `operations` gives the zero `Task`.
* `observeDone`: the case `<-done`, enabled once the monitor has closed `done`; the
  distributor closes `workerChan` and goes to its loop `range operations`.
* `drain`: one turn of that loop; only a `MajorIteration` is sent on.
* `closeStats`: `operations` is closed and empty; the distributor closes `statsChan`
  and returns.  A worker blocked in a send on `statsChan` panics.
* `work i`: worker `i` receives from `workerChan` the task the distributor is
  sending, and evaluates it.
* `workerEnd i`: worker `i` finds `workerChan` closed and goes to send `signalDone`.
* `monitorFromDistributor`, `monitorFromWorker i`: the monitor receives from
  `statsChan` the task that the distributor, or worker `i`, is sending.
* `monitorEnd`: `statsChan` is closed; the loop of the monitor ends, and the code
  after the loop returns the pair of `finish`, or panics. -/
def sysStep (prob : Problem) (method : Method) (settings : Settings) (nTasks : Int)
    (since : Nat → Int) (sys : System) (a : Action) : Option System :=
  if sys.panicked ≠ none then none
  else
    match a with
    | Action.methodSend task =>
      if sys.operationsClosed then some { sys with panicked := some "send on closed channel" }
      else if (sys.operations.length : Int) < nTasks then
        some { sys with operations := sys.operations ++ [task] }
      else none
    | Action.methodClose =>
      if sys.operationsClosed then some { sys with panicked := some "close of closed channel" }
      else some { sys with operationsClosed := true }
    | Action.distribute =>
      match sys.distributor with
      | Distributor.selecting =>
        match sys.operations with
        | task :: rest => some (distributeTask { sys with operations := rest } task)
        | [] => if sys.operationsClosed then some (distributeTask sys {}) else none
      | _ => none
    | Action.observeDone =>
      match sys.distributor with
      | Distributor.selecting =>
        if 0 < sys.monitor.doneClosed then
          some { sys with workerChanClosed := true, distributor := Distributor.draining }
        else none
      | _ => none
    | Action.drain =>
      match sys.distributor with
      | Distributor.draining =>
        match sys.operations with
        | task :: rest =>
          if task.Op = MajorIteration then
            some { sys with operations := rest, distributor := Distributor.drainToStats task }
          else some { sys with operations := rest }
        | [] => none
      | _ => none
    | Action.closeStats =>
      match sys.distributor with
      | Distributor.draining =>
        if sys.operations = [] ∧ sys.operationsClosed = true then
          if sys.workers.any Worker.blocked then
            some { sys with statsChanClosed := true, distributor := Distributor.returned
                            panicked := some "send on closed channel" }
          else some { sys with statsChanClosed := true, distributor := Distributor.returned }
        else none
      | _ => none
    | Action.work i =>
      match sys.distributor, sys.workers[i]? with
      | Distributor.toWorkers task, some (Worker.receiving x) =>
        some (workTask prob { sys with distributor := Distributor.selecting } i x task)
      | _, _ => none
    | Action.workerEnd i =>
      match sys.workers[i]? with
      | some (Worker.receiving _) =>
        if sys.workerChanClosed then
          if sys.statsChanClosed then some { sys with panicked := some "send on closed channel" }
          else some { sys with workers := sys.workers.set i Worker.signalling }
        else none
      | _ => none
    | Action.monitorFromDistributor =>
      if sys.loopEnded ∨ sys.statsChanClosed then none
      else
        match sys.distributor with
        | Distributor.toStats task =>
          some (monitorReceive prob settings nTasks since
            { sys with distributor := Distributor.selecting } task)
        | Distributor.drainToStats task =>
          some (monitorReceive prob settings nTasks since
            { sys with distributor := Distributor.draining } task)
        | _ => none
    | Action.monitorFromWorker i =>
      if sys.loopEnded ∨ sys.statsChanClosed then none
      else
        match sys.workers[i]? with
        | some (Worker.sending x task) =>
          some (monitorReceive prob settings nTasks since
            { sys with workers := sys.workers.set i (Worker.receiving x) } task)
        | some Worker.signalling =>
          some (monitorReceive prob settings nTasks since
            { sys with workers := sys.workers.set i Worker.returned } { Op := signalDone })
        | _ => none
    | Action.monitorEnd =>
      if sys.statsChanClosed = true ∧ sys.loopEnded = false then
        match finish method sys.monitor with
        | Except.error e => some { sys with loopEnded := true, panicked := some e }
        | Except.ok r => some { sys with loopEnded := true, returned := some r }
      else none

/-- A run of the goroutines of `minimize`: the actions of a schedule, one after the
other; `none` when one of them is not enabled when its turn comes. -/
def runSystem (prob : Problem) (method : Method) (settings : Settings) (nTasks : Int)
    (since : Nat → Int) : System → List Action → Option System
  | sys, [] => some sys
  | sys, a :: rest =>
    match sysStep prob method settings nTasks since sys a with
    | none => none
    | some sys1 => runSystem prob method settings nTasks since sys1 rest

/-- The goroutines as `minimize` starts them: the channels empty and open, the
distributor at its `select`, `nTasks` workers at their `range workerChan`, each with
a scratch vector of `dim` zeros, and the monitor in the state in which it enters its
loop. -/
def startSystem (nTasks : Int) (dim : Nat) (s0 : Monitor) : System :=
  { workers := List.replicate nTasks.toNat (Worker.receiving (Slice.make dim))
    monitor := s0 }

/-! ## Notions used in the statements, and the data of the example runs -/

/-- A location with a zero gradient and `F = 0`. -/
def stillLoc : Location := { X := some [F64.fin 1], Gradient := some [F64.fin 0] }

/-- Settings with a gradient threshold of 1 and a function threshold of 5. -/
def bothThresholds : Settings :=
  { GradientThreshold := F64.fin 1, FunctionThreshold := F64.fin 5 }

/-- The status or the error of the monitor asks for termination. -/
abbrev Monitor.terminated (s : Monitor) : Prop :=
  s.status ≠ Status.NotTerminated ∨ s.err ≠ none

/-- The task `Task{Op: PostIteration}` that the latch sends on `results`. -/
abbrev postTask : Task := { Op := PostIteration }

/-- The state in which the monitor loop of `minimize` is entered: nothing latched,
both channels open, nothing sent. -/
structure Monitor.fresh (s : Monitor) : Prop where
  workersDone : s.workersDone = 0
  status : s.status = Status.NotTerminated
  err : s.err = none
  finalStatus : s.finalStatus = Status.NotTerminated
  finalError : s.finalError = none
  methodDone : s.methodDone = false
  results : s.results = []
  resultsClosed : s.resultsClosed = 0
  doneClosed : s.doneClosed = 0

/-- The number of `PostIteration` tasks in a sequence of tasks. -/
def posts (l : List Task) : Nat := l.countP fun t => t.Op == PostIteration

/-- Settings with a limit of one function evaluation. -/
def limitOne : Settings := { FuncEvaluations := 1 }

/-- A `NoOperation` task. -/
def noopTask : Task := { Op := NoOperation }

/-- A function evaluation task. -/
def evalTask : Task := { Op := FuncEvaluation, Location := some { X := some [F64.fin 1] } }

/-- A `MajorIteration` task at `X = [1]`, `F = 0`. -/
def majorTask : Task := { Op := MajorIteration, Location := some { X := some [F64.fin 1] } }

/-- A `signalDone` task. -/
def doneTask : Task := { Op := signalDone }

/-- The monitor after `noopTask`. -/
def afterNoop : Monitor := { results := [noopTask] }

/-- The monitor after `noopTask`, `evalTask`: the limit is latched. -/
def afterEval : Monitor :=
  { stats := { FuncEvaluations := 1 }, status := Status.FunctionEvaluationLimit,
    finalStatus := Status.FunctionEvaluationLimit, results := [noopTask, postTask, evalTask],
    doneClosed := 1 }

/-- The monitor after `noopTask`, `evalTask`, `majorTask`, `doneTask`. -/
def afterDone : Monitor :=
  { stats := { FuncEvaluations := 1, MajorIterations := 1 }
    optLoc := { X := some [F64.fin 1] }
    workersDone := 1
    finalStatus := Status.FunctionEvaluationLimit
    results := [noopTask, postTask, evalTask, majorTask]
    resultsClosed := 1, doneClosed := 1, ticks := 1 }

/-- A location whose Hessian (of order 1) does not have the order of its `X` (of
length 2). -/
def skewLoc : Location :=
  { X := some [F64.fin 1, F64.fin 2], Hessian := some ⟨1, [F64.fin 5]⟩ }

/-- A location with a gradient and a Hessian of the order of its `X`. -/
def fullLoc : Location :=
  { X := some [F64.fin 1, F64.fin 2], F := F64.fin 3, Gradient := some [F64.fin 4, F64.fin 5],
    Hessian := some ⟨2, [F64.fin 6, F64.fin 7, F64.zero, F64.fin 8]⟩ }

/-- The number of evaluation tasks of a sequence whose operation has the bit `bit`
set. -/
def evaluations (bit : Operation) (tasks : List Task) : Int :=
  (tasks.countP fun t => isEvaluation t.Op && (t.Op &&& bit != 0) : Nat)

/-- A `MethodDone` task. -/
def methodDoneTask : Task := { Op := MethodDone }

/-- A method that is a `Statuser` and answers a status and an error of its own. -/
def stopper : Method := { Status := some (Status.custom 3, some "stop") }

/-- The monitor after `methodDoneTask`, `doneTask`: `MethodConverge` was latched. -/
def afterMethodDone : Monitor :=
  { workersDone := 1, status := Status.MethodConverge, finalStatus := Status.MethodConverge,
    methodDone := true, results := [postTask], resultsClosed := 1, doneClosed := 1 }

/-- A problem with an objective function only. -/
def flat : Problem := { Func := some fun _ => F64.zero }

/-- The `Result` of `Minimize` on the run `noopTask`, `evalTask`, `majorTask`,
`doneTask` under a limit of one function evaluation. -/
def limitResult : Result :=
  { Location := { X := some [F64.fin 1] }
    Stats := { MajorIterations := 1, FuncEvaluations := 1 }
    Status := Status.FunctionEvaluationLimit }

/-- A Recorder whose call number `k` of `Record` (counted from 0) fails. -/
def failingAt (k : Nat) : Recorder :=
  { Record := fun i _ _ _ => if i = k then some "record failed" else none }

/-- A `MajorIteration` task whose location has a zero gradient. -/
def gradTask : Task :=
  { Op := MajorIteration
    Location := some { X := some [F64.fin 1], Gradient := some [F64.fin 0] } }

/-- Settings with a gradient threshold of 1 and a Recorder that fails at its call
number `k`. -/
def thresholdSettings (k : Nat) : Settings :=
  { GradientThreshold := F64.fin 1, Recorder := some (failingAt k) }

/-- A method that needs the gradient. -/
def gradMethod : Method := { Needs := { Gradient := true } }

/-- A problem with an objective function and a gradient. -/
def smooth : Problem :=
  { Func := some fun _ => F64.zero, Grad := some fun g _ => g }

/-- Settings with a Recorder whose call number 1 of `Record`, the first one on a
task, fails. -/
def failingSettings : Settings := { Recorder := some (failingAt 1) }

/-- A method that is a `Statuser` and answers `MethodConverge` and a nil error. -/
def converger : Method := { Status := some (Status.MethodConverge, none) }

/-- A problem whose `Status` answers a status of its own, with a nil error, at its
first call, and `NotTerminated` afterwards. -/
def halting : Problem :=
  { Func := some fun _ => F64.zero
    Status := some fun k => if k = 0 then (Status.custom 7, none) else (Status.NotTerminated, none) }

/-- A problem whose `Status` answers an error at its first call. -/
def broken : Problem :=
  { Func := some fun _ => F64.zero
    Status := some fun _ => (Status.NotTerminated, some "problem failed") }

/-- Settings with a limit of one function evaluation and a Recorder that never
fails. -/
def recordedLimit : Settings := { FuncEvaluations := 1, Recorder := some {} }

/-- A method that needs the Hessian. -/
def hessMethod : Method := { Needs := { Hessian := true } }

/-- What `minimize` has set up when its monitor loop starts: the count of tasks (the
buffer length of `operations` and `results`), the `tasks` slice handed to
`method.Run`, and the number of workers started. -/
structure Launch where
  nTasks : Int
  tasks : List Task
  workers : Nat
  deriving DecidableEq

/-- The `tasks` slice that `minimize` builds for `method.Run`: `nTasks` tasks, the
first with the initial location and operation, each other one with a location from
`newLocation` (and the zero `Op` and `ID`). -/
def runTasks (nTasks : Nat) (initOp : Operation) (initLoc : Location) (dim : Nat)
    (method : Method) : List Task :=
  (List.range nTasks).map fun i =>
    if i = 0 then { Op := initOp, Location := some initLoc }
    else { Location := some (newLocation dim method) }

/-- The start of `minimize`, up to the monitor loop: the count of tasks asked of
`method.Init`, the panics on its answer (too many tasks; a negative size of the
channels; no element 0 in an empty `tasks`), the `tasks` of `method.Run` and the
workers. -/
def launch (method : Method) (settings : Settings) (initOp : Operation)
    (initLoc optLoc : Location) : Except String Launch :=
  let dim := optLoc.X.len
  let nTasks := requestedTasks settings
  let newNTasks := method.Init dim nTasks
  if newNTasks > nTasks then Except.error "optimize: too many tasks returned by Method"
  else
    let nTasks := newNTasks
    if nTasks < 0 then Except.error "makechan: size out of range"
    else if nTasks = 0 then Except.error "index out of range [0] with length 0"
    else Except.ok
      { nTasks := nTasks
        tasks := runTasks nTasks.toNat initOp initLoc dim method
        workers := nTasks.toNat }

/-- Settings with a negative `Concurrent`. -/
def negativeConcurrent : Settings := { Concurrent := -2 }

/-- A method that asks for two tasks whatever it is offered. -/
def twoTasks : Method := { Init := fun _ _ => 2 }

/-- A method that takes all the tasks it is offered and needs the gradient. -/
def greedy : Method := { Needs := { Gradient := true } }

/-- Settings with three concurrent tasks. -/
def threeConcurrent : Settings := { Concurrent := 3 }

/-- Initial values with `F = 3`, a gradient and a Hessian of dimension 2. -/
def knownValues : Location :=
  { F := F64.fin 3, Gradient := some [F64.fin 4, F64.fin 5]
    Hessian := some ⟨2, [F64.fin 6, F64.fin 7, F64.zero, F64.fin 8]⟩ }

/-- Settings with the function threshold at negative infinity and the gradient
threshold at zero. -/
def noThresholds : Settings := { FunctionThreshold := F64.negInf, GradientThreshold := F64.zero }

/-- A location with a very low `F` and a zero gradient. -/
def lowLoc : Location :=
  { X := some [F64.fin 1], F := F64.fin (-1000000), Gradient := some [F64.fin 0] }

/-- The operations of the tasks that the monitor hands to the Recorder:
evaluations, `NoOperation` and `MajorIteration`. -/
def recordedOp (op : Operation) : Prop :=
  isEvaluation op = true ∨ op = NoOperation ∨ op = MajorIteration

/-- Two evaluation tasks for a worker: a function evaluation at `[3, 4]`, then a
function and gradient evaluation at the same point. -/
def workload : List Task :=
  [{ ID := 1, Op := FuncEvaluation, Location := some roomyLoc },
   { ID := 2, Op := FuncEvaluation ||| GradEvaluation, Location := some roomyLoc }]

/-- The number of `signalDone` tasks in a sequence of tasks. -/
def signals (l : List Task) : Nat := l.countP fun t => t.Op == signalDone

/-- What holds of the channels `results` and `done` in every state of the monitor
loop: `results` is closed at most once, and it is closed when and only when
`workersDone` has reached `nTasks`; `done` is closed once a termination is seen; one
`PostIteration` task has been sent on `results` when `done` is closed, none
before. -/
def Monitor.safe (nTasks : Int) (s : Monitor) : Prop :=
  s.resultsClosed ≤ 1 ∧ (0 < s.resultsClosed ↔ nTasks ≤ s.workersDone) ∧
  (s.terminated → 0 < s.doneClosed) ∧ posts s.results = s.doneClosed ∧ s.doneClosed ≤ 1

/-- A run of a call of `minimize` under a schedule of its goroutines, from the start
of `minimize` (the count of tasks agreed with the method, `launch`) and the entry
state of the monitor; `none` when `minimize` panics before it starts them, or when
the schedule is not one of the goroutines. -/
def runMinimize (prob : Problem) (method : Method) (settings : Settings) (stats : Stats)
    (initOp : Operation) (initLoc : Location) (optLoc : Location) (since : Nat → Int)
    (calls : Calls) (schedule : List Action) : Option System :=
  match launch method settings initOp initLoc optLoc with
  | Except.error _ => none
  | Except.ok l =>
    runSystem prob method settings l.nTasks since
      (startSystem l.nTasks optLoc.X.len (entry stats optLoc calls)) schedule

/-- What holds of every state of the goroutines of `minimize` that a schedule
reaches from the entry state `s0` of the monitor: the state of the monitor is that of
the loop of the monitor on the tasks received; the distributor has taken its case
`<-done`, and `statsChan` is closed, only when `done` is closed; the loop of the
monitor has ended only when `statsChan` is closed; a pair is returned only after the
loop, and it is the pair of `finish`. -/
def System.sound (prob : Problem) (method : Method) (settings : Settings) (nTasks : Int)
    (since : Nat → Int) (s0 : Monitor) (sys : System) : Prop :=
  monitorLoop prob settings nTasks since s0 sys.received = Except.ok sys.monitor ∧
  (sys.distributor.sawDone = true → 0 < sys.monitor.doneClosed) ∧
  (sys.statsChanClosed = true → 0 < sys.monitor.doneClosed) ∧
  (sys.loopEnded = true → sys.statsChanClosed = true) ∧
  (∀ r, sys.returned = some r → sys.loopEnded = true ∧ finish method sys.monitor = Except.ok r)

/-- A schedule of the goroutines for the run `noopTask`, `evalTask`, `majorTask`,
`doneTask` with one worker: the method sends a `NoOperation` and a function
evaluation, the limit of one evaluation is latched, the distributor sees `done`
closed and drains a `MajorIteration`, the worker signals its end, the method closes
`operations`, the distributor closes `statsChan`, and the loop of the monitor
ends. -/
def shutdownSchedule : List Action :=
  [Action.methodSend noopTask, Action.distribute, Action.monitorFromDistributor,
   Action.methodSend evalTask, Action.distribute, Action.work 0, Action.monitorFromWorker 0,
   Action.methodSend majorTask, Action.observeDone, Action.drain,
   Action.monitorFromDistributor, Action.workerEnd 0, Action.monitorFromWorker 0,
   Action.methodClose, Action.closeStats, Action.monitorEnd]

/-- The goroutines at the end of `shutdownSchedule`, from the entry state `{}` of
the monitor. -/
def shutdownSystem : System :=
  { operationsClosed := true, workerChanClosed := true, statsChanClosed := true
    distributor := Distributor.returned, workers := [Worker.returned]
    monitor := afterDone, received := [noopTask, evalTask, majorTask, doneTask]
    loopEnded := true, returned := some (Status.FunctionEvaluationLimit, none) }

/-- The goroutines at the end of `shutdownSchedule` in the call of `minimize` that
`Minimize` makes at `initX = [10]`: the clock has been read once more. -/
def shutdownResult : System :=
  { shutdownSystem with monitor := { afterDone with ticks := 2 } }

/-! ## Evaluation limits and location convergence -/

/-- C1: when `problem.Status` is absent or answers `(NotTerminated, nil)`,
`checkEvaluationLimits` returns a nil error and the status of the first limit that
is positive and reached, in the order function, gradient, Hessian evaluations, and
`NotTerminated` when there is none; a limit that is zero or negative never yields
its status. -/
theorem checkEvaluationLimits_limits (p : Problem) (polls : Nat) (stats : Stats)
    (settings : Settings)
    (h : p.Status = none ∨ ∃ f, p.Status = some f ∧ f polls = (Status.NotTerminated, none)) :
    (checkEvaluationLimits p polls stats settings).2.1 = none ∧
    (checkEvaluationLimits p polls stats settings).1 =
      (if settings.FuncEvaluations > 0 ∧ stats.FuncEvaluations ≥ settings.FuncEvaluations then
        Status.FunctionEvaluationLimit
      else if settings.GradEvaluations > 0 ∧ stats.GradEvaluations ≥ settings.GradEvaluations then
        Status.GradientEvaluationLimit
      else if settings.HessEvaluations > 0 ∧ stats.HessEvaluations ≥ settings.HessEvaluations then
        Status.HessianEvaluationLimit
      else Status.NotTerminated) ∧
    (settings.FuncEvaluations ≤ 0 →
      (checkEvaluationLimits p polls stats settings).1 ≠ Status.FunctionEvaluationLimit) ∧
    (settings.GradEvaluations ≤ 0 →
      (checkEvaluationLimits p polls stats settings).1 ≠ Status.GradientEvaluationLimit) ∧
    (settings.HessEvaluations ≤ 0 →
      (checkEvaluationLimits p polls stats settings).1 ≠ Status.HessianEvaluationLimit) ∧
    (settings.FuncEvaluations ≤ 0 → settings.GradEvaluations ≤ 0 →
      settings.HessEvaluations ≤ 0 →
      (checkEvaluationLimits p polls stats settings).1 = Status.NotTerminated) := by
  have key : checkEvaluationLimits p polls stats settings =
      (if settings.FuncEvaluations > 0 ∧ stats.FuncEvaluations ≥ settings.FuncEvaluations then
        (Status.FunctionEvaluationLimit, none, if p.Status.isSome then polls + 1 else polls)
      else if settings.GradEvaluations > 0 ∧ stats.GradEvaluations ≥ settings.GradEvaluations then
        (Status.GradientEvaluationLimit, none, if p.Status.isSome then polls + 1 else polls)
      else if settings.HessEvaluations > 0 ∧ stats.HessEvaluations ≥ settings.HessEvaluations then
        (Status.HessianEvaluationLimit, none, if p.Status.isSome then polls + 1 else polls)
      else (Status.NotTerminated, none, if p.Status.isSome then polls + 1 else polls)) := by
    rcases h with h | ⟨f, hf, hv⟩
    · simp [checkEvaluationLimits, h]
    · simp [checkEvaluationLimits, hf, hv]
  rw [key]
  refine ⟨?_, ?_, ?_, ?_, ?_, ?_⟩
  · split_ifs <;> rfl
  · split_ifs <;> rfl
  · intro h0
    split_ifs <;> first | omega | simp
  · intro h0
    split_ifs <;> first | omega | simp
  · intro h0
    split_ifs <;> first | omega | simp
  · intro h1 h2 h3
    split_ifs <;> first | omega | rfl

/-- Witness of C1: a problem without `Status`, one function evaluation made, a limit
of one function evaluation. -/
theorem checkEvaluationLimits_limits_witness :
    (({} : Problem).Status = none ∨
      ∃ f, ({} : Problem).Status = some f ∧ f 0 = (Status.NotTerminated, none)) ∧
    (checkEvaluationLimits {} 0 { FuncEvaluations := 1 } { FuncEvaluations := 1 }).1 =
      Status.FunctionEvaluationLimit :=
  ⟨Or.inl rfl,
   (checkEvaluationLimits_limits {} 0 { FuncEvaluations := 1 } { FuncEvaluations := 1 }
      (Or.inl rfl)).2.1.trans (by decide)⟩

/-- C2: `checkLocationConvergence` returns the first verdict that applies, in the
order: `FunctionNegativeInfinity` when `F` is negative infinity; `GradientThreshold`
when a gradient is present and its infinity norm is strictly below
`settings.GradientThreshold`; `FunctionThreshold` when `F` is strictly below
`settings.FunctionThreshold`; the verdict of `settings.FunctionConverge` when one is
configured (asked exactly once, and only then); `NotTerminated`. -/
theorem checkLocationConvergence_order (loc : Location) (settings : Settings) (calls : Nat) :
    (loc.F = F64.negInf →
      checkLocationConvergence loc settings calls = (Status.FunctionNegativeInfinity, calls)) ∧
    (loc.F ≠ F64.negInf → loc.Gradient ≠ none →
      F64.lt (normInf loc.Gradient) settings.GradientThreshold = true →
      checkLocationConvergence loc settings calls = (Status.GradientThreshold, calls)) ∧
    (loc.F ≠ F64.negInf →
      ¬ (loc.Gradient ≠ none ∧
          F64.lt (normInf loc.Gradient) settings.GradientThreshold = true) →
      F64.lt loc.F settings.FunctionThreshold = true →
      checkLocationConvergence loc settings calls = (Status.FunctionThreshold, calls)) ∧
    (loc.F ≠ F64.negInf →
      ¬ (loc.Gradient ≠ none ∧
          F64.lt (normInf loc.Gradient) settings.GradientThreshold = true) →
      F64.lt loc.F settings.FunctionThreshold = false →
      (∀ c, settings.FunctionConverge = some c →
        checkLocationConvergence loc settings calls = (c calls loc.F, calls + 1)) ∧
      (settings.FunctionConverge = none →
        checkLocationConvergence loc settings calls = (Status.NotTerminated, calls))) := by
  have hinf : ∀ f : F64, F64.isNegInf f = true ↔ f = F64.negInf := by
    intro f
    cases f <;> simp [F64.isNegInf]
  refine ⟨?_, ?_, ?_, ?_⟩
  · intro h
    simp [checkLocationConvergence, (hinf loc.F).2 h]
  · intro h hg hn
    have h1 : ¬ F64.isNegInf loc.F = true := fun hc => h ((hinf loc.F).1 hc)
    unfold checkLocationConvergence
    rw [if_neg h1, if_pos ⟨hg, hn⟩]
  · intro h hg hf
    have h1 : ¬ F64.isNegInf loc.F = true := fun hc => h ((hinf loc.F).1 hc)
    unfold checkLocationConvergence
    rw [if_neg h1, if_neg hg, if_pos hf]
  · intro h hg hf
    have h1 : ¬ F64.isNegInf loc.F = true := fun hc => h ((hinf loc.F).1 hc)
    have h2 : ¬ F64.lt loc.F settings.FunctionThreshold = true := by simp [hf]
    refine ⟨?_, ?_⟩
    · intro c hc
      unfold checkLocationConvergence
      rw [if_neg h1, if_neg hg, if_neg h2, hc]
    · intro hc
      unfold checkLocationConvergence
      rw [if_neg h1, if_neg hg, if_neg h2, hc]

/-- Witness of C2: at `stillLoc` both thresholds are met, and the verdict is
`GradientThreshold`, the first of the two in the order. -/
theorem checkLocationConvergence_order_witness :
    F64.lt stillLoc.F bothThresholds.FunctionThreshold = true ∧
    checkLocationConvergence stillLoc bothThresholds 0 = (Status.GradientThreshold, 0) :=
  ⟨by decide,
   (checkLocationConvergence_order stillLoc bothThresholds 0).2.1 (by decide) (by decide)
     (by decide)⟩

/-! ## Operations -/

/-- An evaluation operation is none of the tags the monitor singles out. -/
theorem isEvaluation_tags (op : Operation) (h : isEvaluation op = true) :
    op ≠ signalDone ∧ op ≠ NoOperation ∧ op ≠ MajorIteration ∧ op ≠ MethodDone ∧
    op ≠ PostIteration ∧ op ≠ InitIteration := by
  refine ⟨?_, ?_, ?_, ?_, ?_, ?_⟩ <;>
  · intro hc
    rw [hc] at h
    exact absurd h (by decide)

/-! ## The blocks of the monitor loop, one by one -/

theorem terminated_iff (s : Monitor) :
    ¬ s.terminated ↔ s.status = Status.NotTerminated ∧ s.err = none := by
  unfold Monitor.terminated
  constructor
  · intro h
    exact ⟨by_contra fun h1 => h (Or.inl h1), by_contra fun h2 => h (Or.inr h2)⟩
  · rintro ⟨h1, h2⟩ (h | h)
    · exact h h1
    · exact h h2

theorem sendResults_open (s : Monitor) (task : Task) (h : s.resultsClosed = 0) :
    sendResults s task = Except.ok { s with results := s.results ++ [task] } := by
  simp [sendResults, h]

theorem sendResults_closed (s : Monitor) (task : Task) (h : 0 < s.resultsClosed) :
    sendResults s task = Except.error "send on closed channel" := by
  simp [sendResults, h]

theorem sendResults_ok (s s1 : Monitor) (task : Task) (h : sendResults s task = Except.ok s1) :
    s.resultsClosed = 0 ∧ s1 = { s with results := s.results ++ [task] } := by
  rcases Nat.eq_zero_or_pos s.resultsClosed with h0 | h0
  · rw [sendResults_open s task h0] at h
    exact ⟨h0, (Except.ok.inj h).symm⟩
  · rw [sendResults_closed s task h0] at h
    exact absurd h (by simp)

theorem latch_quiet (s : Monitor) (h : ¬ s.terminated) : latch s = Except.ok s := by
  unfold latch
  rw [if_neg h]

theorem latch_again (s : Monitor) (h : 0 < s.doneClosed) : latch s = Except.ok s := by
  unfold latch
  split_ifs <;> rfl

theorem latch_first (s : Monitor) (h : s.terminated) (hd : s.doneClosed = 0)
    (hr : s.resultsClosed = 0) :
    latch s = Except.ok { s with finalStatus := s.status, finalError := s.err,
                                 results := s.results ++ [postTask], doneClosed := 1 } := by
  unfold latch
  rw [if_pos h, if_neg (by omega)]
  simp [sendResults, hr, hd, bind, Except.bind]

theorem latch_first_closed (s : Monitor) (h : s.terminated) (hd : s.doneClosed = 0)
    (hr : 0 < s.resultsClosed) : latch s = Except.error "send on closed channel" := by
  unfold latch
  rw [if_pos h, if_neg (by omega)]
  simp [sendResults, hr, bind, Except.bind]

/-- The two ways the latch goes through: nothing happens, or the first termination
is latched. -/
theorem latch_ok (s s1 : Monitor) (h : latch s = Except.ok s1) :
    (s1 = s ∧ (¬ s.terminated ∨ 0 < s.doneClosed)) ∨
    (s.terminated ∧ s.doneClosed = 0 ∧ s.resultsClosed = 0 ∧
      s1 = { s with finalStatus := s.status, finalError := s.err,
                    results := s.results ++ [postTask], doneClosed := 1 }) := by
  by_cases ht : s.terminated
  · rcases Nat.eq_zero_or_pos s.doneClosed with hd | hd
    · rcases Nat.eq_zero_or_pos s.resultsClosed with hr | hr
      · rw [latch_first s ht hd hr] at h
        exact Or.inr ⟨ht, hd, hr, (Except.ok.inj h).symm⟩
      · rw [latch_first_closed s ht hd hr] at h
        exact absurd h (by simp)
    · rw [latch_again s hd] at h
      exact Or.inl ⟨(Except.ok.inj h).symm, Or.inr hd⟩
  · rw [latch_quiet s ht] at h
    exact Or.inl ⟨(Except.ok.inj h).symm, Or.inl ht⟩

/-- What the latch leaves as it is. -/
theorem latch_frame (s s1 : Monitor) (h : latch s = Except.ok s1) :
    s1.stats = s.stats ∧ s1.optLoc = s.optLoc ∧ s1.workersDone = s.workersDone ∧
    s1.status = s.status ∧ s1.err = s.err ∧ s1.methodDone = s.methodDone ∧
    s1.resultsClosed = s.resultsClosed ∧ s1.polls = s.polls ∧ s1.records = s.records ∧
    s1.converges = s.converges ∧ s1.ticks = s.ticks := by
  rcases latch_ok s s1 h with ⟨rfl, -⟩ | ⟨-, -, -, rfl⟩ <;> simp

/-- The two ways the return of a task goes through: dropped, or sent. -/
theorem returnTask_ok (nTasks : Int) (s s1 : Monitor) (task : Task)
    (h : returnTask nTasks s task = Except.ok s1) :
    (s1 = s ∧ ¬ (s.workersDone ≠ nTasks ∧ task.Op ≠ MethodDone)) ∨
    (s.workersDone ≠ nTasks ∧ task.Op ≠ MethodDone ∧ s.resultsClosed = 0 ∧
      s1 = { s with results := s.results ++ [task] }) := by
  unfold returnTask at h
  by_cases hc : s.workersDone ≠ nTasks ∧ task.Op ≠ MethodDone
  · rw [if_pos hc] at h
    obtain ⟨h0, h1⟩ := sendResults_ok s s1 task h
    exact Or.inr ⟨hc.1, hc.2, h0, h1⟩
  · rw [if_neg hc] at h
    exact Or.inl ⟨(Except.ok.inj h).symm, hc⟩

/-- What the return of a task leaves as it is: all but the tasks sent. -/
theorem returnTask_frame (nTasks : Int) (s s1 : Monitor) (task : Task)
    (h : returnTask nTasks s task = Except.ok s1) :
    s1.stats = s.stats ∧ s1.optLoc = s.optLoc ∧ s1.workersDone = s.workersDone ∧
    s1.status = s.status ∧ s1.err = s.err ∧ s1.finalStatus = s.finalStatus ∧
    s1.finalError = s.finalError ∧ s1.methodDone = s.methodDone ∧
    s1.resultsClosed = s.resultsClosed ∧ s1.doneClosed = s.doneClosed ∧
    s1.polls = s.polls ∧ s1.records = s.records ∧ s1.converges = s.converges ∧
    s1.ticks = s.ticks := by
  rcases returnTask_ok nTasks s s1 task h with ⟨rfl, -⟩ | ⟨-, -, -, rfl⟩ <;> simp

theorem returnTask_open (nTasks : Int) (s : Monitor) (task : Task) (h : s.resultsClosed = 0) :
    ∃ s1, returnTask nTasks s task = Except.ok s1 := by
  unfold returnTask
  split_ifs
  · exact ⟨_, sendResults_open s task h⟩
  · exact ⟨_, rfl⟩

theorem latch_open (s : Monitor) (h : s.resultsClosed = 0) :
    ∃ s1, latch s = Except.ok s1 := by
  by_cases ht : s.terminated
  · rcases Nat.eq_zero_or_pos s.doneClosed with hd | hd
    · exact ⟨_, latch_first s ht hd h⟩
    · exact ⟨_, latch_again s hd⟩
  · exact ⟨_, latch_quiet s ht⟩

/-- The Recorder is not called on a status or an error that terminates. -/
theorem recordTask_terminated (settings : Settings) (since : Nat → Int) (s : Monitor)
    (task : Task) (h : s.terminated) : recordTask settings since s task = s := by
  unfold recordTask
  cases settings.Recorder with
  | none => rfl
  | some r => simp only [if_neg ((terminated_iff s).not_right.1 h)]

/-- Without a Recorder nothing is recorded. -/
theorem recordTask_none (settings : Settings) (since : Nat → Int) (s : Monitor)
    (task : Task) (h : settings.Recorder = none) : recordTask settings since s task = s := by
  unfold recordTask
  rw [h]

/-- The call of the Recorder, when it is made. -/
theorem recordTask_some (settings : Settings) (since : Nat → Int) (s : Monitor)
    (task : Task) (r : Recorder) (h : settings.Recorder = some r) (hq : ¬ s.terminated) :
    recordTask settings since s task =
      { s with stats := { s.stats with Runtime := since s.ticks }
               ticks := s.ticks + 1
               err := r.Record s.records.length task.Location task.Op
                        { s.stats with Runtime := since s.ticks }
               records := s.records ++
                 [⟨task.Location, task.Op, { s.stats with Runtime := since s.ticks }⟩]
               status := if r.Record s.records.length task.Location task.Op
                        { s.stats with Runtime := since s.ticks } ≠ none
                      then Status.Failure else s.status } := by
  unfold recordTask
  rw [h]
  simp only [if_pos ((terminated_iff s).1 hq)]

/-- What the call of the Recorder leaves as it is. -/
theorem recordTask_frame (settings : Settings) (since : Nat → Int) (s : Monitor)
    (task : Task) :
    (recordTask settings since s task).optLoc = s.optLoc ∧
    (recordTask settings since s task).workersDone = s.workersDone ∧
    (recordTask settings since s task).finalStatus = s.finalStatus ∧
    (recordTask settings since s task).finalError = s.finalError ∧
    (recordTask settings since s task).methodDone = s.methodDone ∧
    (recordTask settings since s task).results = s.results ∧
    (recordTask settings since s task).resultsClosed = s.resultsClosed ∧
    (recordTask settings since s task).doneClosed = s.doneClosed ∧
    (recordTask settings since s task).polls = s.polls ∧
    (recordTask settings since s task).converges = s.converges ∧
    (recordTask settings since s task).stats.MajorIterations = s.stats.MajorIterations ∧
    (recordTask settings since s task).stats.FuncEvaluations = s.stats.FuncEvaluations ∧
    (recordTask settings since s task).stats.GradEvaluations = s.stats.GradEvaluations ∧
    (recordTask settings since s task).stats.HessEvaluations = s.stats.HessEvaluations := by
  by_cases ht : s.terminated
  · rw [recordTask_terminated settings since s task ht]
    simp
  · cases hr : settings.Recorder with
    | none =>
      rw [recordTask_none settings since s task hr]
      simp
    | some r =>
      rw [recordTask_some settings since s task r hr ht]
      simp

/-- The monitor step on a task that is not `signalDone` is the sequence of its four
blocks. -/
theorem monitorStep_blocks (prob : Problem) (settings : Settings) (nTasks : Int)
    (since : Nat → Int) (s s1 : Monitor) (task : Task) (h : task.Op ≠ signalDone) :
    monitorStep prob settings nTasks since s task = Except.ok s1 ↔
      ∃ a b, handleTask prob settings since s task = Except.ok a ∧
        latch (recordTask settings since a task) = Except.ok b ∧
        returnTask nTasks b task = Except.ok s1 := by
  unfold monitorStep
  rw [if_neg h]
  constructor
  · intro hs
    cases ha : handleTask prob settings since s task with
    | error e => simp [ha, bind, Except.bind] at hs
    | ok a =>
      cases hb : latch (recordTask settings since a task) with
      | error e => simp [ha, hb, bind, Except.bind] at hs
      | ok b =>
        refine ⟨a, b, rfl, hb, ?_⟩
        simpa [ha, hb, bind, Except.bind] using hs
  · rintro ⟨a, b, ha, hb, hs⟩
    simpa [ha, hb, bind, Except.bind] using hs

/-- The monitor step on a `signalDone` task: one more worker is done, and `results`
is closed when that makes `nTasks`. -/
theorem monitorStep_signalDone (prob : Problem) (settings : Settings) (nTasks : Int)
    (since : Nat → Int) (s s1 : Monitor) (task : Task) (h : task.Op = signalDone)
    (hs : monitorStep prob settings nTasks since s task = Except.ok s1) :
    s1 = { s with workersDone := s.workersDone + 1
                  resultsClosed := if s.workersDone + 1 = nTasks then 1 else s.resultsClosed } ∧
    (s.workersDone + 1 = nTasks → s.resultsClosed = 0) := by
  unfold monitorStep at hs
  rw [if_pos h] at hs
  by_cases hn : s.workersDone + 1 = nTasks
  · simp only [hn, if_true, closeResults] at hs
    rcases Nat.eq_zero_or_pos s.resultsClosed with h0 | h0
    · simp only [h0, gt_iff_lt, lt_self_iff_false, if_false] at hs
      refine ⟨?_, fun _ => h0⟩
      rw [← Except.ok.inj hs]
      simp [hn, h0]
    · simp [h0] at hs
  · simp only [hn, if_false] at hs
    refine ⟨?_, fun hc => absurd hc hn⟩
    rw [← Except.ok.inj hs]
    simp [hn]

/-- The evaluation branch of the monitor's `switch`. -/
theorem handleTask_evaluation (prob : Problem) (settings : Settings) (since : Nat → Int)
    (s : Monitor) (task : Task) (h : isEvaluation task.Op = true) :
    handleTask prob settings since s task = Except.ok
      { s with stats := updateEvaluationStats s.stats task.Op,
               status := (checkEvaluationLimits prob s.polls
                  (updateEvaluationStats s.stats task.Op) settings).1,
               err := (checkEvaluationLimits prob s.polls
                  (updateEvaluationStats s.stats task.Op) settings).2.1,
               polls := (checkEvaluationLimits prob s.polls
                  (updateEvaluationStats s.stats task.Op) settings).2.2 } := by
  obtain ⟨-, h2, h3, h4, -, -⟩ := isEvaluation_tags task.Op h
  simp only [handleTask, if_neg h2, if_neg h3, if_neg h4, h]
  rfl

/-! ## Polling `problem.Status` -/

/-- An answer of `problem.Status` that terminates is what `checkEvaluationLimits`
returns. -/
theorem checkEvaluationLimits_status (p : Problem) (f : Nat → Status × Error) (polls : Nat)
    (stats : Stats) (settings : Settings) (hf : p.Status = some f)
    (h : (f polls).1 ≠ Status.NotTerminated ∨ (f polls).2 ≠ none) :
    checkEvaluationLimits p polls stats settings = ((f polls).1, (f polls).2, polls + 1) := by
  unfold checkEvaluationLimits
  simp only [hf]
  rw [if_pos (Or.symm h)]

/-- Every call of `checkEvaluationLimits` polls a `problem.Status` that is set
exactly once. -/
theorem checkEvaluationLimits_polls (p : Problem) (f : Nat → Status × Error) (polls : Nat)
    (stats : Stats) (settings : Settings) (hf : p.Status = some f) :
    (checkEvaluationLimits p polls stats settings).2.2 = polls + 1 := by
  unfold checkEvaluationLimits
  simp only [hf]
  split_ifs <;> rfl

/-- C3: when `problem.Status` is set, the monitor polls it exactly once for every
evaluation task it processes (and the processing goes through while `results` is
open); and an answer with a status other than `NotTerminated` or a non-nil error is
what `checkEvaluationLimits` returns, whatever the counters and the limits: the
monitor then holds that pair as its status and error, `done` is closed, and the
pair is the final status and error when no termination came before. -/
theorem problem_status_polled (prob : Problem) (f : Nat → Status × Error)
    (hf : prob.Status = some f) :
    (∀ (polls : Nat) (stats : Stats) (settings : Settings),
      ((f polls).1 ≠ Status.NotTerminated ∨ (f polls).2 ≠ none) →
      checkEvaluationLimits prob polls stats settings = ((f polls).1, (f polls).2, polls + 1)) ∧
    (∀ (settings : Settings) (nTasks : Int) (since : Nat → Int) (s : Monitor) (task : Task),
      isEvaluation task.Op = true →
      (s.resultsClosed = 0 → ∃ s1, monitorStep prob settings nTasks since s task = Except.ok s1) ∧
      (∀ s1, monitorStep prob settings nTasks since s task = Except.ok s1 →
        s1.polls = s.polls + 1 ∧
        (((f s.polls).1 ≠ Status.NotTerminated ∨ (f s.polls).2 ≠ none) →
          s1.status = (f s.polls).1 ∧ s1.err = (f s.polls).2 ∧ 0 < s1.doneClosed ∧
          (s.doneClosed = 0 →
            s1.finalStatus = (f s.polls).1 ∧ s1.finalError = (f s.polls).2 ∧
            s1.doneClosed = 1)))) := by
  refine ⟨fun polls stats settings h =>
    checkEvaluationLimits_status prob f polls stats settings hf h, ?_⟩
  intro settings nTasks since s task hev
  have hsd : task.Op ≠ signalDone := (isEvaluation_tags task.Op hev).1
  have hp := checkEvaluationLimits_polls prob f s.polls (updateEvaluationStats s.stats task.Op)
    settings hf
  have ha := handleTask_evaluation prob settings since s task hev
  refine ⟨?_, ?_⟩
  · intro hopen
    obtain ⟨a, ha0, hA⟩ : ∃ a, handleTask prob settings since s task = Except.ok a ∧
        a.resultsClosed = s.resultsClosed := ⟨_, ha, rfl⟩
    have h1 : (recordTask settings since a task).resultsClosed = 0 :=
      ((recordTask_frame settings since a task).2.2.2.2.2.2.1).trans (hA.trans hopen)
    obtain ⟨b, hb⟩ := latch_open (recordTask settings since a task) h1
    obtain ⟨s1, hs1⟩ := returnTask_open nTasks b task
      (((latch_frame _ b hb).2.2.2.2.2.2.1).trans h1)
    exact ⟨s1, (monitorStep_blocks prob settings nTasks since s s1 task hsd).2
      ⟨a, b, ha0, hb, hs1⟩⟩
  · intro s1 hs1
    obtain ⟨a, b, ha1, hb, hr⟩ := (monitorStep_blocks prob settings nTasks since s s1 task hsd).1 hs1
    rw [ha] at ha1
    have haeq := Except.ok.inj ha1
    subst haeq
    have fr := returnTask_frame nTasks b s1 task hr
    have fl := latch_frame _ b hb
    have frec := recordTask_frame settings since
      { s with stats := updateEvaluationStats s.stats task.Op,
               status := (checkEvaluationLimits prob s.polls
                  (updateEvaluationStats s.stats task.Op) settings).1,
               err := (checkEvaluationLimits prob s.polls
                  (updateEvaluationStats s.stats task.Op) settings).2.1,
               polls := (checkEvaluationLimits prob s.polls
                  (updateEvaluationStats s.stats task.Op) settings).2.2 } task
    refine ⟨?_, ?_⟩
    · rw [fr.2.2.2.2.2.2.2.2.2.2.1, fl.2.2.2.2.2.2.2.1, frec.2.2.2.2.2.2.2.2.1]
      exact hp
    · intro hterm
      have hce := checkEvaluationLimits_status prob f s.polls
        (updateEvaluationStats s.stats task.Op) settings hf hterm
      have hrec := recordTask_terminated settings since
        { s with stats := updateEvaluationStats s.stats task.Op,
                 status := (checkEvaluationLimits prob s.polls
                    (updateEvaluationStats s.stats task.Op) settings).1,
                 err := (checkEvaluationLimits prob s.polls
                    (updateEvaluationStats s.stats task.Op) settings).2.1,
                 polls := (checkEvaluationLimits prob s.polls
                    (updateEvaluationStats s.stats task.Op) settings).2.2 } task
        (by simpa [Monitor.terminated, hce] using hterm)
      rw [hrec] at hb fl
      refine ⟨?_, ?_, ?_, ?_⟩
      · rw [fr.2.2.2.1, fl.2.2.2.1]
        simp [hce]
      · rw [fr.2.2.2.2.1, fl.2.2.2.2.1]
        simp [hce]
      · rw [fr.2.2.2.2.2.2.2.2.2.1]
        rcases latch_ok _ b hb with ⟨-, hq | hd⟩ | ⟨-, -, -, rfl⟩
        · exact absurd (by simpa [Monitor.terminated, hce] using hterm) hq
        · rcases latch_ok _ b hb with ⟨rfl, -⟩ | ⟨-, hd0, -, -⟩
          · exact hd
          · omega
        · simp
      · intro hd0
        rw [fr.2.2.2.2.2.1, fr.2.2.2.2.2.2.1, fr.2.2.2.2.2.2.2.2.2.1]
        rcases latch_ok _ b hb with ⟨-, hq | hd⟩ | ⟨-, -, -, rfl⟩
        · exact absurd (by simpa [Monitor.terminated, hce] using hterm) hq
        · simp only at hd
          omega
        · simp [hce]

/-- Witness of C3: a problem whose `Status` always answers a status of its own. -/
theorem problem_status_polled_witness :
    ({ Status := some fun _ => (Status.custom 7, none) } : Problem).Status =
        some (fun _ => (Status.custom 7, none)) ∧
      checkEvaluationLimits { Status := some fun _ => (Status.custom 7, none) } 0 {}
        { FuncEvaluations := 5 } = (Status.custom 7, none, 1) :=
  ⟨rfl, (problem_status_polled _ _ rfl).1 0 {} { FuncEvaluations := 5 } (Or.inl (by decide))⟩

/-! ## The first-termination latch -/

/-- The four branches of the monitor's `switch` that go through. -/
theorem handleTask_ok (prob : Problem) (settings : Settings) (since : Nat → Int)
    (s a : Monitor) (task : Task) (h : handleTask prob settings since s task = Except.ok a) :
    (task.Op = NoOperation ∧ a = s) ∨
    (task.Op = MajorIteration ∧ ∃ loc, task.Location = some loc ∧
      a = { s with
        status := (performMajorIteration s.optLoc loc s.stats (since s.ticks) settings
                    s.converges).1
        optLoc := (performMajorIteration s.optLoc loc s.stats (since s.ticks) settings
                    s.converges).2.1
        stats := (performMajorIteration s.optLoc loc s.stats (since s.ticks) settings
                    s.converges).2.2.1
        converges := (performMajorIteration s.optLoc loc s.stats (since s.ticks) settings
                    s.converges).2.2.2
        ticks := s.ticks + 1 }) ∨
    (task.Op = MethodDone ∧ a = { s with methodDone := true, status := Status.MethodConverge }) ∨
    (isEvaluation task.Op = true ∧
      a = { s with stats := updateEvaluationStats s.stats task.Op,
                   status := (checkEvaluationLimits prob s.polls
                      (updateEvaluationStats s.stats task.Op) settings).1,
                   err := (checkEvaluationLimits prob s.polls
                      (updateEvaluationStats s.stats task.Op) settings).2.1,
                   polls := (checkEvaluationLimits prob s.polls
                      (updateEvaluationStats s.stats task.Op) settings).2.2 }) := by
  by_cases h0 : task.Op = NoOperation
  · left
    simp only [handleTask, if_pos h0] at h
    exact ⟨h0, (Except.ok.inj h).symm⟩
  by_cases h1 : task.Op = MajorIteration
  · right; left
    simp only [handleTask, if_neg h0, if_pos h1] at h
    cases hl : task.Location with
    | none => simp [hl] at h
    | some loc =>
      simp only [hl] at h
      exact ⟨h1, loc, rfl, (Except.ok.inj h).symm⟩
  by_cases h2 : task.Op = MethodDone
  · right; right; left
    simp only [handleTask, if_neg h0, if_neg h1, if_pos h2] at h
    exact ⟨h2, (Except.ok.inj h).symm⟩
  right; right; right
  by_cases h3 : isEvaluation task.Op = true
  · rw [handleTask_evaluation prob settings since s task h3] at h
    exact ⟨h3, (Except.ok.inj h).symm⟩
  · simp [handleTask, if_neg h0, if_neg h1, if_neg h2, h3] at h

/-- What the monitor's `switch` leaves as it is, and the tasks it accepts. -/
theorem handleTask_frame (prob : Problem) (settings : Settings) (since : Nat → Int)
    (s a : Monitor) (task : Task) (h : handleTask prob settings since s task = Except.ok a) :
    a.workersDone = s.workersDone ∧ a.finalStatus = s.finalStatus ∧
    a.finalError = s.finalError ∧ a.results = s.results ∧
    a.resultsClosed = s.resultsClosed ∧ a.doneClosed = s.doneClosed ∧
    a.records = s.records ∧ task.Op ≠ PostIteration ∧ task.Op ≠ InitIteration := by
  rcases handleTask_ok prob settings since s a task h with
    ⟨h0, rfl⟩ | ⟨h0, loc, -, rfl⟩ | ⟨h0, rfl⟩ | ⟨h0, rfl⟩
  · simp [h0, NoOperation, PostIteration, InitIteration]
  · simp [h0, MajorIteration, PostIteration, InitIteration]
  · simp [h0, MethodDone, PostIteration, InitIteration]
  · obtain ⟨-, -, -, -, h5, h6⟩ := isEvaluation_tags task.Op h0
    simp [h5, h6]

/-- What one monitor step does to the latch and to `results`.  When `done` is open,
the task is not `signalDone` and the step ends on a status or an error that
terminates, the step latches them, sends `PostIteration` and closes `done`; in every
other case it leaves the latch alone.  The task itself goes back at most once, after
the `PostIteration`. -/
theorem monitorStep_latch (prob : Problem) (settings : Settings) (nTasks : Int)
    (since : Nat → Int) (s s1 : Monitor) (task : Task)
    (h : monitorStep prob settings nTasks since s task = Except.ok s1) :
    task.Op ≠ PostIteration ∧
    ((s.doneClosed = 0 ∧ task.Op ≠ signalDone ∧ s1.terminated) →
      s1.doneClosed = 1 ∧ s1.finalStatus = s1.status ∧ s1.finalError = s1.err ∧
      (s1.results = s.results ++ [postTask] ∨ s1.results = s.results ++ [postTask, task])) ∧
    (¬ (s.doneClosed = 0 ∧ task.Op ≠ signalDone ∧ s1.terminated) →
      s1.doneClosed = s.doneClosed ∧ s1.finalStatus = s.finalStatus ∧
      s1.finalError = s.finalError ∧
      (s1.results = s.results ∨ s1.results = s.results ++ [task])) ∧
    (task.Op = signalDone → s1.status = s.status ∧ s1.err = s.err) := by
  by_cases hsd : task.Op = signalDone
  · obtain ⟨rfl, -⟩ := monitorStep_signalDone prob settings nTasks since s s1 task hsd h
    refine ⟨by rw [hsd]; decide, fun hc => absurd hsd hc.2.1, fun _ => ?_, fun _ => ?_⟩
    · simp
    · simp
  · obtain ⟨a, b, ha, hb, hr⟩ := (monitorStep_blocks prob settings nTasks since s s1 task hsd).1 h
    have fa := handleTask_frame prob settings since s a task ha
    have frec := recordTask_frame settings since a task
    have fl := latch_frame _ b hb
    have fr := returnTask_frame nTasks b s1 task hr
    have hterm : s1.terminated ↔ (recordTask settings since a task).terminated := by
      unfold Monitor.terminated
      rw [fr.2.2.2.1, fr.2.2.2.2.1, fl.2.2.2.1, fl.2.2.2.2.1]
    have hd : (recordTask settings since a task).doneClosed = s.doneClosed :=
      frec.2.2.2.2.2.2.2.1.trans fa.2.2.2.2.2.1
    have hres : (recordTask settings since a task).results = s.results :=
      frec.2.2.2.2.2.1.trans fa.2.2.2.1
    refine ⟨fa.2.2.2.2.2.2.2.1, ?_, ?_, fun hc => absurd hc hsd⟩
    · rintro ⟨hd0, -, ht⟩
      rcases latch_ok _ b hb with ⟨-, hq | hp⟩ | ⟨-, -, -, hbeq⟩
      · exact absurd (hterm.1 ht) hq
      · omega
      · have hb1 : b.doneClosed = 1 := by rw [hbeq]
        have hb2 : b.finalStatus = b.status := by rw [hbeq]
        have hb3 : b.finalError = b.err := by rw [hbeq]
        have hb4 : b.results = s.results ++ [postTask] := by rw [hbeq, ← hres]
        refine ⟨fr.2.2.2.2.2.2.2.2.2.1.trans hb1, ?_, ?_, ?_⟩
        · rw [fr.2.2.2.2.2.1, fr.2.2.2.1]
          exact hb2
        · rw [fr.2.2.2.2.2.2.1, fr.2.2.2.2.1]
          exact hb3
        · rcases returnTask_ok nTasks b s1 task hr with ⟨rfl, -⟩ | ⟨-, -, -, rfl⟩
          · exact Or.inl hb4
          · right
            simp [hb4]
    · intro hn
      rcases latch_ok _ b hb with ⟨hbeq, -⟩ | ⟨ht, hd0, -, -⟩
      · have hb1 : b.doneClosed = s.doneClosed := by rw [hbeq]; exact hd
        have hb2 : b.finalStatus = s.finalStatus := by
          rw [hbeq]; exact frec.2.2.1.trans fa.2.1
        have hb3 : b.finalError = s.finalError := by
          rw [hbeq]; exact frec.2.2.2.1.trans fa.2.2.1
        have hb4 : b.results = s.results := by rw [hbeq]; exact hres
        refine ⟨fr.2.2.2.2.2.2.2.2.2.1.trans hb1, fr.2.2.2.2.2.1.trans hb2,
          fr.2.2.2.2.2.2.1.trans hb3, ?_⟩
        rcases returnTask_ok nTasks b s1 task hr with ⟨rfl, -⟩ | ⟨-, -, -, rfl⟩
        · exact Or.inl hb4
        · right
          simp [hb4]
      · exact absurd ⟨hd0.symm.trans hd |>.symm, hsd, hterm.2 ht⟩ hn

theorem posts_append (l r : List Task) : posts (l ++ r) = posts l + posts r := by
  simp [posts, List.countP_append]

theorem posts_single (t : Task) (h : t.Op ≠ PostIteration) : posts [t] = 0 := by
  simp [posts, h]

theorem posts_postTask : posts [postTask] = 1 := by decide

theorem monitorLoop_nil (prob : Problem) (settings : Settings) (nTasks : Int)
    (since : Nat → Int) (s : Monitor) :
    monitorLoop prob settings nTasks since s [] = Except.ok s := rfl

/-- The monitor loop on a first task and the rest. -/
theorem monitorLoop_cons (prob : Problem) (settings : Settings) (nTasks : Int)
    (since : Nat → Int) (s sf : Monitor) (task : Task) (rest : List Task) :
    monitorLoop prob settings nTasks since s (task :: rest) = Except.ok sf ↔
      ∃ s1, monitorStep prob settings nTasks since s task = Except.ok s1 ∧
        monitorLoop prob settings nTasks since s1 rest = Except.ok sf := by
  constructor
  · intro h
    unfold monitorLoop at h
    cases hs : monitorStep prob settings nTasks since s task with
    | error e => simp [hs] at h
    | ok s1 =>
      simp only [hs] at h
      exact ⟨s1, rfl, h⟩
  · rintro ⟨s1, hs, h⟩
    unfold monitorLoop
    simp only [hs]
    exact h

/-- The monitor loop on a sequence of tasks cut in two. -/
theorem monitorLoop_append (prob : Problem) (settings : Settings) (nTasks : Int)
    (since : Nat → Int) (pre post : List Task) (s sf : Monitor) :
    monitorLoop prob settings nTasks since s (pre ++ post) = Except.ok sf ↔
      ∃ s1, monitorLoop prob settings nTasks since s pre = Except.ok s1 ∧
        monitorLoop prob settings nTasks since s1 post = Except.ok sf := by
  induction pre generalizing s with
  | nil =>
    constructor
    · intro h
      exact ⟨s, rfl, h⟩
    · rintro ⟨s1, h1, h⟩
      rw [monitorLoop_nil] at h1
      rw [Except.ok.inj h1]
      exact h
  | cons t rest ih =>
    rw [List.cons_append, monitorLoop_cons]
    constructor
    · rintro ⟨s1, hs, h⟩
      obtain ⟨s2, h2, h3⟩ := (ih s1).1 h
      exact ⟨s2, (monitorLoop_cons prob settings nTasks since s s2 t rest).2 ⟨s1, hs, h2⟩, h3⟩
    · rintro ⟨s2, h2, h3⟩
      obtain ⟨s1, hs, h4⟩ := (monitorLoop_cons prob settings nTasks since s s2 t rest).1 h2
      exact ⟨s1, hs, (ih s1).2 ⟨s2, h4, h3⟩⟩

/-- While no task has yielded a termination, `done` stays open, nothing is latched
and no `PostIteration` is sent. -/
theorem monitorLoop_quiet (prob : Problem) (settings : Settings) (nTasks : Int)
    (since : Nat → Int) (pre : List Task) (s0 s1 : Monitor)
    (hd : s0.doneClosed = 0) (hq : ¬ s0.terminated)
    (hrun : monitorLoop prob settings nTasks since s0 pre = Except.ok s1)
    (hquiet : ∀ p sp, p <+: pre → monitorLoop prob settings nTasks since s0 p = Except.ok sp →
      ¬ sp.terminated) :
    s1.doneClosed = 0 ∧ ¬ s1.terminated ∧ s1.finalStatus = s0.finalStatus ∧
    s1.finalError = s0.finalError ∧
    ∃ sent, s1.results = s0.results ++ sent ∧ posts sent = 0 := by
  induction pre generalizing s0 with
  | nil =>
    rw [monitorLoop_nil] at hrun
    rw [← Except.ok.inj hrun]
    exact ⟨hd, hq, rfl, rfl, [], by simp, rfl⟩
  | cons t rest ih =>
    obtain ⟨s, hs, hrest⟩ := (monitorLoop_cons prob settings nTasks since s0 s1 t rest).1 hrun
    have hsq : ¬ s.terminated :=
      hquiet [t] s (by simp) ((monitorLoop_cons prob settings nTasks since s0 s t []).2
        ⟨s, hs, rfl⟩)
    obtain ⟨hpost, -, hkeep, -⟩ := monitorStep_latch prob settings nTasks since s0 s t hs
    obtain ⟨k1, k2, k3, k4⟩ := hkeep (fun hc => hsq hc.2.2)
    obtain ⟨i1, i2, i3, i4, sent, i5, i6⟩ := ih s (k1.trans hd) hsq hrest
      (fun p sp hp hrun1 => hquiet (t :: p) sp (by simpa using hp)
        ((monitorLoop_cons prob settings nTasks since s0 sp t p).2 ⟨s, hs, hrun1⟩))
    refine ⟨i1, i2, i3.trans k2, i4.trans k3, ?_⟩
    rcases k4 with k4 | k4
    · exact ⟨sent, by rw [i5, k4], i6⟩
    · refine ⟨t :: sent, by rw [i5, k4]; simp, ?_⟩
      have : posts (t :: sent) = posts [t] + posts sent := posts_append [t] sent
      rw [this, posts_single t hpost, i6]

/-- Once `done` is closed, no task changes what was latched, `done` is not closed
again and no `PostIteration` is sent. -/
theorem monitorLoop_latched (prob : Problem) (settings : Settings) (nTasks : Int)
    (since : Nat → Int) (post : List Task) (s2 sf : Monitor) (hd : 0 < s2.doneClosed)
    (hrun : monitorLoop prob settings nTasks since s2 post = Except.ok sf) :
    sf.doneClosed = s2.doneClosed ∧ sf.finalStatus = s2.finalStatus ∧
    sf.finalError = s2.finalError ∧
    ∃ sent, sf.results = s2.results ++ sent ∧ posts sent = 0 := by
  induction post generalizing s2 with
  | nil =>
    rw [monitorLoop_nil] at hrun
    rw [← Except.ok.inj hrun]
    exact ⟨rfl, rfl, rfl, [], by simp, rfl⟩
  | cons t rest ih =>
    obtain ⟨s, hs, hrest⟩ := (monitorLoop_cons prob settings nTasks since s2 sf t rest).1 hrun
    obtain ⟨hpost, -, hkeep, -⟩ := monitorStep_latch prob settings nTasks since s2 s t hs
    obtain ⟨k1, k2, k3, k4⟩ := hkeep (fun hc => by omega)
    obtain ⟨i1, i2, i3, sent, i5, i6⟩ := ih s (by omega) hrest
    refine ⟨i1.trans k1, i2.trans k2, i3.trans k3, ?_⟩
    rcases k4 with k4 | k4
    · exact ⟨sent, by rw [i5, k4], i6⟩
    · refine ⟨t :: sent, by rw [i5, k4]; simp, ?_⟩
      have : posts (t :: sent) = posts [t] + posts sent := posts_append [t] sent
      rw [this, posts_single t hpost, i6]

/-- C4: the first-termination latch.  In a run of the monitor loop from its entry
state, let `t` be the first task whose processing ends on a status other than
`NotTerminated` or on a non-nil error (`pre` are the tasks before it, `post` the
tasks after it).  Then `done` is open until `t` and closed exactly once by `t`; the
final status and error are the status and error of `t`, throughout the rest of the
run; and exactly one `PostIteration` is sent on `results`, by `t`, before `t` itself
is sent back. -/
theorem first_termination_latch (prob : Problem) (settings : Settings) (nTasks : Int)
    (since : Nat → Int) (s0 : Monitor) (hfresh : s0.fresh)
    (pre : List Task) (t : Task) (post : List Task) (s1 s2 sf : Monitor)
    (hpre : monitorLoop prob settings nTasks since s0 pre = Except.ok s1)
    (hquiet : ∀ p sp, p <+: pre → monitorLoop prob settings nTasks since s0 p = Except.ok sp →
      ¬ sp.terminated)
    (hstep : monitorStep prob settings nTasks since s1 t = Except.ok s2)
    (hterm : s2.terminated)
    (hpost : monitorLoop prob settings nTasks since s2 post = Except.ok sf) :
    s1.doneClosed = 0 ∧ posts s1.results = 0 ∧
    s2.doneClosed = 1 ∧ s2.finalStatus = s2.status ∧ s2.finalError = s2.err ∧
    (∀ q sq, q <+: post → monitorLoop prob settings nTasks since s2 q = Except.ok sq →
      sq.doneClosed = 1 ∧ sq.finalStatus = s2.status ∧ sq.finalError = s2.err) ∧
    sf.doneClosed = 1 ∧ sf.finalStatus = s2.status ∧ sf.finalError = s2.err ∧
    posts sf.results = 1 ∧
    ∃ back rest, (back = [] ∨ back = [t]) ∧ posts back = 0 ∧ posts rest = 0 ∧
      s2.results = s1.results ++ postTask :: back ∧
      sf.results = s1.results ++ postTask :: back ++ rest := by
  have hq0 : ¬ s0.terminated := (terminated_iff s0).2 ⟨hfresh.status, hfresh.err⟩
  obtain ⟨a1, a2, -, -, sent, a5, a6⟩ := monitorLoop_quiet prob settings nTasks since pre s0 s1
    hfresh.doneClosed hq0 hpre hquiet
  have hs1 : posts s1.results = 0 := by rw [a5, hfresh.results]; simpa using a6
  obtain ⟨hpostop, hlatch, -, hsig⟩ := monitorStep_latch prob settings nTasks since s1 s2 t hstep
  have hnsd : t.Op ≠ signalDone := by
    intro hc
    obtain ⟨e1, e2⟩ := hsig hc
    apply a2
    unfold Monitor.terminated at hterm ⊢
    rwa [e1, e2] at hterm
  obtain ⟨b1, b2, b3, b4⟩ := hlatch ⟨a1, hnsd, hterm⟩
  have hlater : ∀ q sq, monitorLoop prob settings nTasks since s2 q = Except.ok sq →
      sq.doneClosed = 1 ∧ sq.finalStatus = s2.status ∧ sq.finalError = s2.err ∧
      ∃ rest, sq.results = s2.results ++ rest ∧ posts rest = 0 := by
    intro q sq hrun
    obtain ⟨c1, c2, c3, c4⟩ := monitorLoop_latched prob settings nTasks since q s2 sq
      (by omega) hrun
    exact ⟨c1.trans b1, c2.trans b2, c3.trans b3, c4⟩
  obtain ⟨d1, d2, d3, rest, d4, d5⟩ := hlater post sf hpost
  have hback : ∃ back, (back = [] ∨ back = [t]) ∧ posts back = 0 ∧
      s2.results = s1.results ++ postTask :: back := by
    rcases b4 with b4 | b4
    · exact ⟨[], Or.inl rfl, rfl, by simpa using b4⟩
    · exact ⟨[t], Or.inr rfl, posts_single t hpostop, by simpa using b4⟩
  obtain ⟨back, e1, e2, e3⟩ := hback
  refine ⟨a1, hs1, b1, b2, b3, fun q sq _ hrun => ?_, d1, d2, d3, ?_, back, rest, e1, e2, d5,
    e3, by rw [d4, e3]⟩
  · obtain ⟨f1, f2, f3, -⟩ := hlater q sq hrun
    exact ⟨f1, f2, f3⟩
  · rw [d4, e3, posts_append, posts_append]
    have : posts (postTask :: back) = posts [postTask] + posts back := posts_append [postTask] back
    rw [this, hs1, e2, d5, posts_postTask]

/-! ### A run of the monitor: `NoOperation`, one evaluation, a limit of one -/

theorem fresh_default : ({} : Monitor).fresh :=
  ⟨rfl, rfl, rfl, rfl, rfl, rfl, rfl, rfl, rfl⟩

theorem noop_quiet (p : List Task) (sp : Monitor) (hp : p <+: [noopTask])
    (h : monitorLoop {} limitOne 1 (fun _ => 0) {} p = Except.ok sp) : ¬ sp.terminated := by
  rcases List.prefix_cons_iff.1 hp with rfl | ⟨r, rfl, hr⟩
  · rw [monitorLoop_nil] at h
    rw [← Except.ok.inj h]
    simp [Monitor.terminated]
  · rw [List.prefix_nil.1 hr] at h
    have h2 : monitorLoop {} limitOne 1 (fun _ => 0) {} [noopTask] = Except.ok afterNoop := rfl
    rw [h2] at h
    rw [← Except.ok.inj h]
    simp [Monitor.terminated, afterNoop]

/-- Witness of C4: the run `noopTask`, `evalTask`, `majorTask`, `doneTask` under a
limit of one function evaluation; the evaluation is the first task that terminates,
and the major iteration after it changes nothing of what was latched. -/
theorem first_termination_latch_witness :
    afterDone.doneClosed = 1 ∧ afterDone.finalStatus = afterEval.status ∧
    afterDone.finalError = afterEval.err ∧ posts afterDone.results = 1 :=
  have h := first_termination_latch {} limitOne 1 (fun _ => 0) {} fresh_default
    [noopTask] evalTask [majorTask, doneTask] afterNoop afterEval afterDone rfl noop_quiet rfl
    (Or.inl (by decide)) rfl
  ⟨h.2.2.2.2.2.2.1, h.2.2.2.2.2.2.2.1, h.2.2.2.2.2.2.2.2.1, h.2.2.2.2.2.2.2.2.2.1⟩

/-! ## The major iteration -/

/-- After `resize` and `copy` the destination has the elements of the source. -/
theorem copy_resize_list (dst : Slice) (e : List F64) :
    (Slice.copy (resize dst e.length) (some e)).elems = e := by
  unfold resize
  by_cases h : e.length > dst.len
  · rw [if_pos h]
    simp [Slice.make, Slice.copy, Slice.elems, Slice.len]
  · rw [if_neg h]
    cases dst with
    | none =>
      have h0 : e = [] := by
        simp only [Slice.len, Slice.elems, List.length_nil, gt_iff_lt, not_lt,
          Nat.le_zero_eq] at h
        exact List.length_eq_zero.1 h
      simp [Slice.copy, Slice.elems, h0]
    | some l =>
      have hl : e.length ≤ l.length := by
        simpa [Slice.len, Slice.elems] using h
      simp [Slice.copy, Slice.elems, Slice.len, hl, List.take_of_length_le]

theorem copy_resize_elems (dst src : Slice) :
    (Slice.copy (resize dst src.len) src).elems = src.elems := by
  cases src with
  | some e => exact copy_resize_list dst e
  | none =>
    cases dst with
    | none => rfl
    | some l => simp [resize, Slice.copy, Slice.elems, Slice.len]

theorem SymDense.At_comm (m : SymDense) (i j : Nat) : m.At i j = m.At j i := by
  unfold SymDense.At
  by_cases h1 : i ≤ j <;> by_cases h2 : j ≤ i
  · have : i = j := le_antisymm h1 h2
    subst this
    rfl
  · simp [h1, h2]
  · simp [h1, h2]
  · omega

/-- An upper-triangle entry of the destination of `CopySym` that the source has too
is the entry of the source. -/
theorem SymDense.CopySym_At_upper (dst src : SymDense) (i j : Nat) (hij : i ≤ j)
    (hj : j < dst.n) (hs : j < src.n) : (dst.CopySym src).At i j = src.At i j := by
  have hi : i < dst.n := lt_of_le_of_lt hij hj
  have hlt : i * dst.n + j < dst.n * dst.n := by
    calc i * dst.n + j < i * dst.n + dst.n := by omega
      _ = (i + 1) * dst.n := by ring
      _ ≤ dst.n * dst.n := Nat.mul_le_mul_right _ hi
  have hdiv : (i * dst.n + j) / dst.n = i := by
    rw [Nat.add_comm, Nat.add_mul_div_right _ _ (by omega : 0 < dst.n), Nat.div_eq_of_lt hj]
    simp
  have hmod : (i * dst.n + j) % dst.n = j := by
    rw [Nat.add_comm, Nat.add_mul_mod_self_right, Nat.mod_eq_of_lt hj]
  have hmin : j < Nat.min dst.n src.n := by
    show j < min dst.n src.n
    exact lt_min hj hs
  simp only [SymDense.CopySym]
  conv_lhs => unfold SymDense.At
  simp only [if_pos hij]
  rw [List.getD_eq_getElem?_getD, List.getElem?_map, List.getElem?_range hlt]
  simp only [Option.map_some', Option.getD_some, hdiv, hmod]
  rw [if_pos ⟨hij, hmin⟩]
  rfl

/-- Copying a matrix into one of the same order gives an equal matrix. -/
theorem SymDense.CopySym_Equal (dst src : SymDense) (h : dst.n = src.n) :
    SymDense.Equal (dst.CopySym src) src := by
  refine ⟨h, fun i j hi hj => ?_⟩
  have hi1 : i < dst.n := hi
  have hj1 : j < dst.n := hj
  by_cases hij : i ≤ j
  · exact SymDense.CopySym_At_upper dst src i j hij hj1 (h ▸ hj1)
  · rw [SymDense.At_comm, SymDense.At_comm src]
    exact SymDense.CopySym_At_upper dst src j i (by omega) hi1 (h ▸ hi1)

/-- What `copyLocation` makes of the destination. -/
theorem copyLocation_spec (dst src : Location) :
    (copyLocation dst src).X.elems = src.X.elems ∧
    (copyLocation dst src).F = src.F ∧
    (copyLocation dst src).Gradient.elems = src.Gradient.elems ∧
    (src.Hessian = none → (copyLocation dst src).Hessian = dst.Hessian) ∧
    (∀ h, src.Hessian = some h →
      ∃ d, (copyLocation dst src).Hessian = some d ∧ d.n = src.X.len ∧
        (h.n = src.X.len → SymDense.Equal d h)) := by
  refine ⟨copy_resize_elems dst.X src.X, rfl, copy_resize_elems dst.Gradient src.Gradient,
    ?_, ?_⟩
  · intro hn
    simp [copyLocation, hn]
  · intro h hh
    simp only [copyLocation, hh]
    cases hd : dst.Hessian with
    | none =>
      exact ⟨_, rfl, rfl, fun hn => SymDense.CopySym_Equal _ h (by simp [SymDense.new, hn])⟩
    | some d =>
      by_cases hdn : d.n ≠ src.X.len
      · simp only [if_pos hdn]
        exact ⟨_, rfl, rfl, fun hn => SymDense.CopySym_Equal _ h (by simp [SymDense.new, hn])⟩
      · simp only [if_neg hdn]
        have hdn1 : d.n = src.X.len := not_not.1 hdn
        exact ⟨_, rfl, hdn1, fun hn => SymDense.CopySym_Equal _ h (hdn1.trans hn.symm)⟩

/-- The parts of the result of `performMajorIteration`. -/
theorem performMajorIteration_parts (optLoc loc : Location) (stats : Stats) (elapsed : Int)
    (settings : Settings) (calls : Nat) :
    (performMajorIteration optLoc loc stats elapsed settings calls).2.1 =
      copyLocation optLoc loc ∧
    (performMajorIteration optLoc loc stats elapsed settings calls).2.2.1 =
      { stats with MajorIterations := stats.MajorIterations + 1, Runtime := elapsed } ∧
    (performMajorIteration optLoc loc stats elapsed settings calls).2.2.2 =
      (checkLocationConvergence (copyLocation optLoc loc) settings calls).2 ∧
    (performMajorIteration optLoc loc stats elapsed settings calls).1 =
      (if (checkLocationConvergence (copyLocation optLoc loc) settings calls).1 ≠
          Status.NotTerminated then
        (checkLocationConvergence (copyLocation optLoc loc) settings calls).1
      else checkIterationLimits (copyLocation optLoc loc)
        { stats with MajorIterations := stats.MajorIterations + 1, Runtime := elapsed }
        settings) := by
  unfold performMajorIteration
  simp only
  split_ifs <;> exact ⟨rfl, rfl, rfl, rfl⟩

/-- Counterexample to C6 as stated: for `skewLoc` the Hessian of the optimum after
`performMajorIteration` has order 2 and is not equal to the Hessian of the task's
location, of order 1. -/
theorem performMajorIteration_hessian_counterexample :
    skewLoc.Hessian = some ⟨1, [F64.fin 5]⟩ ∧
    (performMajorIteration {} skewLoc {} 0 {} 0).2.1.Hessian =
      some ⟨2, [F64.fin 5, F64.zero, F64.zero, F64.zero]⟩ ∧
    (performMajorIteration {} skewLoc {} 0 {} 0).2.1.Hessian ≠ skewLoc.Hessian ∧
    ¬ SymDense.Equal ⟨2, [F64.fin 5, F64.zero, F64.zero, F64.zero]⟩ ⟨1, [F64.fin 5]⟩ :=
  ⟨rfl, by decide, by decide, fun h => absurd h.1 (by decide)⟩

/-- C6 (amended): after `performMajorIteration` the optimum has the length and the
elements of `loc.X` and of `loc.Gradient`, its `F` is `loc.F`, its Hessian is equal
to the Hessian of `loc` when `loc` has one whose order is `len(loc.X)` (and has
order `len(loc.X)` whenever `loc` has one); `stats.MajorIterations` is one more than
before and the three evaluation counters are unchanged.  (`loc` is read only: the
function returns no new value for it.) -/
theorem performMajorIteration_update (optLoc loc : Location) (stats : Stats) (elapsed : Int)
    (settings : Settings) (calls : Nat) :
    (performMajorIteration optLoc loc stats elapsed settings calls).2.1.X.len = loc.X.len ∧
    (performMajorIteration optLoc loc stats elapsed settings calls).2.1.X.elems = loc.X.elems ∧
    (performMajorIteration optLoc loc stats elapsed settings calls).2.1.Gradient.len =
      loc.Gradient.len ∧
    (performMajorIteration optLoc loc stats elapsed settings calls).2.1.Gradient.elems =
      loc.Gradient.elems ∧
    (performMajorIteration optLoc loc stats elapsed settings calls).2.1.F = loc.F ∧
    (∀ h, loc.Hessian = some h →
      ∃ d, (performMajorIteration optLoc loc stats elapsed settings calls).2.1.Hessian = some d ∧
        d.n = loc.X.len ∧ (h.n = loc.X.len → SymDense.Equal d h)) ∧
    (performMajorIteration optLoc loc stats elapsed settings calls).2.2.1.MajorIterations =
      stats.MajorIterations + 1 ∧
    (performMajorIteration optLoc loc stats elapsed settings calls).2.2.1.FuncEvaluations =
      stats.FuncEvaluations ∧
    (performMajorIteration optLoc loc stats elapsed settings calls).2.2.1.GradEvaluations =
      stats.GradEvaluations ∧
    (performMajorIteration optLoc loc stats elapsed settings calls).2.2.1.HessEvaluations =
      stats.HessEvaluations := by
  obtain ⟨p1, p2, -, -⟩ := performMajorIteration_parts optLoc loc stats elapsed settings calls
  obtain ⟨c1, c2, c3, -, c5⟩ := copyLocation_spec optLoc loc
  rw [p1, p2]
  refine ⟨?_, c1, ?_, c3, c2, c5, rfl, rfl, rfl, rfl⟩
  · unfold Slice.len
    rw [c1]
  · unfold Slice.len
    rw [c3]

/-- Witness of C6: a major iteration at `fullLoc`, from an empty optimum. -/
theorem performMajorIteration_update_witness :
    (performMajorIteration {} fullLoc { FuncEvaluations := 9 } 0 {} 0).2.1 = fullLoc ∧
    (performMajorIteration {} fullLoc { FuncEvaluations := 9 } 0 {} 0).2.2.1.MajorIterations =
      0 + 1 ∧
    (performMajorIteration {} fullLoc { FuncEvaluations := 9 } 0 {} 0).2.2.1.FuncEvaluations = 9 :=
  ⟨by decide,
   (performMajorIteration_update {} fullLoc { FuncEvaluations := 9 } 0 {} 0).2.2.2.2.2.2.1,
   (performMajorIteration_update {} fullLoc { FuncEvaluations := 9 } 0 {} 0).2.2.2.2.2.2.2.1⟩

/-- C7: `performMajorIteration` returns the verdict of `checkLocationConvergence` on
the new optimum when that is not `NotTerminated`; otherwise `IterationLimit` when
`settings.MajorIterations` is positive and reached by the incremented count of major
iterations; otherwise `RuntimeLimit` when `settings.Runtime` is positive and reached
by the runtime just read; otherwise `NotTerminated`.  A limit that is zero or
negative yields no status. -/
theorem performMajorIteration_status (optLoc loc : Location) (stats : Stats) (elapsed : Int)
    (settings : Settings) (calls : Nat) :
    (performMajorIteration optLoc loc stats elapsed settings calls).2.2.1.MajorIterations =
      stats.MajorIterations + 1 ∧
    (performMajorIteration optLoc loc stats elapsed settings calls).2.2.1.Runtime = elapsed ∧
    ((checkLocationConvergence
        (performMajorIteration optLoc loc stats elapsed settings calls).2.1 settings calls).1 ≠
        Status.NotTerminated →
      (performMajorIteration optLoc loc stats elapsed settings calls).1 =
        (checkLocationConvergence
          (performMajorIteration optLoc loc stats elapsed settings calls).2.1 settings calls).1) ∧
    ((checkLocationConvergence
        (performMajorIteration optLoc loc stats elapsed settings calls).2.1 settings calls).1 =
        Status.NotTerminated →
      (performMajorIteration optLoc loc stats elapsed settings calls).1 =
        (if settings.MajorIterations > 0 ∧
            (performMajorIteration optLoc loc stats elapsed settings calls).2.2.1.MajorIterations ≥
              settings.MajorIterations then Status.IterationLimit
         else if settings.Runtime > 0 ∧
            (performMajorIteration optLoc loc stats elapsed settings calls).2.2.1.Runtime ≥
              settings.Runtime then Status.RuntimeLimit
         else Status.NotTerminated) ∧
      (settings.MajorIterations ≤ 0 →
        (performMajorIteration optLoc loc stats elapsed settings calls).1 ≠
          Status.IterationLimit) ∧
      (settings.Runtime ≤ 0 →
        (performMajorIteration optLoc loc stats elapsed settings calls).1 ≠
          Status.RuntimeLimit) ∧
      (settings.MajorIterations ≤ 0 → settings.Runtime ≤ 0 →
        (performMajorIteration optLoc loc stats elapsed settings calls).1 =
          Status.NotTerminated)) := by
  obtain ⟨p1, p2, -, p4⟩ := performMajorIteration_parts optLoc loc stats elapsed settings calls
  rw [p1, p2, p4]
  refine ⟨rfl, rfl, fun h => by rw [if_pos h], fun h => ?_⟩
  rw [if_neg (not_not.2 h)]
  unfold checkIterationLimits
  refine ⟨rfl, ?_, ?_, ?_⟩
  · intro h0
    split_ifs <;> first | omega | simp
  · intro h0
    split_ifs <;> first | omega | simp
  · intro h0 h1
    split_ifs <;> first | omega | rfl

/-- Witness of C7: the second major iteration under a limit of two, with no
convergence criterion met, ends on `IterationLimit`; with a gradient below the
threshold the verdict `GradientThreshold` comes first. -/
theorem performMajorIteration_status_witness :
    (performMajorIteration {} fullLoc { MajorIterations := 1 } 0 { MajorIterations := 2 } 0).1 =
      Status.IterationLimit ∧
    (performMajorIteration {} fullLoc { MajorIterations := 1 } 0
      { MajorIterations := 2, GradientThreshold := F64.fin 6 } 0).1 = Status.GradientThreshold :=
  ⟨((performMajorIteration_status {} fullLoc { MajorIterations := 1 } 0
      { MajorIterations := 2 } 0).2.2.2 (by decide)).1.trans (by decide),
   ((performMajorIteration_status {} fullLoc { MajorIterations := 1 } 0
      { MajorIterations := 2, GradientThreshold := F64.fin 6 } 0).2.2.1 (by decide)).trans
      (by decide)⟩

/-! ## The evaluation counters -/

theorem evaluations_nil (bit : Operation) : evaluations bit [] = 0 := rfl

theorem evaluations_cons (bit : Operation) (t : Task) (rest : List Task) :
    evaluations bit (t :: rest) =
      (if isEvaluation t.Op = true ∧ t.Op &&& bit ≠ 0 then 1 else 0) + evaluations bit rest := by
  unfold evaluations
  rw [List.countP_cons]
  by_cases h : isEvaluation t.Op = true ∧ t.Op &&& bit ≠ 0
  · rw [if_pos h]
    simp [h.1, h.2]
    ring
  · rw [if_neg h]
    have : (isEvaluation t.Op && (t.Op &&& bit != 0)) = false := by
      rw [Bool.and_eq_false_iff]
      by_cases h1 : isEvaluation t.Op = true
      · right
        have h2 : ¬ t.Op &&& bit ≠ 0 := fun hc => h ⟨h1, hc⟩
        simpa using h2
      · left
        simpa using h1
    simp [this]

/-- What `updateEvaluationStats` does to the counters. -/
theorem updateEvaluationStats_counts (stats : Stats) (op : Operation) :
    (updateEvaluationStats stats op).FuncEvaluations =
      stats.FuncEvaluations + (if op &&& FuncEvaluation ≠ 0 then 1 else 0) ∧
    (updateEvaluationStats stats op).GradEvaluations =
      stats.GradEvaluations + (if op &&& GradEvaluation ≠ 0 then 1 else 0) ∧
    (updateEvaluationStats stats op).HessEvaluations =
      stats.HessEvaluations + (if op &&& HessEvaluation ≠ 0 then 1 else 0) ∧
    (updateEvaluationStats stats op).MajorIterations = stats.MajorIterations := by
  unfold updateEvaluationStats
  simp only
  split_ifs <;> simp

/-- What one monitor step does to the three evaluation counters: each goes up by
one exactly on an evaluation task with its bit set. -/
theorem monitorStep_counters (prob : Problem) (settings : Settings) (nTasks : Int)
    (since : Nat → Int) (s s1 : Monitor) (task : Task)
    (h : monitorStep prob settings nTasks since s task = Except.ok s1) :
    s1.stats.FuncEvaluations = s.stats.FuncEvaluations +
      (if isEvaluation task.Op = true ∧ task.Op &&& FuncEvaluation ≠ 0 then 1 else 0) ∧
    s1.stats.GradEvaluations = s.stats.GradEvaluations +
      (if isEvaluation task.Op = true ∧ task.Op &&& GradEvaluation ≠ 0 then 1 else 0) ∧
    s1.stats.HessEvaluations = s.stats.HessEvaluations +
      (if isEvaluation task.Op = true ∧ task.Op &&& HessEvaluation ≠ 0 then 1 else 0) := by
  by_cases hsd : task.Op = signalDone
  · obtain ⟨rfl, -⟩ := monitorStep_signalDone prob settings nTasks since s s1 task hsd h
    have : ¬ isEvaluation task.Op = true := by rw [hsd]; decide
    simp [this]
  · obtain ⟨a, b, ha, hb, hr⟩ := (monitorStep_blocks prob settings nTasks since s s1 task hsd).1 h
    have frec := recordTask_frame settings since a task
    have fl := latch_frame _ b hb
    have fr := returnTask_frame nTasks b s1 task hr
    rw [fr.1, fl.1, frec.2.2.2.2.2.2.2.2.2.2.2.1, frec.2.2.2.2.2.2.2.2.2.2.2.2.1,
      frec.2.2.2.2.2.2.2.2.2.2.2.2.2]
    rcases handleTask_ok prob settings since s a task ha with
      ⟨h0, rfl⟩ | ⟨h0, loc, -, rfl⟩ | ⟨h0, rfl⟩ | ⟨h0, rfl⟩
    · have : ¬ isEvaluation task.Op = true := by rw [h0]; decide
      simp [this]
    · have : ¬ isEvaluation task.Op = true := by rw [h0]; decide
      obtain ⟨-, q, -, -⟩ := performMajorIteration_parts s.optLoc loc
        s.stats (since s.ticks) settings s.converges
      simp [this, q]
    · have : ¬ isEvaluation task.Op = true := by rw [h0]; decide
      simp [this]
    · obtain ⟨u1, u2, u3, -⟩ := updateEvaluationStats_counts s.stats task.Op
      simp only [h0, true_and]
      exact ⟨u1, u2, u3⟩

/-- The counters after the monitor loop. -/
theorem monitorLoop_counters (prob : Problem) (settings : Settings) (nTasks : Int)
    (since : Nat → Int) (tasks : List Task) (s0 sf : Monitor)
    (h : monitorLoop prob settings nTasks since s0 tasks = Except.ok sf) :
    sf.stats.FuncEvaluations = s0.stats.FuncEvaluations + evaluations FuncEvaluation tasks ∧
    sf.stats.GradEvaluations = s0.stats.GradEvaluations + evaluations GradEvaluation tasks ∧
    sf.stats.HessEvaluations = s0.stats.HessEvaluations + evaluations HessEvaluation tasks := by
  induction tasks generalizing s0 with
  | nil =>
    rw [monitorLoop_nil] at h
    rw [← Except.ok.inj h]
    simp [evaluations_nil]
  | cons t rest ih =>
    obtain ⟨s, hs, hrest⟩ := (monitorLoop_cons prob settings nTasks since s0 sf t rest).1 h
    obtain ⟨i1, i2, i3⟩ := ih s hrest
    obtain ⟨k1, k2, k3⟩ := monitorStep_counters prob settings nTasks since s0 s t hs
    rw [i1, i2, i3, k1, k2, k3, evaluations_cons, evaluations_cons, evaluations_cons]
    refine ⟨?_, ?_, ?_⟩ <;> ring

/-- C8: starting from zero `Stats`, after the monitor has processed a sequence of
tasks (in whatever state of the latch it started and went through), each of
`stats.FuncEvaluations`, `stats.GradEvaluations`, `stats.HessEvaluations` is the
number of evaluation tasks of the sequence whose operation has the corresponding
bit set; and a `NoOperation`, `MajorIteration`, `MethodDone` or `signalDone` task
changes none of the three. -/
theorem evaluation_counters (prob : Problem) (settings : Settings) (nTasks : Int)
    (since : Nat → Int) :
    (∀ (tasks : List Task) (s0 sf : Monitor), s0.stats = {} →
      monitorLoop prob settings nTasks since s0 tasks = Except.ok sf →
      sf.stats.FuncEvaluations = evaluations FuncEvaluation tasks ∧
      sf.stats.GradEvaluations = evaluations GradEvaluation tasks ∧
      sf.stats.HessEvaluations = evaluations HessEvaluation tasks) ∧
    (∀ (s s1 : Monitor) (task : Task),
      monitorStep prob settings nTasks since s task = Except.ok s1 →
      (task.Op = NoOperation ∨ task.Op = MajorIteration ∨ task.Op = MethodDone ∨
        task.Op = signalDone) →
      s1.stats.FuncEvaluations = s.stats.FuncEvaluations ∧
      s1.stats.GradEvaluations = s.stats.GradEvaluations ∧
      s1.stats.HessEvaluations = s.stats.HessEvaluations) := by
  refine ⟨?_, ?_⟩
  · intro tasks s0 sf h0 h
    obtain ⟨c1, c2, c3⟩ := monitorLoop_counters prob settings nTasks since tasks s0 sf h
    rw [h0] at c1 c2 c3
    simp only [zero_add] at c1 c2 c3
    exact ⟨c1, c2, c3⟩
  · intro s s1 task h hop
    have hne : ¬ isEvaluation task.Op = true := by
      rcases hop with h0 | h0 | h0 | h0 <;>
      · rw [h0]
        decide
    obtain ⟨c1, c2, c3⟩ := monitorStep_counters prob settings nTasks since s s1 task h
    rw [if_neg (fun hc => hne hc.1), add_zero] at c1 c2 c3
    exact ⟨c1, c2, c3⟩

/-- Witness of C8: in the run `noopTask`, `evalTask`, `majorTask`, `doneTask` one
function evaluation is counted, and no gradient evaluation. -/
theorem evaluation_counters_witness :
    ({} : Monitor).stats = {} ∧
    monitorLoop {} limitOne 1 (fun _ => 0) {} [noopTask, evalTask, majorTask, doneTask] =
      Except.ok afterDone ∧
    afterDone.stats.FuncEvaluations = 1 ∧ afterDone.stats.GradEvaluations = 0 :=
  ⟨rfl, rfl,
   (((evaluation_counters {} limitOne 1 (fun _ => 0)).1
      [noopTask, evalTask, majorTask, doneTask] {} afterDone rfl rfl).1).trans (by decide),
   (((evaluation_counters {} limitOne 1 (fun _ => 0)).1
      [noopTask, evalTask, majorTask, doneTask] {} afterDone rfl rfl).2.1).trans (by decide)⟩

/-! ## The status of a method that is done -/

theorem entry_fresh (stats : Stats) (optLoc : Location) (calls : Calls) :
    (entry stats optLoc calls).fresh :=
  ⟨rfl, rfl, rfl, rfl, rfl, rfl, rfl, rfl, rfl⟩

/-- One monitor step sets `methodDone` on a `MethodDone` task and never resets it. -/
theorem monitorStep_methodDone (prob : Problem) (settings : Settings) (nTasks : Int)
    (since : Nat → Int) (s s1 : Monitor) (task : Task)
    (h : monitorStep prob settings nTasks since s task = Except.ok s1) :
    (task.Op = MethodDone → s1.methodDone = true) ∧
    (task.Op ≠ MethodDone → s1.methodDone = s.methodDone) := by
  by_cases hsd : task.Op = signalDone
  · obtain ⟨rfl, -⟩ := monitorStep_signalDone prob settings nTasks since s s1 task hsd h
    refine ⟨fun hc => ?_, fun _ => rfl⟩
    rw [hsd] at hc
    exact absurd hc (by decide)
  · obtain ⟨a, b, ha, hb, hr⟩ := (monitorStep_blocks prob settings nTasks since s s1 task hsd).1 h
    have frec := recordTask_frame settings since a task
    have fl := latch_frame _ b hb
    have fr := returnTask_frame nTasks b s1 task hr
    rw [fr.2.2.2.2.2.2.2.1, fl.2.2.2.2.2.1, frec.2.2.2.2.1]
    rcases handleTask_ok prob settings since s a task ha with
      ⟨h0, rfl⟩ | ⟨h0, loc, -, rfl⟩ | ⟨h0, rfl⟩ | ⟨h0, rfl⟩
    · exact ⟨fun hc => absurd (h0.symm.trans hc) (by decide), fun _ => rfl⟩
    · exact ⟨fun hc => absurd (h0.symm.trans hc) (by decide), fun _ => rfl⟩
    · exact ⟨fun _ => rfl, fun hc => absurd h0 hc⟩
    · exact ⟨fun hc => absurd hc (isEvaluation_tags task.Op h0).2.2.2.1, fun _ => rfl⟩

/-- After the monitor loop `methodDone` is set exactly when it was set before or a
`MethodDone` task was processed. -/
theorem monitorLoop_methodDone (prob : Problem) (settings : Settings) (nTasks : Int)
    (since : Nat → Int) (tasks : List Task) (s0 sf : Monitor)
    (h : monitorLoop prob settings nTasks since s0 tasks = Except.ok sf) :
    sf.methodDone = true ↔ (s0.methodDone = true ∨ ∃ t ∈ tasks, t.Op = MethodDone) := by
  induction tasks generalizing s0 with
  | nil =>
    rw [monitorLoop_nil] at h
    rw [← Except.ok.inj h]
    simp
  | cons t rest ih =>
    obtain ⟨s, hs, hrest⟩ := (monitorLoop_cons prob settings nTasks since s0 sf t rest).1 h
    obtain ⟨k1, k2⟩ := monitorStep_methodDone prob settings nTasks since s0 s t hs
    rw [ih s hrest]
    by_cases ht : t.Op = MethodDone
    · simp [k1 ht, ht]
    · simp [k2 ht, ht]

/-- When `method.Init` answers a count between 1 and the count asked for, `minimize`
is the monitor loop followed by the block on `methodDone`. -/
theorem minimize_run (prob : Problem) (method : Method) (settings : Settings) (stats : Stats)
    (initOp : Operation) (initLoc optLoc : Location) (since : Nat → Int) (calls : Calls)
    (arriving : List Task)
    (h1 : 0 < method.Init optLoc.X.len (requestedTasks settings))
    (h2 : method.Init optLoc.X.len (requestedTasks settings) ≤ requestedTasks settings) :
    minimize prob method settings stats initOp initLoc optLoc since calls arriving =
      match monitorLoop prob settings (method.Init optLoc.X.len (requestedTasks settings))
          since (entry stats optLoc calls) arriving with
      | Except.error e => Except.error e
      | Except.ok s =>
        match finish method s with
        | Except.error e => Except.error e
        | Except.ok r => Except.ok (r, s) := by
  unfold minimize
  simp only
  rw [if_neg (by omega), if_neg (by omega), if_neg (by omega)]

/-- When `minimize` returns, the monitor loop went through on a positive count of
tasks, and the block on `methodDone` gave what is returned. -/
theorem minimize_ok (prob : Problem) (method : Method) (settings : Settings) (stats : Stats)
    (initOp : Operation) (initLoc optLoc : Location) (since : Nat → Int) (calls : Calls)
    (arriving : List Task) (r : Status × Error) (s : Monitor)
    (h : minimize prob method settings stats initOp initLoc optLoc since calls arriving =
      Except.ok (r, s)) :
    0 < method.Init optLoc.X.len (requestedTasks settings) ∧
    method.Init optLoc.X.len (requestedTasks settings) ≤ requestedTasks settings ∧
    monitorLoop prob settings (method.Init optLoc.X.len (requestedTasks settings)) since
      (entry stats optLoc calls) arriving = Except.ok s ∧
    finish method s = Except.ok r := by
  by_cases h1 : 0 < method.Init optLoc.X.len (requestedTasks settings)
  · by_cases h2 : method.Init optLoc.X.len (requestedTasks settings) ≤ requestedTasks settings
    · rw [minimize_run prob method settings stats initOp initLoc optLoc since calls arriving
        h1 h2] at h
      cases hl : monitorLoop prob settings (method.Init optLoc.X.len (requestedTasks settings))
          since (entry stats optLoc calls) arriving with
      | error e => simp [hl] at h
      | ok s2 =>
        simp only [hl] at h
        cases hf : finish method s2 with
        | error e => simp [hf] at h
        | ok r2 =>
          simp only [hf] at h
          have h3 := Except.ok.inj h
          have h4 : r2 = r := congrArg Prod.fst h3
          have h5 : s2 = s := congrArg Prod.snd h3
          subst h4 h5
          exact ⟨h1, h2, rfl, hf⟩
    · unfold minimize at h
      simp only at h
      rw [if_pos (by omega)] at h
      exact absurd h (by simp)
  · unfold minimize at h
    simp only at h
    by_cases h2 : method.Init optLoc.X.len (requestedTasks settings) ≤ requestedTasks settings
    · rw [if_neg (by omega)] at h
      by_cases h3 : method.Init optLoc.X.len (requestedTasks settings) < 0
      · rw [if_pos h3] at h
        exact absurd h (by simp)
      · rw [if_neg h3, if_pos (by omega)] at h
        exact absurd h (by simp)
    · rw [if_pos (by omega)] at h
      exact absurd h (by simp)

/-- C9: in a run in which a `MethodDone` task reaches the monitor, what `minimize`
returns, when it returns, is the pair that `method.Status()` answers, whatever was
latched, and its status is not `NotTerminated`; `minimize` panics when the method
has no `Status` or when `Status` answers `NotTerminated`; and it does return the
pair of `method.Status()` when that status is not `NotTerminated`, the count of
tasks is accepted and the monitor loop goes through. -/
theorem method_status_final (prob : Problem) (method : Method) (settings : Settings)
    (stats : Stats) (initOp : Operation) (initLoc optLoc : Location) (since : Nat → Int)
    (calls : Calls) (arriving : List Task) (hdone : ∃ t ∈ arriving, t.Op = MethodDone) :
    (∀ r s, minimize prob method settings stats initOp initLoc optLoc since calls arriving =
        Except.ok (r, s) → method.Status = some r ∧ r.1 ≠ Status.NotTerminated) ∧
    (method.Status = none →
      ∃ msg, minimize prob method settings stats initOp initLoc optLoc since calls arriving =
        Except.error msg) ∧
    (∀ e, method.Status = some (Status.NotTerminated, e) →
      ∃ msg, minimize prob method settings stats initOp initLoc optLoc since calls arriving =
        Except.error msg) ∧
    (∀ st e s, method.Status = some (st, e) → st ≠ Status.NotTerminated →
      0 < method.Init optLoc.X.len (requestedTasks settings) →
      method.Init optLoc.X.len (requestedTasks settings) ≤ requestedTasks settings →
      monitorLoop prob settings (method.Init optLoc.X.len (requestedTasks settings)) since
        (entry stats optLoc calls) arriving = Except.ok s →
      minimize prob method settings stats initOp initLoc optLoc since calls arriving =
        Except.ok ((st, e), s)) := by
  have main : ∀ r s, minimize prob method settings stats initOp initLoc optLoc since calls
      arriving = Except.ok (r, s) → method.Status = some r ∧ r.1 ≠ Status.NotTerminated := by
    intro r s h
    obtain ⟨-, -, hl, hf⟩ := minimize_ok prob method settings stats initOp initLoc optLoc
      since calls arriving r s h
    have hmd : s.methodDone = true :=
      (monitorLoop_methodDone prob settings _ since arriving _ s hl).2 (Or.inr hdone)
    unfold finish at hf
    rw [if_pos hmd] at hf
    cases hst : method.Status with
    | none => simp [hst] at hf
    | some v =>
      obtain ⟨st, e⟩ := v
      simp only [hst] at hf
      by_cases hnt : st = Status.NotTerminated
      · simp [hnt] at hf
      · rw [if_neg hnt] at hf
        rw [← Except.ok.inj hf]
        exact ⟨rfl, hnt⟩
  have abort : ∀ v : Except String ((Status × Error) × Monitor),
      (∀ r s, v = Except.ok (r, s) → False) → ∃ msg, v = Except.error msg := by
    intro v hv
    cases v with
    | error msg => exact ⟨msg, rfl⟩
    | ok x => exact absurd rfl (fun hx => hv x.1 x.2 hx)
  refine ⟨main, ?_, ?_, ?_⟩
  · intro hnone
    apply abort
    intro r s h
    have := (main r s h).1
    rw [hnone] at this
    exact absurd this (by simp)
  · intro e he
    apply abort
    intro r s h
    obtain ⟨m1, m2⟩ := main r s h
    rw [he] at m1
    exact m2 (congrArg Prod.fst (Option.some.inj m1)).symm
  · intro st e s hst hnt h1 h2 hl
    have hmd : s.methodDone = true :=
      (monitorLoop_methodDone prob settings _ since arriving _ s hl).2 (Or.inr hdone)
    rw [minimize_run prob method settings stats initOp initLoc optLoc since calls arriving h1 h2]
    simp only [hl, finish, hmd, if_true, hst, if_neg hnt]

/-- Witness of C9: the run `methodDoneTask`, `doneTask` with the method `stopper`
returns the pair of `stopper.Status`, not the latched `MethodConverge`. -/
theorem method_status_final_witness :
    (∃ t ∈ [methodDoneTask, doneTask], t.Op = MethodDone) ∧
    minimize {} stopper {} {} NoOperation {} {} (fun _ => 0) {} [methodDoneTask, doneTask] =
      Except.ok ((Status.custom 3, some "stop"), afterMethodDone) ∧
    afterMethodDone.finalStatus = Status.MethodConverge ∧
    stopper.Status = some (Status.custom 3, some "stop") :=
  ⟨⟨methodDoneTask, by simp, rfl⟩, rfl, rfl,
   ((method_status_final {} stopper {} {} NoOperation {} {} (fun _ => 0) {}
      [methodDoneTask, doneTask] ⟨methodDoneTask, by simp, rfl⟩).1
      (Status.custom 3, some "stop") afterMethodDone rfl).1⟩

/-! ## The entry point -/

/-- `Minimize` once the validation, the initial location and the first call of the
Recorder went through: the run of `minimize` and the cleanup. -/
theorem Minimize_started (d : Defaults) (since : Nat → Int) (arriving : List Task)
    (p : Problem) (initX : Slice) (settings : Option Settings) (method : Option Method)
    (c : Checked) (initOp : Operation) (initLoc : Location)
    (hc : checkOptimization p initX.len (chosenMethod d p method)
      (chosenSettings d settings).Recorder = Except.ok c)
    (hce : c.err = none)
    (hi : getInitLocation initX.len initX (chosenSettings d settings).InitValues
      (chosenMethod d p method) = Except.ok (initOp, initLoc))
    (hfirst : (recordInit (chosenSettings d settings)
      (initialOptimum initX.len (chosenMethod d p method)) { Runtime := since 0 }).1 = none) :
    Minimize d since arriving p initX settings method =
      match minimize p (chosenMethod d p method) (chosenSettings d settings)
          { Runtime := since 0 } initOp initLoc
          (initialOptimum initX.len (chosenMethod d p method)) since
          { polls := c.polls
            records := (recordInit (chosenSettings d settings)
              (initialOptimum initX.len (chosenMethod d p method)) { Runtime := since 0 }).2
            converges := 0, ticks := 1 } arriving with
      | Except.error e =>
        { panicked := some e, polls := c.polls, inits := c.inits,
          records := (recordInit (chosenSettings d settings)
            (initialOptimum initX.len (chosenMethod d p method)) { Runtime := since 0 }).2,
          started := true }
      | Except.ok ((status, err), s) =>
        { result := some { Location := s.optLoc,
                           Stats := { s.stats with Runtime := since s.ticks },
                           Status := status }
          err := (recordPost (chosenSettings d settings) err s).1
          polls := s.polls, inits := c.inits
          records := (recordPost (chosenSettings d settings) err s).2
          started := true } := by
  unfold Minimize
  simp only [hc, hce, hi, hfirst, ne_eq, not_true_eq_false, if_false]

/-- When `Minimize` returns a `Result`, the validation, the initial location and the
first call of the Recorder went through and `minimize` returned; the `Result` holds
the optimum and the statistics of the monitor and the status of `minimize`. -/
theorem Minimize_result (d : Defaults) (since : Nat → Int) (arriving : List Task)
    (p : Problem) (initX : Slice) (settings : Option Settings) (method : Option Method)
    (res : Result) (h : (Minimize d since arriving p initX settings method).result = some res) :
    ∃ c initOp initLoc r s,
      checkOptimization p initX.len (chosenMethod d p method)
        (chosenSettings d settings).Recorder = Except.ok c ∧
      c.err = none ∧
      getInitLocation initX.len initX (chosenSettings d settings).InitValues
        (chosenMethod d p method) = Except.ok (initOp, initLoc) ∧
      (recordInit (chosenSettings d settings)
        (initialOptimum initX.len (chosenMethod d p method)) { Runtime := since 0 }).1 = none ∧
      minimize p (chosenMethod d p method) (chosenSettings d settings)
          { Runtime := since 0 } initOp initLoc
          (initialOptimum initX.len (chosenMethod d p method)) since
          { polls := c.polls
            records := (recordInit (chosenSettings d settings)
              (initialOptimum initX.len (chosenMethod d p method)) { Runtime := since 0 }).2
            converges := 0, ticks := 1 } arriving = Except.ok (r, s) ∧
      res = { Location := s.optLoc, Stats := { s.stats with Runtime := since s.ticks },
              Status := r.1 } ∧
      (Minimize d since arriving p initX settings method).err =
        (recordPost (chosenSettings d settings) r.2 s).1 := by
  cases hc : checkOptimization p initX.len (chosenMethod d p method)
      (chosenSettings d settings).Recorder with
  | error e =>
    unfold Minimize at h
    simp [hc] at h
  | ok c =>
    by_cases hce : c.err = none
    · cases hi : getInitLocation initX.len initX (chosenSettings d settings).InitValues
          (chosenMethod d p method) with
      | error e =>
        unfold Minimize at h
        simp [hc, hce, hi] at h
      | ok il =>
        obtain ⟨initOp, initLoc⟩ := il
        by_cases hfirst : (recordInit (chosenSettings d settings)
            (initialOptimum initX.len (chosenMethod d p method)) { Runtime := since 0 }).1 = none
        · have hM := Minimize_started d since arriving p initX settings method c initOp initLoc
            hc hce hi hfirst
          rw [hM] at h ⊢
          cases hm : minimize p (chosenMethod d p method) (chosenSettings d settings)
              { Runtime := since 0 } initOp initLoc
              (initialOptimum initX.len (chosenMethod d p method)) since
              { polls := c.polls
                records := (recordInit (chosenSettings d settings)
                  (initialOptimum initX.len (chosenMethod d p method)) { Runtime := since 0 }).2
                converges := 0, ticks := 1 } arriving with
          | error e => simp [hm] at h
          | ok v =>
            obtain ⟨⟨status, err⟩, s⟩ := v
            simp only [hm, Option.some.injEq] at h
            refine ⟨c, initOp, initLoc, (status, err), s, rfl, hce, rfl, hfirst, hm, h.symm, ?_⟩
            simp only [hm]
        · unfold Minimize at h
          simp [hc, hce, hi, hfirst] at h
    · unfold Minimize at h
      simp [hc, hce] at h

/-- One monitor step changes the optimum on a `MajorIteration` task, into a copy of
the task's location, and on no other task. -/
theorem monitorStep_optLoc (prob : Problem) (settings : Settings) (nTasks : Int)
    (since : Nat → Int) (s s1 : Monitor) (task : Task)
    (h : monitorStep prob settings nTasks since s task = Except.ok s1) :
    (task.Op = MajorIteration →
      ∃ loc, task.Location = some loc ∧ s1.optLoc = copyLocation s.optLoc loc) ∧
    (task.Op ≠ MajorIteration → s1.optLoc = s.optLoc) := by
  by_cases hsd : task.Op = signalDone
  · obtain ⟨rfl, -⟩ := monitorStep_signalDone prob settings nTasks since s s1 task hsd h
    refine ⟨fun hc => ?_, fun _ => rfl⟩
    rw [hsd] at hc
    exact absurd hc (by decide)
  · obtain ⟨a, b, ha, hb, hr⟩ := (monitorStep_blocks prob settings nTasks since s s1 task hsd).1 h
    have frec := recordTask_frame settings since a task
    have fl := latch_frame _ b hb
    have fr := returnTask_frame nTasks b s1 task hr
    rw [fr.2.1, fl.2.1, frec.1]
    rcases handleTask_ok prob settings since s a task ha with
      ⟨h0, rfl⟩ | ⟨h0, loc, hloc, rfl⟩ | ⟨h0, rfl⟩ | ⟨h0, rfl⟩
    · exact ⟨fun hc => absurd (h0.symm.trans hc) (by decide), fun _ => rfl⟩
    · exact ⟨fun _ => ⟨loc, hloc,
        (performMajorIteration_parts s.optLoc loc s.stats (since s.ticks) settings
          s.converges).1⟩, fun hc => absurd h0 hc⟩
    · exact ⟨fun hc => absurd (h0.symm.trans hc) (by decide), fun _ => rfl⟩
    · exact ⟨fun hc => absurd hc (isEvaluation_tags task.Op h0).2.2.1, fun _ => rfl⟩

/-- Tasks other than `MajorIteration` leave the optimum as it is. -/
theorem monitorLoop_optLoc (prob : Problem) (settings : Settings) (nTasks : Int)
    (since : Nat → Int) (tasks : List Task) (s0 sf : Monitor)
    (hno : ∀ u ∈ tasks, u.Op ≠ MajorIteration)
    (h : monitorLoop prob settings nTasks since s0 tasks = Except.ok sf) :
    sf.optLoc = s0.optLoc := by
  induction tasks generalizing s0 with
  | nil =>
    rw [monitorLoop_nil] at h
    rw [← Except.ok.inj h]
  | cons t rest ih =>
    obtain ⟨s, hs, hrest⟩ := (monitorLoop_cons prob settings nTasks since s0 sf t rest).1 h
    rw [ih s (fun u hu => hno u (List.mem_cons_of_mem t hu)) hrest]
    exact (monitorStep_optLoc prob settings nTasks since s0 s t hs).2
      (hno t (List.mem_cons_self t rest))

/-- C5: the `Location` of the `Result` that `Minimize` returns has the `X`, the `F`
and the `Gradient` of the location of the last `MajorIteration` task that reached
the monitor, at whatever place of the run that task came (before or after the
termination was latched); when no `MajorIteration` reached the monitor it is the
initial optimum, with `F = +Inf` and `X` made of `len(initX)` zeros. -/
theorem result_location (d : Defaults) (since : Nat → Int) (arriving : List Task)
    (p : Problem) (initX : Slice) (settings : Option Settings) (method : Option Method)
    (res : Result) (hres : (Minimize d since arriving p initX settings method).result = some res) :
    (∀ pre t post, arriving = pre ++ t :: post → t.Op = MajorIteration →
      (∀ u ∈ post, u.Op ≠ MajorIteration) →
      ∃ loc, t.Location = some loc ∧ res.Location.X.elems = loc.X.elems ∧
        res.Location.F = loc.F ∧ res.Location.Gradient.elems = loc.Gradient.elems) ∧
    ((∀ u ∈ arriving, u.Op ≠ MajorIteration) →
      res.Location.F = F64.posInf ∧
      res.Location.X = some (List.replicate initX.len F64.zero)) := by
  obtain ⟨c, initOp, initLoc, r, s, -, -, -, -, hm, hr, -⟩ :=
    Minimize_result d since arriving p initX settings method res hres
  obtain ⟨-, -, hl, -⟩ := minimize_ok _ _ _ _ _ _ _ _ _ _ r s hm
  have hloc : res.Location = s.optLoc := by rw [hr]
  rw [hloc]
  refine ⟨?_, ?_⟩
  · intro pre t post harr ht hpost
    rw [harr] at hl
    obtain ⟨s1, -, h2⟩ := (monitorLoop_append _ _ _ _ pre (t :: post) _ s).1 hl
    obtain ⟨s2, hs, h3⟩ := (monitorLoop_cons _ _ _ _ s1 s t post).1 h2
    obtain ⟨loc, hloc1, hcopy⟩ := (monitorStep_optLoc _ _ _ _ s1 s2 t hs).1 ht
    have hkeep := monitorLoop_optLoc _ _ _ _ post s2 s hpost h3
    obtain ⟨c1, c2, c3, -, -⟩ := copyLocation_spec s1.optLoc loc
    rw [hkeep, hcopy]
    exact ⟨loc, hloc1, c1, c2, c3⟩
  · intro hno
    rw [monitorLoop_optLoc _ _ _ _ arriving _ s hno hl]
    exact ⟨rfl, rfl⟩

/-- Witness of C5: in the run `noopTask`, `evalTask`, `majorTask`, `doneTask` under a
limit of one function evaluation, the major iteration comes after the termination
was latched by the evaluation, and the `Result` has its location. -/
theorem result_location_witness :
    (Minimize {} (fun _ => 0) [noopTask, evalTask, majorTask, doneTask] flat
      (some [F64.fin 10]) (some limitOne) (some {})).result = some limitResult ∧
    ∃ loc, majorTask.Location = some loc ∧ limitResult.Location.X.elems = loc.X.elems ∧
      limitResult.Location.F = loc.F ∧
      limitResult.Location.Gradient.elems = loc.Gradient.elems :=
  ⟨rfl, (result_location {} (fun _ => 0) [noopTask, evalTask, majorTask, doneTask] flat
      (some [F64.fin 10]) (some limitOne) (some {}) limitResult rfl).1
      [noopTask, evalTask] majorTask [doneTask] rfl rfl (by decide)⟩

/-! ## Errors of the Recorder -/

/-- Counterexample to C10 as stated, four runs of `Minimize` with a Recorder that
returns an error once.  The error at `PostIteration` is returned, but the status is
`FunctionEvaluationLimit`, not `Failure`.  The error at `InitIteration` is returned
without any `Result`, so without a status.  The error on a task that comes after the
termination was latched is not returned: the run ends on `GradientThreshold` and a
nil error, although the call number 1 of `Record`, on the evaluation task, failed.
The error on the first task of a run in which a `MethodDone` task follows is
replaced, with its status `Failure`, by the answer of `method.Status()`. -/
theorem recorder_error_counterexample :
    ((Minimize {} (fun _ => 0) [evalTask, doneTask] flat (some [F64.fin 10])
        (some { FuncEvaluations := 1, Recorder := some (failingAt 1) }) (some {})).err =
        some "record failed" ∧
      (Minimize {} (fun _ => 0) [evalTask, doneTask] flat (some [F64.fin 10])
        (some { FuncEvaluations := 1, Recorder := some (failingAt 1) })
        (some {})).result.map (fun r => r.Status) = some Status.FunctionEvaluationLimit) ∧
    ((Minimize {} (fun _ => 0) [evalTask, doneTask] flat (some [F64.fin 10])
        (some { FuncEvaluations := 1, Recorder := some (failingAt 0) }) (some {})).err =
        some "record failed" ∧
      (Minimize {} (fun _ => 0) [evalTask, doneTask] flat (some [F64.fin 10])
        (some { FuncEvaluations := 1, Recorder := some (failingAt 0) }) (some {})).result =
        none) ∧
    ((Minimize {} (fun _ => 0) [gradTask, evalTask, doneTask] smooth (some [F64.fin 10])
        (some (thresholdSettings 1)) (some gradMethod)).err = none ∧
      (Minimize {} (fun _ => 0) [gradTask, evalTask, doneTask] smooth (some [F64.fin 10])
        (some (thresholdSettings 1)) (some gradMethod)).result.map (fun r => r.Status) =
        some Status.GradientThreshold ∧
      (Minimize {} (fun _ => 0) [gradTask, evalTask, doneTask] smooth (some [F64.fin 10])
        (some (thresholdSettings 1)) (some gradMethod)).records.map (fun c => c.op) =
        [InitIteration, FuncEvaluation, PostIteration] ∧
      (failingAt 1).Record 1 evalTask.Location FuncEvaluation { FuncEvaluations := 1 } =
        some "record failed") ∧
    ((Minimize {} (fun _ => 0) [evalTask, methodDoneTask, doneTask] flat (some [F64.fin 10])
        (some failingSettings) (some converger)).err = none ∧
      (Minimize {} (fun _ => 0) [evalTask, methodDoneTask, doneTask] flat (some [F64.fin 10])
        (some failingSettings) (some converger)).result.map (fun r => r.Status) =
        some Status.MethodConverge ∧
      (Minimize {} (fun _ => 0) [evalTask, methodDoneTask, doneTask] flat (some [F64.fin 10])
        (some failingSettings) (some converger)).records.map (fun c => c.op) =
        [InitIteration, FuncEvaluation, PostIteration]) :=
  ⟨⟨by decide, by decide⟩, ⟨by decide, by decide⟩, ⟨by decide, by decide, by decide, by decide⟩,
   ⟨by decide, by decide, by decide⟩⟩

/-- The monitor's `switch` accepts no `signalDone` task (the loop handles it before). -/
theorem handleTask_not_signalDone (prob : Problem) (settings : Settings) (since : Nat → Int)
    (s a : Monitor) (task : Task) (h : handleTask prob settings since s task = Except.ok a) :
    task.Op ≠ signalDone := by
  rcases handleTask_ok prob settings since s a task h with
    ⟨h0, -⟩ | ⟨h0, -⟩ | ⟨h0, -⟩ | ⟨h0, -⟩
  · rw [h0]; decide
  · rw [h0]; decide
  · rw [h0]; decide
  · exact (isEvaluation_tags task.Op h0).1

/-- C10 (amended): in a run of `Minimize` with a Recorder, past the validation and
the initial location.  (1) When `Record` on `InitIteration` returns an error `e`,
`Minimize` returns `e` and no `Result`.  (2) When `Record` returns an error `e` on a
task before any termination was latched, no `MethodDone` task reaches the monitor
and the monitor loop goes through, `Minimize` returns `e` and a `Result` whose
status is `Failure`.  (3) When `minimize` returns a nil error and `Record` on
`PostIteration` returns an error `e`, `Minimize` returns `e` and a `Result` with the
status that `minimize` returned. -/
theorem recorder_error (d : Defaults) (since : Nat → Int) (arriving : List Task)
    (p : Problem) (initX : Slice) (settings : Option Settings) (method : Option Method)
    (c : Checked) (initOp : Operation) (initLoc : Location) (rec : Recorder) (e : String)
    (hc : checkOptimization p initX.len (chosenMethod d p method)
      (chosenSettings d settings).Recorder = Except.ok c)
    (hce : c.err = none)
    (hi : getInitLocation initX.len initX (chosenSettings d settings).InitValues
      (chosenMethod d p method) = Except.ok (initOp, initLoc))
    (hrec : (chosenSettings d settings).Recorder = some rec) :
    (rec.Record 0 (some (initialOptimum initX.len (chosenMethod d p method))) InitIteration
        { Runtime := since 0 } = some e →
      (Minimize d since arriving p initX settings method).err = some e ∧
      (Minimize d since arriving p initX settings method).result = none ∧
      (Minimize d since arriving p initX settings method).panicked = none) ∧
    (rec.Record 0 (some (initialOptimum initX.len (chosenMethod d p method))) InitIteration
        { Runtime := since 0 } = none →
      ∀ (pre : List Task) (t : Task) (post : List Task) (s1 a sf : Monitor),
        arriving = pre ++ t :: post →
        (∀ u ∈ arriving, u.Op ≠ MethodDone) →
        0 < (chosenMethod d p method).Init
          (initialOptimum initX.len (chosenMethod d p method)).X.len
          (requestedTasks (chosenSettings d settings)) →
        (chosenMethod d p method).Init
          (initialOptimum initX.len (chosenMethod d p method)).X.len
          (requestedTasks (chosenSettings d settings)) ≤
            requestedTasks (chosenSettings d settings) →
        monitorLoop p (chosenSettings d settings)
          ((chosenMethod d p method).Init
            (initialOptimum initX.len (chosenMethod d p method)).X.len
            (requestedTasks (chosenSettings d settings))) since
          (entry { Runtime := since 0 } (initialOptimum initX.len (chosenMethod d p method))
            { polls := c.polls
              records := [⟨some (initialOptimum initX.len (chosenMethod d p method)),
                InitIteration, { Runtime := since 0 }⟩]
              converges := 0, ticks := 1 }) pre = Except.ok s1 →
        (∀ q sq, q <+: pre →
          monitorLoop p (chosenSettings d settings)
            ((chosenMethod d p method).Init
              (initialOptimum initX.len (chosenMethod d p method)).X.len
              (requestedTasks (chosenSettings d settings))) since
            (entry { Runtime := since 0 } (initialOptimum initX.len (chosenMethod d p method))
              { polls := c.polls
                records := [⟨some (initialOptimum initX.len (chosenMethod d p method)),
                  InitIteration, { Runtime := since 0 }⟩]
                converges := 0, ticks := 1 }) q = Except.ok sq → ¬ sq.terminated) →
        handleTask p (chosenSettings d settings) since s1 t = Except.ok a →
        ¬ a.terminated →
        rec.Record a.records.length t.Location t.Op { a.stats with Runtime := since a.ticks } =
          some e →
        monitorLoop p (chosenSettings d settings)
          ((chosenMethod d p method).Init
            (initialOptimum initX.len (chosenMethod d p method)).X.len
            (requestedTasks (chosenSettings d settings))) since
          (entry { Runtime := since 0 } (initialOptimum initX.len (chosenMethod d p method))
            { polls := c.polls
              records := [⟨some (initialOptimum initX.len (chosenMethod d p method)),
                InitIteration, { Runtime := since 0 }⟩]
              converges := 0, ticks := 1 }) arriving = Except.ok sf →
        (Minimize d since arriving p initX settings method).err = some e ∧
        (Minimize d since arriving p initX settings method).panicked = none ∧
        ∃ res, (Minimize d since arriving p initX settings method).result = some res ∧
          res.Status = Status.Failure) ∧
    (rec.Record 0 (some (initialOptimum initX.len (chosenMethod d p method))) InitIteration
        { Runtime := since 0 } = none →
      ∀ (status : Status) (s : Monitor),
        minimize p (chosenMethod d p method) (chosenSettings d settings)
          { Runtime := since 0 } initOp initLoc
          (initialOptimum initX.len (chosenMethod d p method)) since
          { polls := c.polls
            records := [⟨some (initialOptimum initX.len (chosenMethod d p method)),
              InitIteration, { Runtime := since 0 }⟩]
            converges := 0, ticks := 1 } arriving = Except.ok ((status, none), s) →
        rec.Record s.records.length (some s.optLoc) PostIteration s.stats = some e →
        (Minimize d since arriving p initX settings method).err = some e ∧
        (Minimize d since arriving p initX settings method).panicked = none ∧
        ∃ res, (Minimize d since arriving p initX settings method).result = some res ∧
          res.Status = status) := by
  have hri : recordInit (chosenSettings d settings)
      (initialOptimum initX.len (chosenMethod d p method)) { Runtime := since 0 } =
      (rec.Record 0 (some (initialOptimum initX.len (chosenMethod d p method))) InitIteration
        { Runtime := since 0 },
       [⟨some (initialOptimum initX.len (chosenMethod d p method)), InitIteration,
         { Runtime := since 0 }⟩]) := by
    simp only [recordInit, hrec]
  refine ⟨?_, ?_, ?_⟩
  · intro h0
    unfold Minimize
    simp only [hc, hce, hi, hri, h0]
    simp
  · intro h0 pre t post s1 a sf harr hnomd hn1 hn2 hpre hquiet hha hq hrerr hrun
    have hfirst : (recordInit (chosenSettings d settings)
        (initialOptimum initX.len (chosenMethod d p method)) { Runtime := since 0 }).1 = none := by
      rw [hri]; exact h0
    have hM := Minimize_started d since arriving p initX settings method c initOp initLoc
      hc hce hi hfirst
    rw [hri] at hM
    -- the step of `t`
    rw [harr] at hrun
    obtain ⟨s1x, hpre1, h2⟩ := (monitorLoop_append _ _ _ _ pre (t :: post) _ sf).1 hrun
    rw [hpre] at hpre1
    have hs1 : s1x = s1 := (Except.ok.inj hpre1).symm
    subst hs1
    obtain ⟨s2, hs, h3⟩ := (monitorLoop_cons _ _ _ _ s1x sf t post).1 h2
    have hnsd := handleTask_not_signalDone _ _ _ s1x a t hha
    obtain ⟨a1, b, ha1, hb, hr⟩ := (monitorStep_blocks _ _ _ _ s1x s2 t hnsd).1 hs
    rw [hha] at ha1
    have ha : a1 = a := (Except.ok.inj ha1).symm
    subst ha
    have hrt := recordTask_some (chosenSettings d settings) since a1 t rec hrec hq
    have hst : (recordTask (chosenSettings d settings) since a1 t).status = Status.Failure := by
      rw [hrt]
      simp [hrerr]
    have herr : (recordTask (chosenSettings d settings) since a1 t).err = some e := by
      rw [hrt]
      exact hrerr
    have fl := latch_frame _ b hb
    have fr := returnTask_frame _ b s2 t hr
    have hs2s : s2.status = Status.Failure := by rw [fr.2.2.2.1, fl.2.2.2.1, hst]
    have hs2e : s2.err = some e := by rw [fr.2.2.2.2.1, fl.2.2.2.2.1, herr]
    have hterm : s2.terminated := Or.inl (by rw [hs2s]; decide)
    have hfresh := entry_fresh { Runtime := since 0 }
      (initialOptimum initX.len (chosenMethod d p method))
      { polls := c.polls
        records := [⟨some (initialOptimum initX.len (chosenMethod d p method)),
          InitIteration, { Runtime := since 0 }⟩]
        converges := 0, ticks := 1 }
    obtain ⟨q1, -, -, -, -⟩ := monitorLoop_quiet _ _ _ _ pre _ s1x hfresh.doneClosed
      ((terminated_iff _).2 ⟨hfresh.status, hfresh.err⟩) hpre hquiet
    obtain ⟨-, hlatch, -, -⟩ := monitorStep_latch _ _ _ _ s1x s2 t hs
    obtain ⟨l1, l2, l3, -⟩ := hlatch ⟨q1, hnsd, hterm⟩
    obtain ⟨-, m2, m3, -⟩ := monitorLoop_latched _ _ _ _ post s2 sf (by omega) h3
    have hmd : sf.methodDone = false := by
      have := (monitorLoop_methodDone _ _ _ _ (pre ++ t :: post) _ sf hrun).not
      rw [Bool.not_eq_true] at this
      apply this.2
      rintro (hx | ⟨u, hu, hux⟩)
      · rw [hfresh.methodDone] at hx
        exact absurd hx (by decide)
      · exact hnomd u (harr ▸ hu) hux
    have hmin := minimize_run p (chosenMethod d p method) (chosenSettings d settings)
      { Runtime := since 0 } initOp initLoc (initialOptimum initX.len (chosenMethod d p method))
      since { polls := c.polls
              records := [⟨some (initialOptimum initX.len (chosenMethod d p method)),
                InitIteration, { Runtime := since 0 }⟩]
              converges := 0, ticks := 1 } arriving hn1 hn2
    rw [harr, hrun] at hmin
    simp only [finish, hmd, Bool.false_eq_true, if_false] at hmin
    rw [m2, m3, l2, l3, hs2s, hs2e] at hmin
    rw [harr] at hM ⊢
    rw [hmin] at hM
    rw [hM]
    refine ⟨?_, rfl, _, rfl, rfl⟩
    simp [recordPost, hrec]
  · intro h0 status s hmin hpost
    have hfirst : (recordInit (chosenSettings d settings)
        (initialOptimum initX.len (chosenMethod d p method)) { Runtime := since 0 }).1 = none := by
      rw [hri]; exact h0
    have hM := Minimize_started d since arriving p initX settings method c initOp initLoc
      hc hce hi hfirst
    rw [hri] at hM
    rw [hmin] at hM
    rw [hM]
    refine ⟨?_, rfl, _, rfl, rfl⟩
    simp [recordPost, hrec, hpost]

theorem empty_quiet (prob : Problem) (settings : Settings) (nTasks : Int) (since : Nat → Int)
    (s0 : Monitor) (h0 : ¬ s0.terminated) (q : List Task) (sq : Monitor) (hq : q <+: [])
    (h : monitorLoop prob settings nTasks since s0 q = Except.ok sq) : ¬ sq.terminated := by
  rw [List.prefix_nil.1 hq, monitorLoop_nil] at h
  rw [← Except.ok.inj h]
  exact h0

/-- Witness of C10: the run `evalTask`, `doneTask` with a Recorder that fails on the
evaluation task, the first task of the run: `Minimize` returns the error of the
Recorder and the status `Failure`. -/
theorem recorder_error_witness :
    (chosenSettings {} (some failingSettings)).Recorder = some (failingAt 1) ∧
    checkOptimization flat (Slice.len (some [F64.fin 10])) (chosenMethod {} flat (some {}))
      (chosenSettings {} (some failingSettings)).Recorder =
        Except.ok { err := none, polls := 0, inits := 1 } ∧
    (Minimize {} (fun _ => 0) [evalTask, doneTask] flat (some [F64.fin 10])
      (some failingSettings) (some {})).err = some "record failed" ∧
    (Minimize {} (fun _ => 0) [evalTask, doneTask] flat (some [F64.fin 10])
      (some failingSettings) (some {})).panicked = none ∧
    ∃ res, (Minimize {} (fun _ => 0) [evalTask, doneTask] flat (some [F64.fin 10])
      (some failingSettings) (some {})).result = some res ∧ res.Status = Status.Failure :=
  ⟨rfl, rfl,
   (recorder_error {} (fun _ => 0) [evalTask, doneTask] flat (some [F64.fin 10])
      (some failingSettings) (some {}) { err := none, polls := 0, inits := 1 } NoOperation
      { X := some [F64.fin 10] } (failingAt 1) "record failed" rfl rfl rfl rfl).2.1 rfl
      [] evalTask [doneTask] _ _ _ rfl (by decide) (by decide) (by decide) rfl
      (empty_quiet _ _ _ _ _ (by decide)) rfl (by decide) rfl rfl⟩

/-! ## The validation of the input -/

/-- A problem without `Func` makes `checkOptimization` panic. -/
theorem checkOptimization_nilFunc (p : Problem) (dim : Int) (method : Method)
    (recorder : Option Recorder) (h : p.Func = none) :
    checkOptimization p dim method recorder = Except.error badProblem := by
  simp [checkOptimization, h]

/-- A dimension that is not positive makes `checkOptimization` panic, once `Func` is
there. -/
theorem checkOptimization_dim (p : Problem) (dim : Int) (method : Method)
    (recorder : Option Recorder) (h : p.Func ≠ none) (hd : dim ≤ 0) :
    checkOptimization p dim method recorder =
      Except.error "optimize: impossible problem dimension" := by
  have h1 : p.Func.isNone = false := by
    cases hf : p.Func with
    | none => exact absurd hf h
    | some f => rfl
  simp [checkOptimization, h1, hd]

/-- An unmet need of the method makes `checkOptimization` return the error of
`satisfies`, before `p.Status` and `Recorder.Init` are called. -/
theorem checkOptimization_needs (p : Problem) (dim : Int) (method : Method)
    (recorder : Option Recorder) (e : String) (h : p.Func ≠ none) (hd : 0 < dim)
    (hs : p.satisfies method = some e) :
    checkOptimization p dim method recorder = Except.ok { err := some e } := by
  have h1 : p.Func.isNone = false := by
    cases hf : p.Func with
    | none => exact absurd hf h
    | some f => rfl
  have h2 : ¬ dim ≤ 0 := by omega
  simp [checkOptimization, h1, h2, hs]

/-- Past the structural checks and the needs of the method, `checkOptimization`
calls `p.Status` once when it is set and looks at its error only; `Recorder.Init` is
called when that error is nil. -/
theorem checkOptimization_passed (p : Problem) (dim : Int) (method : Method)
    (recorder : Option Recorder) (h : p.Func ≠ none) (hd : 0 < dim)
    (hs : p.satisfies method = none) :
    checkOptimization p dim method recorder = Except.ok
      (match p.Status with
       | some f =>
         if (f 0).2 ≠ none then { err := (f 0).2, polls := 1 }
         else match recorder with
           | some r => { err := r.Init, polls := 1, inits := 1 }
           | none => { polls := 1 }
       | none =>
         match recorder with
         | some r => { err := r.Init, inits := 1 }
         | none => {}) := by
  have h1 : p.Func.isNone = false := by
    cases hf : p.Func with
    | none => exact absurd hf h
    | some f => rfl
  have h2 : ¬ dim ≤ 0 := by omega
  unfold checkOptimization
  simp only [h1, Bool.false_eq_true, if_false, h2, hs]
  cases p.Status with
  | none => cases recorder <;> simp
  | some f =>
    by_cases he : (f 0).2 = none
    · cases recorder <;> simp [he]
    · simp [he]

/-- An error of the validation is returned by `Minimize` at once: no `Result`, no
call of `Record`, `minimize` not entered. -/
theorem Minimize_invalid (d : Defaults) (since : Nat → Int) (arriving : List Task)
    (p : Problem) (initX : Slice) (settings : Option Settings) (method : Option Method)
    (c : Checked)
    (hc : checkOptimization p initX.len (chosenMethod d p method)
      (chosenSettings d settings).Recorder = Except.ok c)
    (hce : c.err ≠ none) :
    Minimize d since arriving p initX settings method =
      { err := c.err, polls := c.polls, inits := c.inits } := by
  unfold Minimize
  simp only [hc, ne_eq, hce, not_false_eq_true, if_true]

/-- A panic of the validation is the panic of `Minimize`, with nothing called. -/
theorem Minimize_panic (d : Defaults) (since : Nat → Int) (arriving : List Task)
    (p : Problem) (initX : Slice) (settings : Option Settings) (method : Option Method)
    (msg : String)
    (hc : checkOptimization p initX.len (chosenMethod d p method)
      (chosenSettings d settings).Recorder = Except.error msg) :
    Minimize d since arriving p initX settings method = { panicked := some msg } := by
  unfold Minimize
  simp only [hc]

/-- Counterexample to C11 as stated.  The first call of `halting.Status` answers a
status other than `NotTerminated` (with a nil error), and `Minimize` does not fail
early: the Recorder is initialised, `minimize` is entered and the run ends without
error on `FunctionEvaluationLimit`.  And with a `Status` set but a gradient that the
method needs missing, `p.Status` is not called at all. -/
theorem status_at_validation_counterexample :
    (∃ f, halting.Status = some f ∧ (f 0).1 = Status.custom 7) ∧
    (Minimize {} (fun _ => 0) [evalTask, doneTask] halting (some [F64.fin 10])
      (some recordedLimit) (some {})).err = none ∧
    (Minimize {} (fun _ => 0) [evalTask, doneTask] halting (some [F64.fin 10])
      (some recordedLimit) (some {})).inits = 1 ∧
    (Minimize {} (fun _ => 0) [evalTask, doneTask] halting (some [F64.fin 10])
      (some recordedLimit) (some {})).started = true ∧
    (Minimize {} (fun _ => 0) [evalTask, doneTask] halting (some [F64.fin 10])
      (some recordedLimit) (some {})).result.map (fun r => r.Status) =
      some Status.FunctionEvaluationLimit ∧
    (Minimize {} (fun _ => 0) [evalTask, doneTask] halting (some [F64.fin 10])
      (some recordedLimit) (some gradMethod)).polls = 0 :=
  ⟨⟨_, rfl, rfl⟩, by decide, by decide, by decide, by decide, by decide⟩

/-- C11 (amended): when `Func` is set, the dimension is positive and the needs of
the method are met, the validation of `Minimize` calls `problem.Status` exactly once
if it is set (and not at all if it is not); if that call returns a non-nil error
`e`, `Minimize` fails early: it returns `e` and no `Result`, without initialising
the Recorder, without any call of `Record` and without entering `minimize` (so no
method is started and nothing is evaluated).  The status of that call is not looked
at: with a nil error the validation goes on to `Recorder.Init`, whatever the
status. -/
theorem status_at_validation (d : Defaults) (since : Nat → Int) (arriving : List Task)
    (p : Problem) (initX : Slice) (settings : Option Settings) (method : Option Method)
    (hfunc : p.Func ≠ none) (hdim : 0 < initX.len)
    (hneeds : p.satisfies (chosenMethod d p method) = none) :
    (∃ c, checkOptimization p initX.len (chosenMethod d p method)
        (chosenSettings d settings).Recorder = Except.ok c ∧
      c.polls = (if p.Status.isSome then 1 else 0)) ∧
    (∀ f e, p.Status = some f → (f 0).2 = some e →
      Minimize d since arriving p initX settings method = { err := some e, polls := 1 } ∧
      (Minimize d since arriving p initX settings method).result = none ∧
      (Minimize d since arriving p initX settings method).panicked = none ∧
      (Minimize d since arriving p initX settings method).inits = 0 ∧
      (Minimize d since arriving p initX settings method).records = [] ∧
      (Minimize d since arriving p initX settings method).started = false) ∧
    (∀ f, p.Status = some f → (f 0).2 = none →
      checkOptimization p initX.len (chosenMethod d p method)
        (chosenSettings d settings).Recorder = Except.ok
          (match (chosenSettings d settings).Recorder with
           | some r => { err := r.Init, polls := 1, inits := 1 }
           | none => { polls := 1 })) := by
  have hd : (0 : Int) < initX.len := by exact_mod_cast hdim
  have hpass := checkOptimization_passed p initX.len (chosenMethod d p method)
    (chosenSettings d settings).Recorder hfunc hd hneeds
  refine ⟨⟨_, hpass, ?_⟩, ?_, ?_⟩
  · cases p.Status with
    | none => cases (chosenSettings d settings).Recorder <;> rfl
    | some f =>
      by_cases he : (f 0).2 = none
      · cases (chosenSettings d settings).Recorder <;> simp [he]
      · simp [he]
  · intro f e hf he
    have hne : (f 0).2 ≠ none := by simp [he]
    rw [hf] at hpass
    simp only [hne, ne_eq, not_false_eq_true, if_true] at hpass
    have hM := Minimize_invalid d since arriving p initX settings method _ hpass hne
    rw [hM]
    simp [he]
  · intro f hf he
    rw [hf] at hpass
    simpa [he] using hpass

/-- Witness of C11: the first call of `broken.Status` answers an error, which
`Minimize` returns at once. -/
theorem status_at_validation_witness :
    broken.Func ≠ none ∧ 0 < Slice.len (some [F64.fin 10]) ∧
    (Minimize {} (fun _ => 0) [evalTask, doneTask] broken (some [F64.fin 10])
      (some recordedLimit) (some {})).err = some "problem failed" ∧
    (Minimize {} (fun _ => 0) [evalTask, doneTask] broken (some [F64.fin 10])
      (some recordedLimit) (some {})).inits = 0 ∧
    (Minimize {} (fun _ => 0) [evalTask, doneTask] broken (some [F64.fin 10])
      (some recordedLimit) (some {})).started = false :=
  have h := (status_at_validation {} (fun _ => 0) [evalTask, doneTask] broken
    (some [F64.fin 10]) (some recordedLimit) (some {}) (by simp [broken]) (by decide) rfl).2.1
    (fun _ => (Status.NotTerminated, some "problem failed")) "problem failed" rfl rfl
  ⟨by simp [broken], by decide, by rw [h.1], h.2.2.2.1, h.2.2.2.2.2⟩

/-- C12, evaluated where it fails: with an objective function but no gradient, and a
method that needs the gradient, `Minimize` does not panic: it returns the error of
`satisfies` (and no `Result`); the same with a method that needs the Hessian.  A
problem without `Func` does make it panic. -/
theorem needs_unmet_returns :
    (Minimize {} (fun _ => 0) [] flat (some [F64.fin 10]) (some {}) (some gradMethod)).panicked =
      none ∧
    (Minimize {} (fun _ => 0) [] flat (some [F64.fin 10]) (some {}) (some gradMethod)).err =
      some "optimize: problem does not provide needed Grad function" ∧
    (Minimize {} (fun _ => 0) [] flat (some [F64.fin 10]) (some {}) (some gradMethod)).result =
      none ∧
    (Minimize {} (fun _ => 0) [] flat (some [F64.fin 10]) (some {}) (some hessMethod)).panicked =
      none ∧
    (Minimize {} (fun _ => 0) [] flat (some [F64.fin 10]) (some {}) (some hessMethod)).err =
      some "optimize: problem does not provide needed Hess function" ∧
    (Minimize {} (fun _ => 0) [] {} (some [F64.fin 10]) (some {}) (some gradMethod)).panicked =
      some badProblem :=
  ⟨by decide, by decide, by decide, by decide, by decide, by decide⟩

/-- Whatever error `satisfies` answers for an unmet need of the method, `Minimize`
returns it, without a panic, when `Func` is set and the dimension is positive. -/
theorem Minimize_needs (d : Defaults) (since : Nat → Int) (arriving : List Task)
    (p : Problem) (initX : Slice) (settings : Option Settings) (method : Option Method)
    (e : String) (hfunc : p.Func ≠ none) (hdim : 0 < initX.len)
    (hneeds : p.satisfies (chosenMethod d p method) = some e) :
    Minimize d since arriving p initX settings method = { err := some e } := by
  have hd : (0 : Int) < initX.len := by exact_mod_cast hdim
  have hc := checkOptimization_needs p initX.len (chosenMethod d p method)
    (chosenSettings d settings).Recorder e hfunc hd hneeds
  rw [Minimize_invalid d since arriving p initX settings method _ hc (by simp)]

/-- C13: `Minimize` panics, and returns neither a `Result` nor an error, whenever
`problem.Func` is nil or `len(initX)` is zero (so for `initX = nil`); nothing has
been called by then: not `problem.Status`, not `Recorder.Init`, not `Record`, and
`minimize`, which calls `method.Init`, is not entered.  With `Func` nil the panic is
the one of the missing function, whatever the dimension. -/
theorem structural_abort (d : Defaults) (since : Nat → Int) (arriving : List Task)
    (p : Problem) (initX : Slice) (settings : Option Settings) (method : Option Method) :
    (p.Func = none →
      Minimize d since arriving p initX settings method = { panicked := some badProblem }) ∧
    (p.Func ≠ none → initX.len = 0 →
      Minimize d since arriving p initX settings method =
        { panicked := some "optimize: impossible problem dimension" }) ∧
    (p.Func = none ∨ initX.len = 0 ∨ initX = none →
      (Minimize d since arriving p initX settings method).panicked ≠ none ∧
      (Minimize d since arriving p initX settings method).result = none ∧
      (Minimize d since arriving p initX settings method).err = none ∧
      (Minimize d since arriving p initX settings method).polls = 0 ∧
      (Minimize d since arriving p initX settings method).inits = 0 ∧
      (Minimize d since arriving p initX settings method).records = [] ∧
      (Minimize d since arriving p initX settings method).started = false) := by
  have h1 : p.Func = none →
      Minimize d since arriving p initX settings method = { panicked := some badProblem } :=
    fun h => Minimize_panic d since arriving p initX settings method _
      (checkOptimization_nilFunc p _ _ _ h)
  have h2 : p.Func ≠ none → initX.len = 0 →
      Minimize d since arriving p initX settings method =
        { panicked := some "optimize: impossible problem dimension" } :=
    fun h h0 => Minimize_panic d since arriving p initX settings method _
      (checkOptimization_dim p _ _ _ h (by rw [h0]; exact le_refl _))
  refine ⟨h1, h2, ?_⟩
  intro h
  have hlen : initX = none → initX.len = 0 := fun hn => by rw [hn]; rfl
  by_cases hf : p.Func = none
  · rw [h1 hf]
    simp
  · have h0 : initX.len = 0 := by
      rcases h with h | h | h
      · exact absurd h hf
      · exact h
      · exact hlen h
    rw [h2 hf h0]
    simp

/-- Witness of C13: a problem without `Func` and a nil `initX`: the panic is the one
of the missing function; with `Func` it is the one of the dimension. -/
theorem structural_abort_witness :
    ({} : Problem).Func = none ∧
    Minimize {} (fun _ => 0) [evalTask, doneTask] {} none (some recordedLimit) (some {}) =
      { panicked := some badProblem } ∧
    Minimize {} (fun _ => 0) [evalTask, doneTask] flat none (some recordedLimit) (some {}) =
      { panicked := some "optimize: impossible problem dimension" } :=
  ⟨rfl,
   (structural_abort {} (fun _ => 0) [evalTask, doneTask] {} none (some recordedLimit)
      (some {})).1 rfl,
   (structural_abort {} (fun _ => 0) [evalTask, doneTask] flat none (some recordedLimit)
      (some {})).2.1 (by simp [flat]) rfl⟩

/-! ## The count of tasks -/

/-- The start of `minimize` is `launch`: the same panics, and the monitor loop on
the count of tasks of `launch`. -/
theorem minimize_launch (prob : Problem) (method : Method) (settings : Settings)
    (stats : Stats) (initOp : Operation) (initLoc optLoc : Location) (since : Nat → Int)
    (calls : Calls) (arriving : List Task) :
    minimize prob method settings stats initOp initLoc optLoc since calls arriving =
      match launch method settings initOp initLoc optLoc with
      | Except.error e => Except.error e
      | Except.ok l =>
        match monitorLoop prob settings l.nTasks since (entry stats optLoc calls) arriving with
        | Except.error e => Except.error e
        | Except.ok s =>
          match finish method s with
          | Except.error e => Except.error e
          | Except.ok r => Except.ok (r, s) := by
  unfold minimize launch
  simp only
  split_ifs <;> rfl

/-- Counterexample to C14 as stated: with `settings.Concurrent = -2` the count asked
of `method.Init` is `-2`, not `max(1, -2) = 1`; a method that takes what it is
offered then makes `minimize` panic on the size of its channels. -/
theorem requested_tasks_counterexample :
    negativeConcurrent.Concurrent = -2 ∧
    requestedTasks negativeConcurrent = -2 ∧
    max 1 negativeConcurrent.Concurrent = 1 ∧
    minimize flat {} negativeConcurrent {} NoOperation {} {} (fun _ => 0) {}
      [evalTask, doneTask] = Except.error "makechan: size out of range" :=
  ⟨rfl, by decide, by decide, rfl⟩

/-- C14 (amended): for every `settings.Concurrent` that is not negative the count of
tasks that `minimize` passes to `method.Init` is `max(1, settings.Concurrent)`, so
`Concurrent = 0` asks for the same count as `Concurrent = 1`; a negative
`Concurrent` is passed as it is.  That count is the only one `method.Init` is asked
about: two methods that agree on it (and on `Status`) give the same `minimize`. -/
theorem requested_tasks (settings : Settings) :
    (0 ≤ settings.Concurrent → requestedTasks settings = max 1 settings.Concurrent) ∧
    (settings.Concurrent < 0 → requestedTasks settings = settings.Concurrent) ∧
    requestedTasks { settings with Concurrent := 0 } =
      requestedTasks { settings with Concurrent := 1 } ∧
    (∀ (prob : Problem) (m1 m2 : Method) (stats : Stats) (initOp : Operation)
      (initLoc optLoc : Location) (since : Nat → Int) (calls : Calls) (arriving : List Task),
      m1.Init optLoc.X.len (requestedTasks settings) =
        m2.Init optLoc.X.len (requestedTasks settings) →
      m1.Status = m2.Status →
      minimize prob m1 settings stats initOp initLoc optLoc since calls arriving =
        minimize prob m2 settings stats initOp initLoc optLoc since calls arriving) := by
  refine ⟨?_, ?_, rfl, ?_⟩
  · intro h
    unfold requestedTasks
    split_ifs with h0
    · rw [h0]; rfl
    · rw [max_eq_right (by omega)]
  · intro h
    unfold requestedTasks
    rw [if_neg (by omega)]
  · intro prob m1 m2 stats initOp initLoc optLoc since calls arriving hi hs
    unfold minimize finish
    simp only [hi, hs]

/-- Witness of C14: three concurrent tasks are asked for as three, none as one. -/
theorem requested_tasks_witness :
    (0 : Int) ≤ threeConcurrent.Concurrent ∧ requestedTasks threeConcurrent = 3 ∧
    requestedTasks { threeConcurrent with Concurrent := 0 } = 1 :=
  ⟨by decide, ((requested_tasks threeConcurrent).1 (by decide)).trans (by decide),
   ((requested_tasks threeConcurrent).2.2.1).trans (by decide)⟩

/-- The `tasks` of `method.Run`, for a positive count: the initial task, then tasks
with a location from `newLocation` and the zero `Op`. -/
theorem runTasks_succ (n : Nat) (initOp : Operation) (initLoc : Location) (dim : Nat)
    (method : Method) :
    runTasks (n + 1) initOp initLoc dim method =
      { Op := initOp, Location := some initLoc } ::
        List.replicate n { Location := some (newLocation dim method) } := by
  unfold runTasks
  rw [List.range_succ_eq_map, List.map_cons, List.map_map]
  have hf : ((fun i => if i = 0 then ({ Op := initOp, Location := some initLoc } : Task)
      else { Location := some (newLocation dim method) }) ∘ Nat.succ) =
      fun _ => ({ Location := some (newLocation dim method) } : Task) := by
    funext i
    simp
  rw [hf, List.map_const', List.length_range]
  simp

/-- What `newLocation` allocates: `X` of `dim` zeros, a gradient of `dim` zeros
exactly when the method needs one, a Hessian of order `dim` exactly when the method
needs one. -/
theorem newLocation_spec (dim : Nat) (method : Method) :
    (newLocation dim method).X = some (List.replicate dim F64.zero) ∧
    (newLocation dim method).X.len = dim ∧
    (method.Needs.Gradient = true →
      (newLocation dim method).Gradient = some (List.replicate dim F64.zero)) ∧
    (method.Needs.Gradient = false → (newLocation dim method).Gradient = none) ∧
    (method.Needs.Hessian = true →
      (newLocation dim method).Hessian = some (SymDense.new dim)) ∧
    (method.Needs.Hessian = false → (newLocation dim method).Hessian = none) := by
  refine ⟨rfl, by simp [newLocation, Slice.make, Slice.len, Slice.elems], ?_, ?_, ?_, ?_⟩ <;>
  · intro h
    simp [newLocation, h, Slice.make]

/-- C15: the answer `n` of `method.Init` governs the run.  When `n` is greater than
the count asked for, `minimize` panics before anything is launched.  When `n` is
between 1 and the count asked for, `method.Run` gets a `tasks` slice of length `n`,
whose element 0 has the initial location and operation and whose other elements
have the operation `NoOperation` and a location from `newLocation` (`X` of `dim`
zeros, a gradient and a Hessian exactly when the method needs them); `n` workers are
started, and the monitor counts the workers against `n`. -/
theorem init_governs (method : Method) (settings : Settings) (initOp : Operation)
    (initLoc optLoc : Location) :
    (requestedTasks settings < method.Init optLoc.X.len (requestedTasks settings) →
      launch method settings initOp initLoc optLoc =
        Except.error "optimize: too many tasks returned by Method" ∧
      ∀ (prob : Problem) (stats : Stats) (since : Nat → Int) (calls : Calls)
        (arriving : List Task),
        minimize prob method settings stats initOp initLoc optLoc since calls arriving =
          Except.error "optimize: too many tasks returned by Method") ∧
    (1 ≤ method.Init optLoc.X.len (requestedTasks settings) →
      method.Init optLoc.X.len (requestedTasks settings) ≤ requestedTasks settings →
      ∃ l, launch method settings initOp initLoc optLoc = Except.ok l ∧
        l.nTasks = method.Init optLoc.X.len (requestedTasks settings) ∧
        (l.tasks.length : Int) = method.Init optLoc.X.len (requestedTasks settings) ∧
        (l.workers : Int) = method.Init optLoc.X.len (requestedTasks settings) ∧
        l.tasks = { Op := initOp, Location := some initLoc } ::
          List.replicate (l.workers - 1) { Location := some (newLocation optLoc.X.len method) } ∧
        (∀ t ∈ l.tasks.tail, t.Op = NoOperation ∧
          t.Location = some (newLocation optLoc.X.len method)) ∧
        (newLocation optLoc.X.len method).X =
          some (List.replicate optLoc.X.len F64.zero) ∧
        ((newLocation optLoc.X.len method).Gradient ≠ none ↔ method.Needs.Gradient = true) ∧
        ((newLocation optLoc.X.len method).Hessian ≠ none ↔ method.Needs.Hessian = true) ∧
        ∀ (prob : Problem) (stats : Stats) (since : Nat → Int) (calls : Calls)
          (arriving : List Task),
          minimize prob method settings stats initOp initLoc optLoc since calls arriving =
            match monitorLoop prob settings l.nTasks since (entry stats optLoc calls)
                arriving with
            | Except.error e => Except.error e
            | Except.ok s =>
              match finish method s with
              | Except.error e => Except.error e
              | Except.ok r => Except.ok (r, s)) := by
  refine ⟨?_, ?_⟩
  · intro h
    have hl : launch method settings initOp initLoc optLoc =
        Except.error "optimize: too many tasks returned by Method" := by
      unfold launch
      simp only
      rw [if_pos h]
    refine ⟨hl, fun prob stats since calls arriving => ?_⟩
    rw [minimize_launch, hl]
  · intro h1 h2
    obtain ⟨k, hk⟩ : ∃ k : Nat, method.Init optLoc.X.len (requestedTasks settings) = (k + 1 : Nat) :=
      ⟨(method.Init optLoc.X.len (requestedTasks settings)).toNat - 1, by omega⟩
    have hl : launch method settings initOp initLoc optLoc = Except.ok
        { nTasks := method.Init optLoc.X.len (requestedTasks settings)
          tasks := runTasks (k + 1) initOp initLoc optLoc.X.len method
          workers := k + 1 } := by
      unfold launch
      simp only
      rw [if_neg (by omega), if_neg (by omega), if_neg (by omega)]
      simp [hk]
    obtain ⟨n1, -, n3, n4, n5, n6⟩ := newLocation_spec optLoc.X.len method
    refine ⟨_, hl, rfl, ?_, ?_, ?_, ?_, n1, ?_, ?_, ?_⟩
    · simp [runTasks, hk]
    · simp [hk]
    · simp [runTasks_succ]
    · intro t ht
      rw [runTasks_succ] at ht
      simp only [List.tail_cons] at ht
      rw [List.eq_of_mem_replicate ht]
      exact ⟨rfl, rfl⟩
    · cases hg : method.Needs.Gradient
      · simp [n4 hg]
      · simp [n3 hg]
    · cases hh : method.Needs.Hessian
      · simp [n6 hh]
      · simp [n5 hh]
    · intro prob stats since calls arriving
      rw [minimize_launch, hl]

/-- Witness of C15: three tasks on offer, a method that takes them all and needs the
gradient: three tasks for `Run`, three workers; a method that asks for two tasks
when one is on offer makes `minimize` panic. -/
theorem init_governs_witness :
    (1 : Int) ≤ greedy.Init (Slice.len (some [F64.fin 0])) (requestedTasks threeConcurrent) ∧
    launch greedy threeConcurrent FuncEvaluation { X := some [F64.fin 7] }
        { X := some [F64.fin 0] } =
      Except.ok
        { nTasks := 3
          tasks := [{ Op := FuncEvaluation, Location := some { X := some [F64.fin 7] } },
                    { Location := some { X := some [F64.zero], Gradient := some [F64.zero] } },
                    { Location := some { X := some [F64.zero], Gradient := some [F64.zero] } }]
          workers := 3 } ∧
    launch twoTasks {} NoOperation {} {} =
      Except.error "optimize: too many tasks returned by Method" :=
  ⟨by decide, rfl,
   ((init_governs twoTasks {} NoOperation {} {}).1 (by decide)).1⟩

/-! ## The initial location -/

/-- A copy into a newly made slice of the length of the source has the elements of
the source. -/
theorem copy_make_full (x : List F64) :
    Slice.copy (Slice.make x.length) (some x) = some x := by
  simp [Slice.copy, Slice.make, Slice.elems, Slice.len]

/-- The result of `getInitLocation` on an initial `X` and initial values without
`X`, whose gradient and Hessian, when given, have the dimension `dim`. -/
theorem getInitLocation_values (dim : Nat) (method : Method) (x : List F64) (iv : Location)
    (hx : iv.X = none) (hg : iv.Gradient ≠ none → iv.Gradient.len = dim)
    (hh : ∀ h, iv.Hessian = some h → h.n = dim) :
    getInitLocation dim (some x) (some iv) method = Except.ok
      (FuncEvaluation |||
          (if iv.Gradient ≠ none ∧ method.Needs.Gradient = true then GradEvaluation
           else NoOperation) |||
          (if iv.Hessian ≠ none ∧ method.Needs.Hessian = true then HessEvaluation
           else NoOperation),
       { X := Slice.copy (Slice.make dim) (some x)
         F := iv.F
         Gradient :=
           if iv.Gradient ≠ none ∧ method.Needs.Gradient = true then
             Slice.copy (Slice.make dim) iv.Gradient
           else (newLocation dim method).Gradient
         Hessian :=
           match iv.Hessian with
           | some h =>
             if method.Needs.Hessian = true then some ((SymDense.new dim).CopySym h)
             else none
           | none => (newLocation dim method).Hessian }) := by
  cases hgv : iv.Gradient with
  | none =>
    cases hhv : iv.Hessian with
    | none =>
      simp [getInitLocation, hx, hgv, hhv, newLocation]
      rfl
    | some h =>
      have h1 := hh h hhv
      cases hnh : method.Needs.Hessian <;>
        simp [getInitLocation, hx, hgv, hhv, newLocation, h1, hnh] <;> rfl
  | some g =>
    have h0 : iv.Gradient.len = dim := hg (by simp [hgv])
    rw [hgv] at h0
    cases hhv : iv.Hessian with
    | none =>
      cases hng : method.Needs.Gradient <;>
        simp [getInitLocation, hx, hgv, hhv, newLocation, h0, hng] <;> rfl
    | some h =>
      have h1 := hh h hhv
      cases hng : method.Needs.Gradient <;> cases hnh : method.Needs.Hessian <;>
        simp [getInitLocation, hx, hgv, hhv, newLocation, h0, h1, hng, hnh] <;> rfl

/-- The bits of the operation that `getInitLocation` composes. -/
theorem initOp_bits (g h : Prop) [Decidable g] [Decidable h] :
    (FuncEvaluation ||| (if g then GradEvaluation else NoOperation) |||
        (if h then HessEvaluation else NoOperation)) &&& FuncEvaluation ≠ 0 ∧
    ((FuncEvaluation ||| (if g then GradEvaluation else NoOperation) |||
        (if h then HessEvaluation else NoOperation)) &&& GradEvaluation ≠ 0 ↔ g) ∧
    ((FuncEvaluation ||| (if g then GradEvaluation else NoOperation) |||
        (if h then HessEvaluation else NoOperation)) &&& HessEvaluation ≠ 0 ↔ h) := by
  by_cases hg : g <;> by_cases hh : h
  · rw [if_pos hg, if_pos hh]
    exact ⟨by decide, ⟨fun _ => hg, fun _ => by decide⟩, ⟨fun _ => hh, fun _ => by decide⟩⟩
  · rw [if_pos hg, if_neg hh]
    exact ⟨by decide, ⟨fun _ => hg, fun _ => by decide⟩,
      ⟨fun c => absurd c (by decide), fun c => absurd c hh⟩⟩
  · rw [if_neg hg, if_pos hh]
    exact ⟨by decide, ⟨fun c => absurd c (by decide), fun c => absurd c hg⟩,
      ⟨fun _ => hh, fun _ => by decide⟩⟩
  · rw [if_neg hg, if_neg hh]
    exact ⟨by decide, ⟨fun c => absurd c (by decide), fun c => absurd c hg⟩,
      ⟨fun c => absurd c (by decide), fun c => absurd c hh⟩⟩

/-- C16: `getInitLocation`.  Without `initX` and without initial values it returns
`NoOperation` and the location of `newLocation`, whose `X` is `dim` zeros.  With an
`initX` of length `dim` and no initial values it returns `NoOperation` and `X` equal
to `initX`.  With an `initX` of length `dim` and initial values without `X` (whose
gradient and Hessian, when given, have dimension `dim`) it returns `X` equal to
`initX`, `F` equal to `initValues.F` and the operation `FuncEvaluation`, with
`GradEvaluation` exactly when a gradient is given and the method needs one (the
location then has the given gradient) and with `HessEvaluation` exactly when a
Hessian is given and the method needs one.  It panics when `initValues.X` is set,
when initial values are given without `initX`, and when a given gradient or Hessian
has another dimension than `dim`. -/
theorem getInitLocation_cases (dim : Nat) (method : Method) :
    (getInitLocation dim none none method = Except.ok (NoOperation, newLocation dim method) ∧
      (newLocation dim method).X = some (List.replicate dim F64.zero)) ∧
    (∀ x : List F64, x.length = dim →
      ∃ loc, getInitLocation dim (some x) none method = Except.ok (NoOperation, loc) ∧
        loc.X = some x) ∧
    (∀ (x : List F64) (iv : Location), x.length = dim → iv.X = none →
      (iv.Gradient ≠ none → iv.Gradient.len = dim) →
      (∀ h, iv.Hessian = some h → h.n = dim) →
      ∃ op loc, getInitLocation dim (some x) (some iv) method = Except.ok (op, loc) ∧
        loc.X = some x ∧ loc.F = iv.F ∧
        op = FuncEvaluation |||
          (if iv.Gradient ≠ none ∧ method.Needs.Gradient = true then GradEvaluation
           else NoOperation) |||
          (if iv.Hessian ≠ none ∧ method.Needs.Hessian = true then HessEvaluation
           else NoOperation) ∧
        (op &&& FuncEvaluation ≠ 0) ∧
        (op &&& GradEvaluation ≠ 0 ↔ iv.Gradient ≠ none ∧ method.Needs.Gradient = true) ∧
        (op &&& HessEvaluation ≠ 0 ↔ iv.Hessian ≠ none ∧ method.Needs.Hessian = true) ∧
        (iv.Gradient ≠ none → method.Needs.Gradient = true →
          loc.Gradient = some iv.Gradient.elems)) ∧
    (∀ (initX : Slice) (iv : Location), iv.X ≠ none →
      ∃ msg, getInitLocation dim initX (some iv) method = Except.error msg) ∧
    (∀ iv : Location, ∃ msg, getInitLocation dim none (some iv) method = Except.error msg) ∧
    (∀ (initX : Slice) (iv : Location), iv.Gradient ≠ none → iv.Gradient.len ≠ dim →
      ∃ msg, getInitLocation dim initX (some iv) method = Except.error msg) ∧
    (∀ (initX : Slice) (iv : Location) (h : SymDense), iv.Hessian = some h → h.n ≠ dim →
      ∃ msg, getInitLocation dim initX (some iv) method = Except.error msg) := by
  have hnone : ∀ iv : Location,
      ∃ msg, getInitLocation dim none (some iv) method = Except.error msg :=
    fun iv => ⟨"optimize: initValues is non-nil but no initial location specified",
      by simp [getInitLocation]⟩
  have hX : ∀ (x : List F64) (iv : Location), iv.X ≠ none →
      ∃ msg, getInitLocation dim (some x) (some iv) method = Except.error msg :=
    fun x iv h => ⟨"optimize: location specified in InitValues (only use InitX)",
      by simp [getInitLocation, h]⟩
  refine ⟨⟨by simp [getInitLocation], (newLocation_spec dim method).1⟩, ?_, ?_, ?_, hnone, ?_, ?_⟩
  · intro x hlen
    subst hlen
    exact ⟨{ newLocation x.length method with
        X := Slice.copy (newLocation x.length method).X (some x) },
      by simp [getInitLocation], copy_make_full x⟩
  · intro x iv hlen hx hg hh
    subst hlen
    obtain ⟨b1, b2, b3⟩ := initOp_bits (iv.Gradient ≠ none ∧ method.Needs.Gradient = true)
      (iv.Hessian ≠ none ∧ method.Needs.Hessian = true)
    refine ⟨_, _, getInitLocation_values x.length method x iv hx hg hh, copy_make_full x, rfl,
      rfl, b1, b2, b3, ?_⟩
    · intro h1 h2
      have hl := hg h1
      simp only [h1, h2, ne_eq, not_false_eq_true, and_self, if_true]
      cases hgv : iv.Gradient with
      | none => exact absurd hgv h1
      | some g =>
        rw [hgv] at hl
        have hl2 : g.length = x.length := hl
        rw [← hl2]
        exact copy_make_full g
  · intro initX iv h
    cases initX with
    | none => exact hnone iv
    | some x => exact hX x iv h
  · intro initX iv hg hl
    cases initX with
    | none => exact hnone iv
    | some x =>
      by_cases hx : iv.X = none
      · exact ⟨"optimize: initial gradient does not match problem dimension",
          by simp [getInitLocation, hx, hg, hl]⟩
      · exact hX x iv hx
  · intro initX iv h hh hn
    cases initX with
    | none => exact hnone iv
    | some x =>
      by_cases hx : iv.X = none
      · by_cases hg : iv.Gradient ≠ none
        · by_cases hl : iv.Gradient.len ≠ dim
          · exact ⟨"optimize: initial gradient does not match problem dimension",
              by simp [getInitLocation, hx, hg, hl]⟩
          · cases hng : method.Needs.Gradient <;>
              exact ⟨"optimize: initial Hessian does not match problem dimension",
                by simp [getInitLocation, hx, hg, not_not.1 hl, hng, hh, hn]⟩
        · exact ⟨"optimize: initial Hessian does not match problem dimension",
            by simp [getInitLocation, hx, not_not.1 hg, hh, hn]⟩
      · exact hX x iv hx

/-- Witness of C16: an `initX` of length 2, initial values with `F`, a gradient and a
Hessian, and a method that needs the gradient only: the operation is
`FuncEvaluation | GradEvaluation` and the gradient is taken over. -/
theorem getInitLocation_cases_witness :
    ([F64.fin 1, F64.fin 2] : List F64).length = 2 ∧ knownValues.X = none ∧
    getInitLocation 2 (some [F64.fin 1, F64.fin 2]) (some knownValues) greedy =
      Except.ok (FuncEvaluation ||| GradEvaluation,
        { X := some [F64.fin 1, F64.fin 2], F := F64.fin 3,
          Gradient := some [F64.fin 4, F64.fin 5] }) ∧
    ∃ op loc, getInitLocation 2 (some [F64.fin 1, F64.fin 2]) (some knownValues) greedy =
        Except.ok (op, loc) ∧ loc.X = some [F64.fin 1, F64.fin 2] :=
  ⟨rfl, rfl, rfl,
   (((getInitLocation_cases 2 greedy).2.2.1 [F64.fin 1, F64.fin 2] knownValues rfl rfl
      (fun _ => rfl) (fun h hh => by
        have : h = ⟨2, [F64.fin 6, F64.fin 7, F64.zero, F64.fin 8]⟩ :=
          (Option.some.inj hh).symm
        rw [this])).imp
      fun _ hop => hop.imp fun _ hloc => ⟨hloc.1, hloc.2.1⟩)⟩

/-! ## Thresholds that are switched off -/

/-- Nothing is below negative infinity. -/
theorem F64.lt_negInf (x : F64) : F64.lt x F64.negInf = false := by
  cases x <;> rfl

/-- The running maximum of `floats.Norm` stays among not-a-number, `+Inf` and the
finite values that are not negative: it is neither negative infinity nor below
zero. -/
theorem normInf_step (acc v : F64) (h : acc ≠ F64.negInf ∧ F64.lt acc F64.zero = false) :
    F64.max acc (F64.abs v) ≠ F64.negInf ∧
    F64.lt (F64.max acc (F64.abs v)) F64.zero = false := by
  obtain ⟨h1, h2⟩ := h
  cases acc with
  | nan => cases v <;> simp [F64.max, F64.abs, F64.lt, F64.zero]
  | negInf => exact absurd rfl h1
  | posInf => cases v <;> simp [F64.max, F64.abs, F64.lt, F64.zero]
  | fin a =>
    have ha : 0 ≤ a := by
      simpa [F64.lt, F64.zero] using h2
    cases v with
    | nan => simp [F64.max, F64.abs, F64.lt, F64.zero]
    | negInf => simp [F64.max, F64.abs, F64.lt, F64.zero]
    | posInf => simp [F64.max, F64.abs, F64.lt, F64.zero]
    | fin b =>
      simp only [F64.max, F64.abs, F64.lt, F64.zero, ne_eq, not_false_eq_true,
        decide_eq_false_iff_not, not_lt, true_and, reduceCtorEq]
      exact le_trans ha (le_max_left a |b|)

theorem normInf_fold (l : List F64) (acc : F64)
    (h : acc ≠ F64.negInf ∧ F64.lt acc F64.zero = false) :
    F64.lt (l.foldl (fun norm v => F64.max norm (F64.abs v)) acc) F64.zero = false := by
  induction l generalizing acc with
  | nil => exact h.2
  | cons v rest ih => exact ih _ (normInf_step acc v h)

/-- No infinity norm is below zero. -/
theorem normInf_not_negative (s : Slice) : F64.lt (normInf s) F64.zero = false :=
  normInf_fold s.elems F64.zero ⟨by decide, by decide⟩

/-- C20: with `settings.FunctionThreshold` at negative infinity and
`settings.GradientThreshold` at zero, neither threshold test of
`checkLocationConvergence` is ever met, for any location: the result is
`FunctionNegativeInfinity` when `F` is negative infinity, otherwise the verdict of
`settings.FunctionConverge` when one is configured, otherwise `NotTerminated`.  So
`FunctionThreshold` and `GradientThreshold` are not returned, unless a configured
`FunctionConverge` hands one of them back as its own verdict. -/
theorem thresholds_disabled (loc : Location) (settings : Settings) (calls : Nat)
    (hF : settings.FunctionThreshold = F64.negInf)
    (hG : settings.GradientThreshold = F64.zero) :
    (loc.F = F64.negInf →
      checkLocationConvergence loc settings calls = (Status.FunctionNegativeInfinity, calls)) ∧
    (loc.F ≠ F64.negInf → settings.FunctionConverge = none →
      checkLocationConvergence loc settings calls = (Status.NotTerminated, calls)) ∧
    (loc.F ≠ F64.negInf → ∀ c, settings.FunctionConverge = some c →
      checkLocationConvergence loc settings calls = (c calls loc.F, calls + 1)) ∧
    (settings.FunctionConverge = none →
      (checkLocationConvergence loc settings calls).1 ≠ Status.FunctionThreshold ∧
      (checkLocationConvergence loc settings calls).1 ≠ Status.GradientThreshold) ∧
    (∀ c, settings.FunctionConverge = some c →
      c calls loc.F ≠ Status.FunctionThreshold → c calls loc.F ≠ Status.GradientThreshold →
      (checkLocationConvergence loc settings calls).1 ≠ Status.FunctionThreshold ∧
      (checkLocationConvergence loc settings calls).1 ≠ Status.GradientThreshold) := by
  have hg : ¬ (loc.Gradient ≠ none ∧
      F64.lt (normInf loc.Gradient) settings.GradientThreshold = true) := by
    rw [hG, normInf_not_negative]
    simp
  have hf : ¬ F64.lt loc.F settings.FunctionThreshold = true := by
    rw [hF, F64.lt_negInf]
    simp
  have hinf : ∀ f : F64, F64.isNegInf f = true ↔ f = F64.negInf := by
    intro f
    cases f <;> simp [F64.isNegInf]
  have e1 : loc.F = F64.negInf →
      checkLocationConvergence loc settings calls = (Status.FunctionNegativeInfinity, calls) := by
    intro h
    unfold checkLocationConvergence
    rw [if_pos ((hinf loc.F).2 h)]
  have e2 : loc.F ≠ F64.negInf → settings.FunctionConverge = none →
      checkLocationConvergence loc settings calls = (Status.NotTerminated, calls) := by
    intro h hc
    unfold checkLocationConvergence
    rw [if_neg (fun hx => h ((hinf loc.F).1 hx)), if_neg hg, if_neg hf, hc]
  have e3 : loc.F ≠ F64.negInf → ∀ c, settings.FunctionConverge = some c →
      checkLocationConvergence loc settings calls = (c calls loc.F, calls + 1) := by
    intro h c hc
    unfold checkLocationConvergence
    rw [if_neg (fun hx => h ((hinf loc.F).1 hx)), if_neg hg, if_neg hf, hc]
  refine ⟨e1, e2, e3, ?_, ?_⟩
  · intro hc
    by_cases h : loc.F = F64.negInf
    · rw [e1 h]
      exact ⟨by simp, by simp⟩
    · rw [e2 h hc]
      exact ⟨by simp, by simp⟩
  · intro c hc h1 h2
    by_cases h : loc.F = F64.negInf
    · rw [e1 h]
      exact ⟨by simp, by simp⟩
    · rw [e3 h c hc]
      exact ⟨h1, h2⟩

/-- Witness of C20: a location with a very low `F` and a zero gradient does not
converge when the two thresholds are switched off. -/
theorem thresholds_disabled_witness :
    noThresholds.FunctionThreshold = F64.negInf ∧ noThresholds.GradientThreshold = F64.zero ∧
    checkLocationConvergence lowLoc noThresholds 0 = (Status.NotTerminated, 0) :=
  ⟨rfl, rfl, (thresholds_disabled lowLoc noThresholds 0 rfl rfl).2.1 (by decide) rfl⟩

/-! ## The routing of the distributor -/

/-- An operation that goes to the monitor is not an evaluation. -/
theorem monitorOp_not_evaluation (op : Operation) (h : monitorOp op = true) :
    isEvaluation op = false := by
  simp only [monitorOp, Bool.or_eq_true, beq_iff_eq] at h
  rcases h with (h | h) | h <;>
  · rw [h]
    decide

/-- The three outcomes of `route`, by the operation of the task. -/
theorem route_cases (task : Task) :
    (isEvaluation task.Op = true → route task = Except.ok (Routed.toWorkers task)) ∧
    (monitorOp task.Op = true → route task = Except.ok (Routed.toMonitor task)) ∧
    (isEvaluation task.Op = false → monitorOp task.Op = false →
      ∃ msg, route task = Except.error msg) := by
  refine ⟨?_, ?_, ?_⟩
  · intro h
    obtain ⟨-, h2, h3, h4, h5, h6⟩ := isEvaluation_tags task.Op h
    simp [route, h2, h3, h4, h5, h6, h]
  · intro h
    have hop : task.Op = NoOperation ∨ task.Op = MajorIteration ∨ task.Op = MethodDone := by
      simp only [monitorOp, Bool.or_eq_true, beq_iff_eq] at h
      tauto
    have h1 : task.Op ≠ InitIteration := by
      rcases hop with h | h | h <;>
      · rw [h]
        decide
    have h2 : task.Op ≠ PostIteration := by
      rcases hop with h | h | h <;>
      · rw [h]
        decide
    unfold route
    rw [if_neg h1, if_neg h2, if_pos hop]
  · intro h hm
    have hop : ¬ (task.Op = NoOperation ∨ task.Op = MajorIteration ∨ task.Op = MethodDone) := by
      intro hc
      have : monitorOp task.Op = true := by
        simp only [monitorOp, Bool.or_eq_true, beq_iff_eq]
        tauto
      rw [hm] at this
      exact absurd this (by decide)
    unfold route
    by_cases h1 : task.Op = InitIteration
    · exact ⟨_, if_pos h1⟩
    · rw [if_neg h1]
      by_cases h2 : task.Op = PostIteration
      · exact ⟨_, if_pos h2⟩
      · rw [if_neg h2, if_neg hop]
        exact ⟨"optimize: expecting evaluation operation", by simp [h]⟩

/-- One turn of the distributor: an evaluation goes on `workerChan`, one of the three
tags of the monitor goes on `statsChan`, anything else is a panic. -/
theorem distributeStep_cases (d : Distributed) (task : Task) :
    (isEvaluation task.Op = true → distributeStep d task =
      Except.ok { d with workerChan := d.workerChan ++ [task] }) ∧
    (monitorOp task.Op = true → distributeStep d task =
      Except.ok { d with statsChan := d.statsChan ++ [task] }) ∧
    (isEvaluation task.Op = false → monitorOp task.Op = false →
      ∃ msg, distributeStep d task = Except.error msg) := by
  obtain ⟨r1, r2, r3⟩ := route_cases task
  refine ⟨fun h => ?_, fun h => ?_, fun h hm => ?_⟩
  · simp only [distributeStep, r1 h]
  · simp only [distributeStep, r2 h]
  · obtain ⟨msg, hmsg⟩ := r3 h hm
    exact ⟨msg, by simp only [distributeStep, hmsg]⟩

/-- The running distributor, when it goes through: the evaluations on `workerChan`,
the tasks with one of the three tags of the monitor on `statsChan`, each in the
order read, and every task read is one or the other. -/
theorem distributeRunning_ok (before : List Task) (d r : Distributed)
    (h : distributeRunning d before = Except.ok r) :
    r.workerChan = d.workerChan ++ before.filter (fun t => isEvaluation t.Op) ∧
    r.statsChan = d.statsChan ++ before.filter (fun t => monitorOp t.Op) ∧
    r.workerChanClosed = d.workerChanClosed ∧ r.statsChanClosed = d.statsChanClosed ∧
    ∀ t ∈ before, isEvaluation t.Op = true ∨ monitorOp t.Op = true := by
  induction before generalizing d with
  | nil =>
    simp only [distributeRunning] at h
    rw [← Except.ok.inj h]
    simp
  | cons t rest ih =>
    obtain ⟨c1, c2, c3⟩ := distributeStep_cases d t
    simp only [distributeRunning] at h
    by_cases he : isEvaluation t.Op = true
    · have hm : monitorOp t.Op = false := by
        by_contra hc
        have := monitorOp_not_evaluation t.Op (by simpa using hc)
        rw [he] at this
        exact absurd this (by decide)
      rw [c1 he] at h
      obtain ⟨i1, i2, i3, i4, i5⟩ := ih _ h
      refine ⟨by simp [i1, he], by simp [i2, hm], i3, i4, ?_⟩
      intro u hu
      rcases List.mem_cons.1 hu with rfl | hu
      · exact Or.inl he
      · exact i5 u hu
    · have he2 : isEvaluation t.Op = false := by simpa using he
      by_cases hm : monitorOp t.Op = true
      · rw [c2 hm] at h
        obtain ⟨i1, i2, i3, i4, i5⟩ := ih _ h
        refine ⟨by simp [i1, he2], by simp [i2, hm], i3, i4, ?_⟩
        intro u hu
        rcases List.mem_cons.1 hu with rfl | hu
        · exact Or.inr hm
        · exact i5 u hu
      · obtain ⟨msg, hmsg⟩ := c3 he2 (by simpa using hm)
        rw [hmsg] at h
        exact absurd h (by simp)

/-- The running distributor goes through when every task read is an evaluation or
has one of the three tags of the monitor. -/
theorem distributeRunning_total (before : List Task) (d : Distributed)
    (h : ∀ t ∈ before, isEvaluation t.Op = true ∨ monitorOp t.Op = true) :
    ∃ r, distributeRunning d before = Except.ok r := by
  induction before generalizing d with
  | nil => exact ⟨d, rfl⟩
  | cons t rest ih =>
    obtain ⟨c1, c2, -⟩ := distributeStep_cases d t
    simp only [distributeRunning]
    rcases h t (List.mem_cons_self t rest) with he | hm
    · rw [c1 he]
      exact ih _ (fun u hu => h u (List.mem_cons_of_mem t hu))
    · rw [c2 hm]
      exact ih _ (fun u hu => h u (List.mem_cons_of_mem t hu))

/-- C17: the routing of the distributor.  A task read before `done` is observed goes
to the workers exactly when its operation is an evaluation, to the monitor exactly
when its operation is `NoOperation`, `MajorIteration` or `MethodDone`, and makes the
distributor panic otherwise, in particular on `InitIteration` and `PostIteration`.
After `done` is observed exactly the `MajorIteration` tasks are forwarded to the
monitor, in the order read, whatever the other tasks are, and nothing goes to the
workers any more.  So, in a run of the distributor that goes through, `workerChan`
has carried the evaluations read before `done`, `statsChan` the tasks with the three
tags read before `done` followed by the `MajorIteration` tasks read after it; every
operation on `workerChan` is an evaluation and none on `statsChan` is. -/
theorem distributor_routing :
    (∀ task : Task,
      (route task = Except.ok (Routed.toWorkers task) ↔ isEvaluation task.Op = true) ∧
      (route task = Except.ok (Routed.toMonitor task) ↔
        (task.Op = NoOperation ∨ task.Op = MajorIteration ∨ task.Op = MethodDone)) ∧
      ((∃ msg, route task = Except.error msg) ↔
        (isEvaluation task.Op = false ∧
          ¬ (task.Op = NoOperation ∨ task.Op = MajorIteration ∨ task.Op = MethodDone))) ∧
      (task.Op = InitIteration →
        route task = Except.error "optimize: Method returned InitIteration") ∧
      (task.Op = PostIteration →
        route task = Except.error "optimize: Method returned PostIteration")) ∧
    (∀ (before after : List Task) (r : Distributed),
      distributor before after = Except.ok r →
      r.workerChan = before.filter (fun t => isEvaluation t.Op) ∧
      r.statsChan = before.filter (fun t => monitorOp t.Op) ++
        after.filter (fun t => t.Op = MajorIteration) ∧
      r.workerChanClosed = true ∧ r.statsChanClosed = true ∧
      (∀ t ∈ r.workerChan, isEvaluation t.Op = true) ∧
      (∀ t ∈ r.statsChan, isEvaluation t.Op = false)) ∧
    (∀ before after : List Task,
      (∀ t ∈ before, isEvaluation t.Op = true ∨ monitorOp t.Op = true) →
      ∃ r, distributor before after = Except.ok r) ∧
    (∀ before after : List Task,
      (∃ t ∈ before, isEvaluation t.Op = false ∧ monitorOp t.Op = false) →
      ∃ msg, distributor before after = Except.error msg) := by
  have hmon : ∀ op : Operation, monitorOp op = true ↔
      (op = NoOperation ∨ op = MajorIteration ∨ op = MethodDone) := by
    intro op
    simp only [monitorOp, Bool.or_eq_true, beq_iff_eq]
    tauto
  refine ⟨?_, ?_, ?_, ?_⟩
  · intro task
    obtain ⟨r1, r2, r3⟩ := route_cases task
    have tri : isEvaluation task.Op = true ∨ monitorOp task.Op = true ∨
        (isEvaluation task.Op = false ∧ monitorOp task.Op = false) := by
      cases he : isEvaluation task.Op <;> cases hm : monitorOp task.Op <;> simp
    refine ⟨⟨fun h => ?_, r1⟩, ⟨fun h => ?_, fun h => r2 ((hmon _).2 h)⟩,
      ⟨fun h => ?_, fun h => r3 h.1 ?_⟩, fun h => ?_, fun h => ?_⟩
    · rcases tri with he | hm | ⟨he, hm⟩
      · exact he
      · rw [r2 hm] at h
        exact absurd h (by simp)
      · obtain ⟨msg, hmsg⟩ := r3 he hm
        rw [hmsg] at h
        exact absurd h (by simp)
    · rcases tri with he | hm | ⟨he, hm⟩
      · rw [r1 he] at h
        exact absurd h (by simp)
      · exact (hmon _).1 hm
      · obtain ⟨msg, hmsg⟩ := r3 he hm
        rw [hmsg] at h
        exact absurd h (by simp)
    · obtain ⟨msg, hmsg⟩ := h
      rcases tri with he | hm | ⟨he, hm⟩
      · rw [r1 he] at hmsg
        exact absurd hmsg (by simp)
      · rw [r2 hm] at hmsg
        exact absurd hmsg (by simp)
      · refine ⟨he, fun hc => ?_⟩
        rw [(hmon _).2 hc] at hm
        exact absurd hm (by decide)
    · by_contra hc
      exact h.2 ((hmon _).1 (by simpa using hc))
    · simp [route, h]
    · have h1 : task.Op ≠ InitIteration := by rw [h]; decide
      unfold route
      rw [if_neg h1, if_pos h]
  · intro before after r h
    unfold distributor at h
    cases hrun : distributeRunning {} before with
    | error e => simp [hrun] at h
    | ok d =>
      simp only [hrun] at h
      obtain ⟨i1, i2, -, -, -⟩ := distributeRunning_ok before {} d hrun
      rw [← Except.ok.inj h]
      simp only [distributeDraining, i1, i2, List.nil_append, true_and]
      refine ⟨?_, ?_⟩
      · intro t ht
        simpa using (List.mem_filter.1 ht).2
      · intro t ht
        rcases List.mem_append.1 ht with ht | ht
        · exact monitorOp_not_evaluation t.Op (by simpa using (List.mem_filter.1 ht).2)
        · have : t.Op = MajorIteration := by simpa using (List.mem_filter.1 ht).2
          rw [this]
          decide
  · intro before after h
    obtain ⟨d, hd⟩ := distributeRunning_total before {} h
    exact ⟨distributeDraining d after, by simp only [distributor, hd]⟩
  · rintro before after ⟨t, ht, he, hm⟩
    unfold distributor
    cases hrun : distributeRunning {} before with
    | error e => exact ⟨e, rfl⟩
    | ok d =>
      obtain ⟨-, -, -, -, i5⟩ := distributeRunning_ok before {} d hrun
      rcases i5 t ht with h | h
      · rw [he] at h
        exact absurd h (by decide)
      · rw [hm] at h
        exact absurd h (by decide)

/-- Witness of C17: before `done` an evaluation, a `NoOperation` and a
`MajorIteration` are read, after `done` an evaluation, a `MethodDone` and a
`MajorIteration`: the workers get the first evaluation only, the monitor the
`NoOperation` and the two `MajorIteration` tasks; an `InitIteration` from the method
is a panic. -/
theorem distributor_routing_witness :
    distributor [funcGradTask, noopTask, majorTask] [evalTask, methodDoneTask, gradTask] =
      Except.ok { workerChan := [funcGradTask], statsChan := [noopTask, majorTask, gradTask]
                  workerChanClosed := true, statsChanClosed := true } ∧
    (∃ msg, distributor [funcGradTask, initTask] [] = Except.error msg) :=
  ⟨rfl, distributor_routing.2.2.2 [funcGradTask, initTask] []
    ⟨initTask, by simp, by decide, by decide⟩⟩

/-! ## The return of the tasks to the method -/

/-- One monitor step keeps the link between the count of workers that are done and
the closing of `results`: `results` is closed exactly when at least `nTasks` workers
have signalled. -/
theorem monitorStep_counted (prob : Problem) (settings : Settings) (nTasks : Int)
    (since : Nat → Int) (s s1 : Monitor) (task : Task)
    (h : monitorStep prob settings nTasks since s task = Except.ok s1)
    (hinv : 0 < s.resultsClosed ↔ nTasks ≤ s.workersDone) :
    (0 < s1.resultsClosed ↔ nTasks ≤ s1.workersDone) := by
  by_cases hsd : task.Op = signalDone
  · obtain ⟨rfl, hopen⟩ := monitorStep_signalDone prob settings nTasks since s s1 task hsd h
    by_cases hn : s.workersDone + 1 = nTasks
    · simp only [hn, if_true]
      constructor
      · intro _
        omega
      · intro _
        exact Nat.one_pos
    · simp only [hn, if_false]
      rw [hinv]
      constructor <;> intro hc <;> omega
  · obtain ⟨a, b, ha, hb, hr⟩ := (monitorStep_blocks prob settings nTasks since s s1 task hsd).1 h
    have fa := handleTask_frame prob settings since s a task ha
    have frec := recordTask_frame settings since a task
    have fl := latch_frame _ b hb
    have fr := returnTask_frame nTasks b s1 task hr
    have h1 : s1.resultsClosed = s.resultsClosed := by
      rw [fr.2.2.2.2.2.2.2.2.1, fl.2.2.2.2.2.2.1, frec.2.2.2.2.2.2.1, fa.2.2.2.2.1]
    have h2 : s1.workersDone = s.workersDone := by
      rw [fr.2.2.1, fl.2.2.1, frec.2.1, fa.1]
    rw [h1, h2]
    exact hinv

/-- In a run of the monitor loop, `results` is closed exactly when at least `nTasks`
workers have signalled, if that held at the start. -/
theorem monitorLoop_counted (prob : Problem) (settings : Settings) (nTasks : Int)
    (since : Nat → Int) (tasks : List Task) (s0 sf : Monitor)
    (h : monitorLoop prob settings nTasks since s0 tasks = Except.ok sf)
    (hinv : 0 < s0.resultsClosed ↔ nTasks ≤ s0.workersDone) :
    (0 < sf.resultsClosed ↔ nTasks ≤ sf.workersDone) := by
  induction tasks generalizing s0 with
  | nil =>
    rw [monitorLoop_nil] at h
    rw [← Except.ok.inj h]
    exact hinv
  | cons t rest ih =>
    obtain ⟨s, hs, hrest⟩ := (monitorLoop_cons prob settings nTasks since s0 sf t rest).1 h
    exact ih s hrest (monitorStep_counted prob settings nTasks since s0 s t hs hinv)

/-- A monitor step goes through when the monitor's `switch` does and `results` is
open. -/
theorem monitorStep_open (prob : Problem) (settings : Settings) (nTasks : Int)
    (since : Nat → Int) (s a : Monitor) (task : Task)
    (ha : handleTask prob settings since s task = Except.ok a) (hopen : s.resultsClosed = 0) :
    ∃ s1, monitorStep prob settings nTasks since s task = Except.ok s1 := by
  have hsd := handleTask_not_signalDone prob settings since s a task ha
  have fa := handleTask_frame prob settings since s a task ha
  have h1 : (recordTask settings since a task).resultsClosed = 0 :=
    ((recordTask_frame settings since a task).2.2.2.2.2.2.1).trans (fa.2.2.2.2.1.trans hopen)
  obtain ⟨b, hb⟩ := latch_open (recordTask settings since a task) h1
  obtain ⟨s1, hs1⟩ := returnTask_open nTasks b task
    (((latch_frame _ b hb).2.2.2.2.2.2.1).trans h1)
  exact ⟨s1, (monitorStep_blocks prob settings nTasks since s s1 task hsd).2 ⟨a, b, ha, hb, hs1⟩⟩

/-- What one monitor step sends on `results`: the `PostIteration` of the latch or
nothing, then the task itself when it is sent back. -/
theorem monitorStep_results (prob : Problem) (settings : Settings) (nTasks : Int)
    (since : Nat → Int) (s s1 : Monitor) (task : Task) (hsd : task.Op ≠ signalDone)
    (h : monitorStep prob settings nTasks since s task = Except.ok s1) :
    ∃ l, (l = [] ∨ (l = [postTask] ∧ s.resultsClosed = 0)) ∧
      ((s.workersDone ≠ nTasks ∧ task.Op ≠ MethodDone ∧ s.resultsClosed = 0 ∧
          s1.results = s.results ++ l ++ [task]) ∨
        (¬ (s.workersDone ≠ nTasks ∧ task.Op ≠ MethodDone) ∧ s1.results = s.results ++ l)) := by
  obtain ⟨a, b, ha, hb, hr⟩ := (monitorStep_blocks prob settings nTasks since s s1 task hsd).1 h
  have fa := handleTask_frame prob settings since s a task ha
  have frec := recordTask_frame settings since a task
  have fl := latch_frame _ b hb
  have hres : (recordTask settings since a task).results = s.results :=
    frec.2.2.2.2.2.1.trans fa.2.2.2.1
  have hcl : (recordTask settings since a task).resultsClosed = s.resultsClosed :=
    frec.2.2.2.2.2.2.1.trans fa.2.2.2.2.1
  have hwd : b.workersDone = s.workersDone := by rw [fl.2.2.1, frec.2.1, fa.1]
  have hbc : b.resultsClosed = s.resultsClosed := by rw [fl.2.2.2.2.2.2.1, hcl]
  have hl : ∃ l, (l = [] ∨ (l = [postTask] ∧ s.resultsClosed = 0)) ∧
      b.results = s.results ++ l := by
    rcases latch_ok _ b hb with ⟨hbeq, -⟩ | ⟨-, -, hopen, hbeq⟩
    · exact ⟨[], Or.inl rfl, by rw [hbeq, hres]; simp⟩
    · exact ⟨[postTask], Or.inr ⟨rfl, hcl ▸ hopen⟩, by rw [hbeq, ← hres]⟩
  obtain ⟨l, hl1, hl2⟩ := hl
  refine ⟨l, hl1, ?_⟩
  rcases returnTask_ok nTasks b s1 task hr with ⟨hs1, hno⟩ | ⟨h1, h2, h3, hs1⟩
  · right
    rw [hwd] at hno
    exact ⟨hno, by rw [hs1, hl2]⟩
  · left
    rw [hwd] at h1
    rw [hbc] at h3
    exact ⟨h1, h2, h3, by rw [hs1]; simp [hl2]⟩

/-- C18: the return-to-method rule, in a run of the monitor loop from its entry
state with a positive count `nTasks` of workers.  A task whose operation is an
evaluation, `NoOperation` or `MajorIteration` is sent on `results` exactly once by
the step that processes it (after the `PostIteration` of the latch, when that step
latches) if fewer than `nTasks` workers have signalled, and is not sent otherwise; a
`MethodDone` task and a `signalDone` task are not sent.  And the step of an
evaluation, of a `NoOperation` and of a `MajorIteration` with a location does go
through while fewer than `nTasks` workers have signalled. -/
theorem return_to_method (prob : Problem) (settings : Settings) (nTasks : Int)
    (since : Nat → Int) (s0 : Monitor) (h0 : s0.fresh) (hn : 0 < nTasks)
    (pre : List Task) (s1 : Monitor)
    (hpre : monitorLoop prob settings nTasks since s0 pre = Except.ok s1) (t : Task) :
    (∀ s2, monitorStep prob settings nTasks since s1 t = Except.ok s2 →
      t.Op ≠ PostIteration ∧
      ((isEvaluation t.Op = true ∨ t.Op = NoOperation ∨ t.Op = MajorIteration) →
        (s1.workersDone < nTasks →
          ∃ l, (l = [] ∨ l = [postTask]) ∧ s2.results = s1.results ++ l ++ [t]) ∧
        (nTasks ≤ s1.workersDone → s2.results = s1.results)) ∧
      (t.Op = MethodDone →
        ∃ l, (l = [] ∨ l = [postTask]) ∧ s2.results = s1.results ++ l) ∧
      (t.Op = signalDone → s2.results = s1.results)) ∧
    (s1.workersDone < nTasks →
      (isEvaluation t.Op = true ∨ t.Op = NoOperation ∨
        (t.Op = MajorIteration ∧ t.Location ≠ none)) →
      ∃ s2, monitorStep prob settings nTasks since s1 t = Except.ok s2) := by
  have hinv0 : 0 < s0.resultsClosed ↔ nTasks ≤ s0.workersDone := by
    rw [h0.resultsClosed, h0.workersDone]
    constructor <;> intro hc <;> omega
  have hinv := monitorLoop_counted prob settings nTasks since pre s0 s1 hpre hinv0
  refine ⟨?_, ?_⟩
  · intro s2 hs
    refine ⟨(monitorStep_latch prob settings nTasks since s1 s2 t hs).1, ?_, ?_, ?_⟩
    · intro hop
      have hsd : t.Op ≠ signalDone := by
        rcases hop with h | h | h
        · exact (isEvaluation_tags t.Op h).1
        · rw [h]; decide
        · rw [h]; decide
      have hmd : t.Op ≠ MethodDone := by
        rcases hop with h | h | h
        · exact (isEvaluation_tags t.Op h).2.2.2.1
        · rw [h]; decide
        · rw [h]; decide
      obtain ⟨l, hl, hcase⟩ := monitorStep_results prob settings nTasks since s1 s2 t hsd hs
      refine ⟨fun hlt => ?_, fun hge => ?_⟩
      · have hl2 : l = [] ∨ l = [postTask] := hl.imp id (fun h => h.1)
        rcases hcase with ⟨-, -, -, hres⟩ | ⟨hno, -⟩
        · exact ⟨l, hl2, hres⟩
        · exact absurd ⟨by omega, hmd⟩ hno
      · have hclosed : 0 < s1.resultsClosed := hinv.2 hge
        have hl0 : l = [] := by
          rcases hl with h | ⟨-, h⟩
          · exact h
          · omega
        rcases hcase with ⟨-, -, hopen, -⟩ | ⟨-, hres⟩
        · omega
        · rw [hres, hl0]
          simp
    · intro hmd
      have hsd : t.Op ≠ signalDone := by rw [hmd]; decide
      obtain ⟨l, hl, hcase⟩ := monitorStep_results prob settings nTasks since s1 s2 t hsd hs
      have hl2 : l = [] ∨ l = [postTask] := hl.imp id (fun h => h.1)
      rcases hcase with ⟨-, hne, -, -⟩ | ⟨-, hres⟩
      · exact absurd hmd hne
      · exact ⟨l, hl2, hres⟩
    · intro hsd
      obtain ⟨rfl, -⟩ := monitorStep_signalDone prob settings nTasks since s1 s2 t hsd hs
      rfl
  · intro hlt hop
    have hopen : s1.resultsClosed = 0 := by
      by_contra hc
      have := hinv.1 (Nat.pos_of_ne_zero hc)
      omega
    rcases hop with h | h | ⟨h, hloc⟩
    · exact monitorStep_open prob settings nTasks since s1 _ t
        (handleTask_evaluation prob settings since s1 t h) hopen
    · exact monitorStep_open prob settings nTasks since s1 s1 t
        (by simp [handleTask, h]) hopen
    · cases hl : t.Location with
      | none => exact absurd hl hloc
      | some loc =>
        have h0 : t.Op ≠ NoOperation := by rw [h]; decide
        have ha : ∃ a, handleTask prob settings since s1 t = Except.ok a := by
          simp only [handleTask, if_neg h0, if_pos h, hl]
          exact ⟨_, rfl⟩
        obtain ⟨a, ha⟩ := ha
        exact monitorStep_open prob settings nTasks since s1 a t ha hopen

/-- Witness of C18: in the run `noopTask`, `evalTask` under a limit of one function
evaluation and with one worker, the evaluation is sent back once, after the
`PostIteration` that its own step sends. -/
theorem return_to_method_witness :
    ({} : Monitor).fresh ∧ (0 : Int) < 1 ∧ afterNoop.workersDone < 1 ∧
    afterEval.results = afterNoop.results ++ [postTask] ++ [evalTask] ∧
    ∃ l, (l = [] ∨ l = [postTask]) ∧ afterEval.results = afterNoop.results ++ l ++ [evalTask] :=
  ⟨fresh_default, by decide, by decide, rfl,
   (((return_to_method {} limitOne 1 (fun _ => 0) {} fresh_default (by decide) [noopTask]
      afterNoop rfl evalTask).1 afterEval rfl).2.1 (Or.inl (by decide))).1 (by decide)⟩

/-! ## What the Recorder is shown -/

/-- An operation of a recorded task is none of `InitIteration`, `PostIteration`,
`MethodDone`, `signalDone`. -/
theorem recordedOp_tags (op : Operation) (h : recordedOp op) :
    op ≠ InitIteration ∧ op ≠ PostIteration ∧ op ≠ MethodDone ∧ op ≠ signalDone := by
  rcases h with h | h | h
  · obtain ⟨t1, -, -, t4, t5, t6⟩ := isEvaluation_tags op h
    exact ⟨t6, t5, t4, t1⟩
  · rw [h]
    exact ⟨by decide, by decide, by decide, by decide⟩
  · rw [h]
    exact ⟨by decide, by decide, by decide, by decide⟩

/-- One monitor step makes at most one call of `Record`, on the task it processes,
and only for an evaluation, a `NoOperation` or a `MajorIteration`. -/
theorem monitorStep_records (prob : Problem) (settings : Settings) (nTasks : Int)
    (since : Nat → Int) (s s1 : Monitor) (task : Task)
    (h : monitorStep prob settings nTasks since s task = Except.ok s1) :
    s1.records = s.records ∨
    (recordedOp task.Op ∧ ∃ stats, s1.records = s.records ++ [⟨task.Location, task.Op, stats⟩]) := by
  by_cases hsd : task.Op = signalDone
  · obtain ⟨rfl, -⟩ := monitorStep_signalDone prob settings nTasks since s s1 task hsd h
    exact Or.inl rfl
  · obtain ⟨a, b, ha, hb, hr⟩ := (monitorStep_blocks prob settings nTasks since s s1 task hsd).1 h
    have fa := handleTask_frame prob settings since s a task ha
    have fl := latch_frame _ b hb
    have fr := returnTask_frame nTasks b s1 task hr
    have h1 : s1.records = (recordTask settings since a task).records := by
      rw [fr.2.2.2.2.2.2.2.2.2.2.2.1, fl.2.2.2.2.2.2.2.2.1]
    rw [h1]
    by_cases ht : a.terminated
    · left
      rw [recordTask_terminated settings since a task ht, fa.2.2.2.2.2.2.1]
    · cases hrec : settings.Recorder with
      | none =>
        left
        rw [recordTask_none settings since a task hrec, fa.2.2.2.2.2.2.1]
      | some r =>
        right
        rw [recordTask_some settings since a task r hrec ht]
        refine ⟨?_, { a.stats with Runtime := since a.ticks },
          by simp only [fa.2.2.2.2.2.2.1]⟩
        rcases handleTask_ok prob settings since s a task ha with
          ⟨h0, -⟩ | ⟨h0, -⟩ | ⟨h0, ha2⟩ | ⟨h0, -⟩
        · exact Or.inr (Or.inl h0)
        · exact Or.inr (Or.inr h0)
        · exfalso
          apply ht
          rw [ha2]
          exact Or.inl (by simp)
        · exact Or.inl h0

/-- The calls of `Record` made by the monitor loop: tasks only, whose operations are
evaluations, `NoOperation` or `MajorIteration`. -/
theorem monitorLoop_records (prob : Problem) (settings : Settings) (nTasks : Int)
    (since : Nat → Int) (tasks : List Task) (s0 sf : Monitor)
    (h : monitorLoop prob settings nTasks since s0 tasks = Except.ok sf) :
    ∃ mid : List RecordCall, sf.records = s0.records ++ mid ∧ ∀ c ∈ mid, recordedOp c.op := by
  induction tasks generalizing s0 with
  | nil =>
    rw [monitorLoop_nil] at h
    rw [← Except.ok.inj h]
    exact ⟨[], by simp, by simp⟩
  | cons t rest ih =>
    obtain ⟨s, hs, hrest⟩ := (monitorLoop_cons prob settings nTasks since s0 sf t rest).1 h
    obtain ⟨mid, i1, i2⟩ := ih s hrest
    rcases monitorStep_records prob settings nTasks since s0 s t hs with k | ⟨k1, stats, k2⟩
    · exact ⟨mid, by rw [i1, k], i2⟩
    · refine ⟨⟨t.Location, t.Op, stats⟩ :: mid, by rw [i1, k2]; simp, ?_⟩
      intro c hc
      rcases List.mem_cons.1 hc with rfl | hc
      · exact k1
      · exact i2 c hc

/-- C19: in a run of `Minimize` with a Recorder that returns a `Result` and a nil
error, the operations passed to `Record`, in the order of the calls, are one
`InitIteration`, then operations of tasks, each an evaluation, a `NoOperation` or a
`MajorIteration` (so none of `InitIteration`, `PostIteration`, `MethodDone`,
`signalDone`), then one `PostIteration`.  And no step of the monitor calls `Record`
on a task whose operation is `InitIteration`, `PostIteration`, `MethodDone` or
`signalDone`. -/
theorem recorder_sequence (d : Defaults) (since : Nat → Int) (arriving : List Task)
    (p : Problem) (initX : Slice) (settings : Option Settings) (method : Option Method)
    (rec : Recorder) (res : Result)
    (hrec : (chosenSettings d settings).Recorder = some rec)
    (hres : (Minimize d since arriving p initX settings method).result = some res)
    (herr : (Minimize d since arriving p initX settings method).err = none) :
    (∃ mid : List Operation,
      (Minimize d since arriving p initX settings method).records.map (fun c => c.op) =
        InitIteration :: mid ++ [PostIteration] ∧
      ∀ op ∈ mid, recordedOp op ∧ op ≠ InitIteration ∧ op ≠ PostIteration ∧
        op ≠ MethodDone ∧ op ≠ signalDone) ∧
    (∀ (nTasks : Int) (s s1 : Monitor) (task : Task),
      monitorStep p (chosenSettings d settings) nTasks since s task = Except.ok s1 →
      (task.Op = InitIteration ∨ task.Op = PostIteration ∨ task.Op = MethodDone ∨
        task.Op = signalDone) →
      s1.records = s.records) := by
  refine ⟨?_, ?_⟩
  · obtain ⟨c, initOp, initLoc, r, s, hc, hce, hi, hfirst, hm, -, herr2⟩ :=
      Minimize_result d since arriving p initX settings method res hres
    have hM := Minimize_started d since arriving p initX settings method c initOp initLoc
      hc hce hi hfirst
    rw [hm] at hM
    obtain ⟨-, -, hl, -⟩ := minimize_ok _ _ _ _ _ _ _ _ _ _ r s hm
    obtain ⟨mid, hmid, hops⟩ := monitorLoop_records _ _ _ _ arriving _ s hl
    rw [herr] at herr2
    have hr2 : r.2 = none := by
      by_contra hne
      simp only [recordPost, hrec, hne, if_false] at herr2
      exact hne herr2.symm
    have hrecords : (Minimize d since arriving p initX settings method).records =
        s.records ++ [⟨some s.optLoc, PostIteration, s.stats⟩] := by
      rw [hM]
      simp [recordPost, hrec, hr2]
    have hentry : s.records =
        ⟨some (initialOptimum initX.len (chosenMethod d p method)), InitIteration,
          { Runtime := since 0 }⟩ :: mid := by
      rw [hmid]
      simp [entry, recordInit, hrec]
    refine ⟨mid.map (fun c => c.op), ?_, ?_⟩
    · rw [hrecords, hentry]
      simp
    · intro op hop
      obtain ⟨c, hc1, rfl⟩ := List.mem_map.1 hop
      exact ⟨hops c hc1, recordedOp_tags c.op (hops c hc1)⟩
  · intro nTasks s s1 task hs hop
    rcases monitorStep_records p (chosenSettings d settings) nTasks since s s1 task hs with
      k | ⟨k1, -⟩
    · exact k
    · obtain ⟨t1, t2, t3, t4⟩ := recordedOp_tags task.Op k1
      rcases hop with h | h | h | h
      · exact absurd h t1
      · exact absurd h t2
      · exact absurd h t3
      · exact absurd h t4

/-- Witness of C19: the run `noopTask`, `evalTask`, `majorTask`, `doneTask` with a
Recorder that never fails, under a limit of one function evaluation: `Record` sees
`InitIteration`, the `NoOperation`, the `MajorIteration` and `PostIteration`; the
evaluation, which reaches the limit, is not recorded. -/
theorem recorder_sequence_witness :
    (chosenSettings {} (some recordedLimit)).Recorder = some {} ∧
    (Minimize {} (fun _ => 0) [noopTask, evalTask, majorTask, doneTask] flat
      (some [F64.fin 10]) (some recordedLimit) (some {})).err = none ∧
    (Minimize {} (fun _ => 0) [noopTask, evalTask, majorTask, doneTask] flat
      (some [F64.fin 10]) (some recordedLimit) (some {})).records.map (fun c => c.op) =
      [InitIteration, NoOperation, MajorIteration, PostIteration] ∧
    ∃ mid : List Operation,
      (Minimize {} (fun _ => 0) [noopTask, evalTask, majorTask, doneTask] flat
        (some [F64.fin 10]) (some recordedLimit) (some {})).records.map (fun c => c.op) =
        InitIteration :: mid ++ [PostIteration] :=
  ⟨rfl, rfl, by decide,
   ((recorder_sequence {} (fun _ => 0) [noopTask, evalTask, majorTask, doneTask] flat
      (some [F64.fin 10]) (some recordedLimit) (some {}) {}
      { Location := { X := some [F64.fin 1] }
        Stats := { MajorIterations := 1, FuncEvaluations := 1 }
        Status := Status.FunctionEvaluationLimit } rfl rfl rfl).1).imp fun _ h => h.1⟩

/-! ## The evaluation of the problem -/

/-- A scratch vector as long as the source holds, after `copy`, the elements of the
source. -/
theorem copy_len_elems (x src : Slice) (h : x.len = src.len) :
    (Slice.copy x src).elems = src.elems := by
  cases x with
  | none =>
    have h0 : src.elems.length = 0 := by
      simpa [Slice.len, Slice.elems] using h.symm
    rw [List.length_eq_zero.1 h0]
    rfl
  | some d =>
    have hd : d.length = src.elems.length := by
      simpa [Slice.len, Slice.elems] using h
    simp [Slice.copy, Slice.elems, Slice.len, hd]

/-- The function `copy` keeps the length of its destination. -/
theorem copy_len (x src : Slice) : (Slice.copy x src).len = x.len := by
  cases x with
  | none => rfl
  | some d =>
    simp only [Slice.copy, Slice.len, Slice.elems, List.length_append, List.length_take,
      List.length_drop]
    omega

/-- The three statements of `evaluate` on a state that has not panicked, by the bits
of the operation and the callbacks of the problem. -/
theorem evaluateFunc_cases (p : Problem) (op : Operation) (r : Evaluated)
    (h : r.panicked = none) :
    (op &&& FuncEvaluation = 0 → evaluateFunc p op r = r) ∧
    (op &&& FuncEvaluation ≠ 0 → ∀ f, p.Func = some f →
      evaluateFunc p op r =
        { r with loc := { r.loc with F := f r.x.elems }
                 calls := r.calls ++ [Callback.Func r.x.elems] }) := by
  refine ⟨?_, ?_⟩
  · intro hb
    simp [evaluateFunc, h, hb]
  · intro hb f hf
    simp [evaluateFunc, h, hb, hf]

/-- The gradient statement of `evaluate` on a state that has not panicked. -/
theorem evaluateGrad_cases (p : Problem) (op : Operation) (r : Evaluated)
    (h : r.panicked = none) :
    (op &&& GradEvaluation = 0 → evaluateGrad p op r = r) ∧
    (op &&& GradEvaluation ≠ 0 → ∀ g, p.Grad = some g →
      evaluateGrad p op r =
        { r with loc := { r.loc with Gradient := r.loc.Gradient.map fun d => g d r.x.elems }
                 calls := r.calls ++ [Callback.Grad r.loc.Gradient r.x.elems] }) := by
  refine ⟨?_, ?_⟩
  · intro hb
    simp [evaluateGrad, h, hb]
  · intro hb g hg
    simp [evaluateGrad, h, hb, hg]

/-- The Hessian statement of `evaluate` on a state that has not panicked. -/
theorem evaluateHess_cases (p : Problem) (op : Operation) (r : Evaluated)
    (h : r.panicked = none) :
    (op &&& HessEvaluation = 0 → evaluateHess p op r = r) ∧
    (op &&& HessEvaluation ≠ 0 → ∀ hs, p.Hess = some hs →
      evaluateHess p op r =
        { r with loc := { r.loc with Hessian := r.loc.Hessian.map fun d => hs d r.x.elems }
                 calls := r.calls ++ [Callback.Hess r.loc.Hessian r.x.elems] }) := by
  refine ⟨?_, ?_⟩
  · intro hb
    simp [evaluateHess, h, hb]
  · intro hb hs hh
    simp [evaluateHess, h, hb, hh]

/-- C21: `evaluate` on an operation that is not an evaluation panics without calling
a callback, leaving the location and `x` as they are.  On an evaluation operation,
with a scratch vector `x` as long as `loc.X` and the callbacks that the operation
asks for set, it does not panic and leaves `loc.X` unchanged; `loc.F` becomes
`problem.Func` of the elements of `loc.X` (read from the copy `x`) when the operation
includes `FuncEvaluation` and is unchanged otherwise; `loc.Gradient` and
`loc.Hessian` are handed to `problem.Grad` and `problem.Hess` exactly when the
operation includes `GradEvaluation` and `HessEvaluation`; the calls made are those of
the bits of the operation, in the order `Func`, `Grad`, `Hess`, each at the elements
of `loc.X`. -/
theorem evaluate_effect (p : Problem) (loc : Location) (op : Operation) (x : Slice) :
    (isEvaluation op = false →
      (evaluate p loc op x).panicked = some "optimize: invalid evaluation" ∧
      (evaluate p loc op x).calls = [] ∧
      (evaluate p loc op x).loc = loc ∧
      (evaluate p loc op x).x = x) ∧
    (isEvaluation op = true → x.len = loc.X.len →
      (op &&& FuncEvaluation ≠ 0 → p.Func.isSome = true) →
      (op &&& GradEvaluation ≠ 0 → p.Grad.isSome = true) →
      (op &&& HessEvaluation ≠ 0 → p.Hess.isSome = true) →
      (evaluate p loc op x).panicked = none ∧
      (evaluate p loc op x).loc.X = loc.X ∧
      (op &&& FuncEvaluation = 0 → (evaluate p loc op x).loc.F = loc.F) ∧
      (op &&& FuncEvaluation ≠ 0 → ∀ f, p.Func = some f →
        (evaluate p loc op x).loc.F = f loc.X.elems) ∧
      (op &&& GradEvaluation = 0 → (evaluate p loc op x).loc.Gradient = loc.Gradient) ∧
      (op &&& GradEvaluation ≠ 0 → ∀ g, p.Grad = some g →
        (evaluate p loc op x).loc.Gradient = loc.Gradient.map fun d => g d loc.X.elems) ∧
      (op &&& HessEvaluation = 0 → (evaluate p loc op x).loc.Hessian = loc.Hessian) ∧
      (op &&& HessEvaluation ≠ 0 → ∀ hs, p.Hess = some hs →
        (evaluate p loc op x).loc.Hessian = loc.Hessian.map fun d => hs d loc.X.elems) ∧
      (evaluate p loc op x).calls.map Callback.bit =
        [FuncEvaluation, GradEvaluation, HessEvaluation].filter
          (fun b => decide (op &&& b ≠ 0)) ∧
      (∀ c ∈ (evaluate p loc op x).calls, c.point = loc.X.elems) ∧
      (evaluate p loc op x).x.elems = loc.X.elems) := by
  refine ⟨?_, ?_⟩
  · intro h
    simp [evaluate, h]
  · intro h hx hF hG hH
    have hc : (Slice.copy x loc.X).elems = loc.X.elems := copy_len_elems x loc.X hx
    have he : evaluate p loc op x =
        evaluateHess p op (evaluateGrad p op (evaluateFunc p op
          { loc := loc, x := Slice.copy x loc.X })) := by
      simp [evaluate, h]
    rw [he]
    have r0 : ({ loc := loc, x := Slice.copy x loc.X } : Evaluated).panicked = none := rfl
    by_cases bF : op &&& FuncEvaluation = 0 <;>
    by_cases bG : op &&& GradEvaluation = 0 <;>
    by_cases bH : op &&& HessEvaluation = 0
    all_goals first
      | rw [(evaluateFunc_cases p op _ r0).1 bF]
      | (obtain ⟨f, hf⟩ := Option.isSome_iff_exists.1 (hF bF)
         rw [(evaluateFunc_cases p op _ r0).2 bF f hf])
    all_goals first
      | rw [(evaluateGrad_cases p op _ rfl).1 bG]
      | (obtain ⟨g, hg⟩ := Option.isSome_iff_exists.1 (hG bG)
         rw [(evaluateGrad_cases p op _ rfl).2 bG g hg])
    all_goals first
      | rw [(evaluateHess_cases p op _ rfl).1 bH]
      | (obtain ⟨hs, hh⟩ := Option.isSome_iff_exists.1 (hH bH)
         rw [(evaluateHess_cases p op _ rfl).2 bH hs hh])
    all_goals simp [hc, bF, bG, bH, Callback.bit, Callback.point, *]

/-- Witness of C21: a function and gradient evaluation at `[3, 4]` sets `F` to the
first coordinate, calls `Func` then `Grad` and not `Hess`, and leaves `X` as it is;
an operation that is not an evaluation calls nothing. -/
theorem evaluate_effect_witness :
    isEvaluation (FuncEvaluation ||| GradEvaluation) = true ∧
    (Slice.make 2).len = roomyLoc.X.len ∧
    (evaluate firstCoordinate roomyLoc (FuncEvaluation ||| GradEvaluation)
      (Slice.make 2)).loc.F = F64.fin 3 ∧
    (evaluate firstCoordinate roomyLoc (FuncEvaluation ||| GradEvaluation)
      (Slice.make 2)).calls.map Callback.bit = [FuncEvaluation, GradEvaluation] ∧
    (evaluate firstCoordinate roomyLoc (FuncEvaluation ||| GradEvaluation)
      (Slice.make 2)).loc.X = roomyLoc.X ∧
    (evaluate firstCoordinate roomyLoc MajorIteration (Slice.make 2)).calls = [] :=
  ⟨by decide, by decide,
    ((evaluate_effect firstCoordinate roomyLoc (FuncEvaluation ||| GradEvaluation)
      (Slice.make 2)).2 (by decide) (by decide) (fun _ => rfl) (fun _ => rfl)
      (fun _ => rfl)).2.2.2.1 (by decide) (fun x => x.headD F64.zero) rfl,
    ((evaluate_effect firstCoordinate roomyLoc (FuncEvaluation ||| GradEvaluation)
      (Slice.make 2)).2 (by decide) (by decide) (fun _ => rfl) (fun _ => rfl)
      (fun _ => rfl)).2.2.2.2.2.2.2.2.1,
    ((evaluate_effect firstCoordinate roomyLoc (FuncEvaluation ||| GradEvaluation)
      (Slice.make 2)).2 (by decide) (by decide) (fun _ => rfl) (fun _ => rfl)
      (fun _ => rfl)).2.1,
    ((evaluate_effect firstCoordinate roomyLoc MajorIteration (Slice.make 2)).1
      (by decide)).2.1⟩

/-! ## The workers -/

/-- The statements of `evaluate` leave the scratch vector as it is. -/
theorem evaluate_stages_x (p : Problem) (op : Operation) (r : Evaluated) :
    (evaluateFunc p op r).x = r.x ∧ (evaluateGrad p op r).x = r.x ∧
    (evaluateHess p op r).x = r.x := by
  refine ⟨?_, ?_, ?_⟩
  · unfold evaluateFunc
    split_ifs
    · rfl
    · cases p.Func <;> rfl
    · rfl
  · unfold evaluateGrad
    split_ifs
    · rfl
    · cases p.Grad <;> rfl
    · rfl
  · unfold evaluateHess
    split_ifs
    · rfl
    · cases p.Hess <;> rfl
    · rfl

/-- The function `evaluate` keeps the length of the scratch vector. -/
theorem evaluate_x_len (p : Problem) (loc : Location) (op : Operation) (x : Slice) :
    (evaluate p loc op x).x.len = x.len := by
  unfold evaluate
  split_ifs
  · rfl
  · simp only [(evaluate_stages_x p op _).2.2, (evaluate_stages_x p op _).2.1,
      (evaluate_stages_x p op _).1]
    exact copy_len x loc.X

/-- A call of `evaluate` that does not panic is on an evaluation operation. -/
theorem evaluate_ok_evaluation (p : Problem) (loc : Location) (op : Operation) (x : Slice)
    (h : (evaluate p loc op x).panicked = none) : isEvaluation op = true := by
  by_contra hc
  have hf : isEvaluation op = false := by simpa using hc
  simp [evaluate, hf] at h

/-- A call of `evaluate` on an evaluation operation that asks only for callbacks that
the problem has does not panic. -/
theorem evaluate_run (p : Problem) (loc : Location) (op : Operation) (x : Slice)
    (h : isEvaluation op = true)
    (hF : op &&& FuncEvaluation ≠ 0 → p.Func.isSome = true)
    (hG : op &&& GradEvaluation ≠ 0 → p.Grad.isSome = true)
    (hH : op &&& HessEvaluation ≠ 0 → p.Hess.isSome = true) :
    (evaluate p loc op x).panicked = none := by
  have he : evaluate p loc op x =
      evaluateHess p op (evaluateGrad p op (evaluateFunc p op
        { loc := loc, x := Slice.copy x loc.X })) := by
    simp [evaluate, h]
  rw [he]
  have r0 : ({ loc := loc, x := Slice.copy x loc.X } : Evaluated).panicked = none := rfl
  by_cases bF : op &&& FuncEvaluation = 0 <;>
  by_cases bG : op &&& GradEvaluation = 0 <;>
  by_cases bH : op &&& HessEvaluation = 0
  all_goals first
    | rw [(evaluateFunc_cases p op _ r0).1 bF]
    | (obtain ⟨f, hf⟩ := Option.isSome_iff_exists.1 (hF bF)
       rw [(evaluateFunc_cases p op _ r0).2 bF f hf])
  all_goals first
    | rw [(evaluateGrad_cases p op _ rfl).1 bG]
    | (obtain ⟨g, hg⟩ := Option.isSome_iff_exists.1 (hG bG)
       rw [(evaluateGrad_cases p op _ rfl).2 bG g hg])
  all_goals first
    | rw [(evaluateHess_cases p op _ rfl).1 bH]
    | (obtain ⟨hs, hh⟩ := Option.isSome_iff_exists.1 (hH bH)
       rw [(evaluateHess_cases p op _ rfl).2 bH hs hh])

/-- The loop of a worker: what it has sent are the tasks of a prefix of what it has
received, each evaluated, in order; the prefix is everything when it has not
panicked. -/
theorem workerLoop_spec (prob : Problem) (dim : Nat) (received : List Task) :
    ∀ x : Slice, x.len = dim →
      ∃ served, served <+: received ∧
        List.Forall₂ (evaluatedBy prob dim) served (workerLoop prob x received).statsChan ∧
        ((workerLoop prob x received).panicked = none → served = received) := by
  induction received with
  | nil =>
    intro x _
    exact ⟨[], List.prefix_refl _, List.Forall₂.nil, fun _ => rfl⟩
  | cons task rest ih =>
    intro x hx
    cases hl : task.Location with
    | none =>
      refine ⟨[], List.nil_prefix, ?_, ?_⟩
      · have : (workerLoop prob x (task :: rest)).statsChan = [] := by
          simp only [workerLoop, hl]
          split_ifs <;> rfl
        rw [this]
        exact List.Forall₂.nil
      · intro hp
        exfalso
        simp only [workerLoop, hl] at hp
        split_ifs at hp
    | some loc =>
      cases hr : (evaluate prob loc task.Op x).panicked with
      | some msg =>
        have hw : workerLoop prob x (task :: rest) = { panicked := some msg } := by
          simp only [workerLoop, hl, hr]
        rw [hw]
        exact ⟨[], List.nil_prefix, List.Forall₂.nil, fun hp => by simp at hp⟩
      | none =>
        have hw : workerLoop prob x (task :: rest) =
            { workerLoop prob (evaluate prob loc task.Op x).x rest with
              statsChan := { task with Location := some (evaluate prob loc task.Op x).loc } ::
                (workerLoop prob (evaluate prob loc task.Op x).x rest).statsChan } := by
          simp only [workerLoop, hl, hr]
        obtain ⟨served, hpre, hall, hfull⟩ :=
          ih (evaluate prob loc task.Op x).x ((evaluate_x_len prob loc task.Op x).trans hx)
        rw [hw]
        refine ⟨task :: served, ?_, ?_, ?_⟩
        · exact (List.prefix_cons_inj task).2 hpre
        · exact List.Forall₂.cons ⟨loc, x, hl, hx, hr, rfl⟩ hall
        · intro hp
          rw [hfull hp]

/-- Tasks evaluated by a worker keep their operations and identifiers, and none of
them is a `signalDone` task. -/
theorem evaluatedBy_tags (prob : Problem) (dim : Nat) (served sent : List Task)
    (h : List.Forall₂ (evaluatedBy prob dim) served sent) :
    sent.map Task.Op = served.map Task.Op ∧ sent.map Task.ID = served.map Task.ID ∧
    ∀ u ∈ sent, isEvaluation u.Op = true ∧ u.Op ≠ signalDone := by
  induction h with
  | nil => exact ⟨rfl, rfl, fun u hu => by simp at hu⟩
  | cons hab _ ih =>
    obtain ⟨loc, x, _, _, hp, hs⟩ := hab
    obtain ⟨i1, i2, i3⟩ := ih
    have hev := evaluate_ok_evaluation prob loc _ x hp
    refine ⟨?_, ?_, ?_⟩
    · simp only [List.map_cons, i1, hs]
    · simp only [List.map_cons, i2, hs]
    · intro u hu
      rcases List.mem_cons.1 hu with h1 | h1
      · rw [h1, hs]
        exact ⟨hev, (isEvaluation_tags _ hev).1⟩
      · exact i3 u h1

/-- The loop of a worker does not panic on tasks that it can evaluate. -/
theorem workerLoop_run (prob : Problem) (received : List Task)
    (h : ∀ t ∈ received, evaluable prob t) :
    ∀ x : Slice, (workerLoop prob x received).panicked = none := by
  induction received with
  | nil =>
    intro x
    rfl
  | cons task rest ih =>
    intro x
    obtain ⟨hev, hloc, hF, hG, hH⟩ := h task (List.mem_cons_self _ _)
    obtain ⟨loc, hl⟩ := Option.ne_none_iff_exists'.1 hloc
    have hr := evaluate_run prob loc task.Op x hev hF hG hH
    have hw : (workerLoop prob x (task :: rest)).panicked =
        (workerLoop prob (evaluate prob loc task.Op x).x rest).panicked := by
      simp only [workerLoop, hl, hr]
    rw [hw]
    exact ih (fun t ht => h t (List.mem_cons_of_mem _ ht)) _

/-- C22: a worker that does not panic sends on `statsChan` exactly the tasks it has
received, each after being evaluated (same identifier and operation, the location as
`evaluate` leaves it), in the order received, followed by one task with `Op`
`signalDone`; none of the forwarded tasks is a `signalDone` task, so the `signalDone`
of a worker comes once, after every task it has forwarded.  A worker does not panic
on tasks that are evaluations with a location and ask only for callbacks that the
problem has.  A worker that panics has sent the evaluated tasks of a prefix of what
it has received, and no `signalDone`. -/
theorem worker_forwards (prob : Problem) (dim : Nat) (received : List Task) :
    ((worker prob dim received).panicked = none →
      ∃ forwarded, (worker prob dim received).statsChan = forwarded ++ [{ Op := signalDone }] ∧
        List.Forall₂ (evaluatedBy prob dim) received forwarded ∧
        forwarded.map Task.Op = received.map Task.Op ∧
        forwarded.map Task.ID = received.map Task.ID ∧
        ∀ u ∈ forwarded, isEvaluation u.Op = true ∧ u.Op ≠ signalDone) ∧
    ((∀ t ∈ received, evaluable prob t) → (worker prob dim received).panicked = none) ∧
    ((worker prob dim received).panicked ≠ none →
      ∃ served, served <+: received ∧
        List.Forall₂ (evaluatedBy prob dim) served (worker prob dim received).statsChan ∧
        ∀ u ∈ (worker prob dim received).statsChan, u.Op ≠ signalDone) := by
  have hx : (Slice.make dim).len = dim := by
    simp [Slice.make, Slice.len, Slice.elems]
  obtain ⟨served, hpre, hall, hfull⟩ := workerLoop_spec prob dim received (Slice.make dim) hx
  refine ⟨?_, ?_, ?_⟩
  · intro hp
    have hw : (workerLoop prob (Slice.make dim) received).panicked = none := by
      by_contra hc
      simp only [worker, if_pos hc] at hp
      exact hc hp
    have hs : (worker prob dim received).statsChan =
        (workerLoop prob (Slice.make dim) received).statsChan ++ [{ Op := signalDone }] := by
      simp [worker, hw]
    rw [hfull hw] at hall
    obtain ⟨t1, t2, t3⟩ := evaluatedBy_tags prob dim _ _ hall
    exact ⟨_, hs, hall, t1, t2, t3⟩
  · intro h
    have hw := workerLoop_run prob received h (Slice.make dim)
    simp [worker, hw]
  · intro hp
    have hw : (workerLoop prob (Slice.make dim) received).panicked ≠ none := by
      intro hc
      apply hp
      simp [worker, hc]
    have hs : worker prob dim received = workerLoop prob (Slice.make dim) received := by
      simp only [worker, if_pos hw]
    rw [hs]
    exact ⟨served, hpre, hall, fun u hu => ((evaluatedBy_tags prob dim _ _ hall).2.2 u hu).2⟩

/-- Witness of C22: a worker with two evaluation tasks sends them on, in order, and
then its one `signalDone`. -/
theorem worker_forwards_witness :
    (∀ t ∈ workload, evaluable firstCoordinate t) ∧
    (worker firstCoordinate 2 workload).panicked = none ∧
    ∃ forwarded,
      (worker firstCoordinate 2 workload).statsChan = forwarded ++ [{ Op := signalDone }] ∧
      forwarded.map Task.Op = [FuncEvaluation, FuncEvaluation ||| GradEvaluation] ∧
      forwarded.map Task.ID = [1, 2] :=
  have hev : ∀ t ∈ workload, evaluable firstCoordinate t := by
    intro t ht
    simp only [workload, List.mem_cons, List.mem_singleton, List.not_mem_nil, or_false] at ht
    rcases ht with rfl | rfl <;>
    exact ⟨by decide, by simp, fun _ => rfl, fun _ => rfl, fun _ => rfl⟩
  ⟨hev, (worker_forwards firstCoordinate 2 workload).2.1 hev,
    Exists.elim ((worker_forwards firstCoordinate 2 workload).1
      ((worker_forwards firstCoordinate 2 workload).2.1 hev))
      fun forwarded h => ⟨forwarded, h.1, h.2.2.1, h.2.2.2.1⟩⟩

/-! ## The safety of the channel `results` -/

/-- The number of `signalDone` tasks of a sequence in two parts. -/
theorem signals_append (l r : List Task) : signals (l ++ r) = signals l + signals r := by
  simp [signals, List.countP_append]

/-- The number of `signalDone` tasks of a sequence with a first task. -/
theorem signals_cons (t : Task) (l : List Task) :
    signals (t :: l) = (if t.Op = signalDone then 1 else 0) + signals l := by
  by_cases h : t.Op = signalDone
  · simp [signals, List.countP_cons, h]
    omega
  · simp [signals, List.countP_cons, h]

/-- A fresh state of the monitor is safe, when there is at least one worker. -/
theorem fresh_safe (nTasks : Int) (s0 : Monitor) (h0 : s0.fresh) (hn : 0 < nTasks) :
    s0.safe nTasks := by
  refine ⟨?_, ?_, ?_, ?_, ?_⟩
  · rw [h0.resultsClosed]
    omega
  · rw [h0.resultsClosed, h0.workersDone]
    constructor
    · intro h
      omega
    · intro h
      omega
  · intro h
    exact absurd h ((terminated_iff s0).2 ⟨h0.status, h0.err⟩)
  · rw [h0.results, h0.doneClosed]
    rfl
  · rw [h0.doneClosed]
    omega

/-- A step of the monitor on a task that is not `signalDone` leaves `workersDone`
and the state of `results`, closed or not, as they are. -/
theorem monitorStep_task_frame (prob : Problem) (settings : Settings) (nTasks : Int)
    (since : Nat → Int) (s s1 : Monitor) (task : Task) (hsd : task.Op ≠ signalDone)
    (h : monitorStep prob settings nTasks since s task = Except.ok s1) :
    s1.workersDone = s.workersDone ∧ s1.resultsClosed = s.resultsClosed := by
  obtain ⟨a, b, ha, hb, hr⟩ := (monitorStep_blocks prob settings nTasks since s s1 task hsd).1 h
  have f1 := handleTask_frame prob settings since s a task ha
  have f2 := recordTask_frame settings since a task
  have f3 := latch_frame _ b hb
  have f4 := returnTask_frame nTasks b s1 task hr
  refine ⟨?_, ?_⟩
  · rw [f4.2.2.1, f3.2.2.1, f2.2.1, f1.1]
  · rw [f4.2.2.2.2.2.2.2.2.1, f3.2.2.2.2.2.2.1, f2.2.2.2.2.2.2.1, f1.2.2.2.2.1]

/-- A step of the monitor keeps the state safe, and counts the `signalDone` tasks. -/
theorem monitorStep_safe (prob : Problem) (settings : Settings) (nTasks : Int)
    (since : Nat → Int) (s s1 : Monitor) (task : Task)
    (h : monitorStep prob settings nTasks since s task = Except.ok s1)
    (hs : s.safe nTasks) :
    s1.safe nTasks ∧
    s1.workersDone = s.workersDone + (if task.Op = signalDone then 1 else 0) := by
  obtain ⟨i1, i2, i3, i4, i5⟩ := hs
  have hc := monitorStep_counted prob settings nTasks since s s1 task h i2
  obtain ⟨l1, l2, l3, l4⟩ := monitorStep_latch prob settings nTasks since s s1 task h
  by_cases hsd : task.Op = signalDone
  · obtain ⟨e, hopen⟩ := monitorStep_signalDone prob settings nTasks since s s1 task hsd h
    have hcond : ¬ (s.doneClosed = 0 ∧ task.Op ≠ signalDone ∧ s1.terminated) :=
      fun hx => hx.2.1 hsd
    obtain ⟨d1, _, _, _⟩ := l3 hcond
    have hst := l4 hsd
    have hres : s1.results = s.results := by rw [e]
    refine ⟨⟨?_, hc, ?_, ?_, ?_⟩, ?_⟩
    · rw [e]
      simp only
      split_ifs
      · omega
      · exact i1
    · intro ht
      rw [d1]
      apply i3
      unfold Monitor.terminated at ht ⊢
      rw [hst.1, hst.2] at ht
      exact ht
    · rw [hres, d1]
      exact i4
    · rw [d1]
      exact i5
    · rw [e, if_pos hsd]
  · obtain ⟨w, c⟩ := monitorStep_task_frame prob settings nTasks since s s1 task hsd h
    refine ⟨⟨?_, hc, ?_, ?_, ?_⟩, ?_⟩
    · rw [c]
      exact i1
    · intro ht
      by_cases hd : s.doneClosed = 0
      · rw [(l2 ⟨hd, hsd, ht⟩).1]
        omega
      · rw [(l3 (fun hx => hd hx.1)).1]
        omega
    · by_cases hcond : s.doneClosed = 0 ∧ task.Op ≠ signalDone ∧ s1.terminated
      · obtain ⟨d1, _, _, hres⟩ := l2 hcond
        have hp : posts s.results = 0 := by rw [i4, hcond.1]
        rw [d1]
        rcases hres with hres | hres
        · rw [hres, posts_append, hp, posts_postTask]
        · have : s.results ++ [postTask, task] = s.results ++ [postTask] ++ [task] := by simp
          rw [hres, this, posts_append, posts_append, hp, posts_postTask, posts_single task l1]
      · obtain ⟨d1, _, _, hres⟩ := l3 hcond
        rw [d1]
        rcases hres with hres | hres
        · rw [hres]
          exact i4
        · rw [hres, posts_append, posts_single task l1]
          exact i4
    · by_cases hcond : s.doneClosed = 0 ∧ task.Op ≠ signalDone ∧ s1.terminated
      · rw [(l2 hcond).1]
      · rw [(l3 hcond).1]
        exact i5
    · rw [w, if_neg hsd]
      simp

/-- The monitor loop keeps the state safe, and counts the `signalDone` tasks. -/
theorem monitorLoop_safe (prob : Problem) (settings : Settings) (nTasks : Int)
    (since : Nat → Int) (tasks : List Task) :
    ∀ s sf : Monitor, monitorLoop prob settings nTasks since s tasks = Except.ok sf →
      s.safe nTasks → sf.safe nTasks ∧ sf.workersDone = s.workersDone + signals tasks := by
  induction tasks with
  | nil =>
    intro s sf h hs
    rw [monitorLoop_nil] at h
    cases h
    exact ⟨hs, by simp [signals]⟩
  | cons task rest ih =>
    intro s sf h hs
    obtain ⟨s1, h1, h2⟩ := (monitorLoop_cons prob settings nTasks since s sf task rest).1 h
    obtain ⟨j1, j2⟩ := monitorStep_safe prob settings nTasks since s s1 task h1 hs
    obtain ⟨k1, k2⟩ := ih s1 sf h2 j1
    refine ⟨k1, ?_⟩
    rw [k2, j2, signals_cons]
    split_ifs <;> push_cast <;> ring

/-- A `signalDone` task never makes the monitor panic in a safe state: `results` is
still open when `workersDone` reaches `nTasks`. -/
theorem monitorStep_signal_progress (prob : Problem) (settings : Settings) (nTasks : Int)
    (since : Nat → Int) (s : Monitor) (task : Task) (h : task.Op = signalDone)
    (hs : s.safe nTasks) :
    ∃ s1, monitorStep prob settings nTasks since s task = Except.ok s1 := by
  by_cases hw : s.workersDone + 1 = nTasks
  · have hopen : ¬ 0 < s.resultsClosed := by
      intro hc
      have := hs.2.1.1 hc
      omega
    refine ⟨{ s with workersDone := s.workersDone + 1
                     resultsClosed := s.resultsClosed + 1 }, ?_⟩
    simp [monitorStep, h, hw, closeResults, hopen]
  · refine ⟨{ s with workersDone := s.workersDone + 1 }, ?_⟩
    simp [monitorStep, h, hw]

/-- Once `results` is closed, `done` is closed and `workersDone` is `nTasks`, a task
that the switch of the monitor accepts makes no send: the step does not panic. -/
theorem monitorStep_closed_progress (prob : Problem) (settings : Settings) (nTasks : Int)
    (since : Nat → Int) (s a : Monitor) (task : Task) (hsd : task.Op ≠ signalDone)
    (ha : handleTask prob settings since s task = Except.ok a)
    (hd : 0 < s.doneClosed) (hw : s.workersDone = nTasks) :
    ∃ s1, monitorStep prob settings nTasks since s task = Except.ok s1 := by
  have f1 := handleTask_frame prob settings since s a task ha
  have f2 := recordTask_frame settings since a task
  have hd2 : 0 < (recordTask settings since a task).doneClosed := by
    rw [f2.2.2.2.2.2.2.2.1, f1.2.2.2.2.2.1]
    exact hd
  have hw2 : (recordTask settings since a task).workersDone = nTasks := by
    rw [f2.2.1, f1.1]
    exact hw
  refine ⟨recordTask settings since a task,
    (monitorStep_blocks prob settings nTasks since s _ task hsd).2
      ⟨a, recordTask settings since a task, ha, latch_again _ hd2, ?_⟩⟩
  unfold returnTask
  rw [if_neg (fun hx => hx.1 hw2)]

/-- A step of the monitor that does not panic when `results` is closed has sent
nothing on `results`. -/
theorem monitorStep_closed_results (prob : Problem) (settings : Settings) (nTasks : Int)
    (since : Nat → Int) (s s1 : Monitor) (task : Task)
    (h : monitorStep prob settings nTasks since s task = Except.ok s1)
    (hc : 0 < s.resultsClosed) : s1.results = s.results := by
  by_cases hsd : task.Op = signalDone
  · rw [(monitorStep_signalDone prob settings nTasks since s s1 task hsd h).1]
  · obtain ⟨l, hl, hr⟩ := monitorStep_results prob settings nTasks since s s1 task hsd h
    have hl0 : l = [] := by
      rcases hl with hl | ⟨_, ho⟩
      · exact hl
      · omega
    rcases hr with ⟨_, _, ho, _⟩ | ⟨_, hr⟩
    · omega
    · rw [hr, hl0, List.append_nil]

/-- The monitor loop is a function of its input: two runs on the same tasks end in
the same state. -/
theorem monitorLoop_split (prob : Problem) (settings : Settings) (nTasks : Int)
    (since : Nat → Int) (s0 sq sp : Monitor) (q p : List Task) (hqp : q <+: p)
    (hq : monitorLoop prob settings nTasks since s0 q = Except.ok sq)
    (hp : monitorLoop prob settings nTasks since s0 p = Except.ok sp) :
    ∃ r, p = q ++ r ∧ monitorLoop prob settings nTasks since sq r = Except.ok sp := by
  obtain ⟨r, hr⟩ := hqp
  refine ⟨r, hr.symm, ?_⟩
  rw [← hr] at hp
  obtain ⟨s1, h1, h2⟩ := (monitorLoop_append prob settings nTasks since q r s0 sp).1 hp
  rw [hq] at h1
  cases h1
  exact h2

/-- C23: take a run of the monitor loop from a fresh state with at least one worker,
on tasks that hold at most `nTasks` `signalDone` tasks, all of them after the first
terminating task (a prefix without `signalDone` ends in a terminated state, when
there is a `signalDone` at all).  In the state after every prefix `p` of the tasks,
`results` has been closed at most once, and it is closed when and only when `p` holds
`nTasks` `signalDone` tasks; when it is closed, `done` is closed and the one
`PostIteration` task of the latch is already on `results`.  The next task never
makes the monitor send on, or close, the closed channel: the step does not panic
when the task is `signalDone` or is accepted by the switch, and it sends nothing on
`results` once `results` is closed. -/
theorem results_safety (prob : Problem) (settings : Settings) (nTasks : Int)
    (since : Nat → Int) (s0 : Monitor) (h0 : s0.fresh) (hn : 0 < nTasks) (tasks : List Task)
    (hcount : (signals tasks : Int) ≤ nTasks)
    (hafter : signals tasks = 0 ∨
      ∃ q sq, q <+: tasks ∧ signals q = 0 ∧
        monitorLoop prob settings nTasks since s0 q = Except.ok sq ∧ sq.terminated) :
    ∀ p sp, p <+: tasks → monitorLoop prob settings nTasks since s0 p = Except.ok sp →
      sp.resultsClosed ≤ 1 ∧
      (0 < sp.resultsClosed ↔ (signals p : Int) = nTasks) ∧
      (0 < sp.resultsClosed → sp.doneClosed = 1 ∧ posts sp.results = 1) ∧
      (∀ t rest, tasks = p ++ t :: rest →
        (t.Op = signalDone ∨ ∃ a, handleTask prob settings since sp t = Except.ok a) →
        ∃ s1, monitorStep prob settings nTasks since sp t = Except.ok s1 ∧
          (0 < sp.resultsClosed → s1.results = sp.results ∧ s1.resultsClosed = 1)) := by
  intro p sp hp hrun
  have hfs := fresh_safe nTasks s0 h0 hn
  obtain ⟨hsafe, hwd⟩ := monitorLoop_safe prob settings nTasks since p s0 sp hrun hfs
  rw [h0.workersDone, zero_add] at hwd
  obtain ⟨r, hr⟩ := hp
  have hsplit : signals tasks = signals p + signals r := by
    rw [← hr, signals_append]
  have hsig : (signals p : Int) ≤ nTasks := by omega
  have hclosed : 0 < sp.resultsClosed ↔ (signals p : Int) = nTasks := by
    rw [hsafe.2.1, hwd]
    constructor
    · intro h
      omega
    · intro h
      omega
  have hdone : 0 < sp.resultsClosed → 0 < sp.doneClosed := by
    intro hc
    have hpos : (0 : Int) < signals p := by
      rw [hclosed.1 hc]
      exact hn
    rcases hafter with h | ⟨q, sq, hq, hq0, hqrun, hqt⟩
    · omega
    · have hqp : q <+: p := by
        rcases List.prefix_or_prefix_of_prefix hq ⟨r, hr⟩ with h | h
        · exact h
        · exfalso
          obtain ⟨u, hu⟩ := h
          have : signals q = signals p + signals u := by
            rw [← hu, signals_append]
          omega
      obtain ⟨u, _, hrest⟩ :=
        monitorLoop_split prob settings nTasks since s0 sq sp q p hqp hqrun hrun
      have hdq := (monitorLoop_safe prob settings nTasks since q s0 sq hqrun hfs).1.2.2.1 hqt
      have := (monitorLoop_latched prob settings nTasks since u sq sp hdq hrest).1
      omega
  refine ⟨hsafe.1, hclosed, ?_, ?_⟩
  · intro hc
    have h1 := hdone hc
    have h4 := hsafe.2.2.2.1
    have h5 := hsafe.2.2.2.2
    constructor
    · omega
    · omega
  · intro t rest _ hcase
    have hex : ∃ s1, monitorStep prob settings nTasks since sp t = Except.ok s1 := by
      by_cases hsd : t.Op = signalDone
      · exact monitorStep_signal_progress prob settings nTasks since sp t hsd hsafe
      · rcases hcase with h | ⟨a, ha⟩
        · exact absurd h hsd
        · by_cases hc : sp.resultsClosed = 0
          · exact monitorStep_open prob settings nTasks since sp a t ha hc
          · have hc2 : 0 < sp.resultsClosed := by omega
            refine monitorStep_closed_progress prob settings nTasks since sp a t hsd ha
              (hdone hc2) ?_
            rw [hwd]
            exact hclosed.1 hc2
    obtain ⟨s1, hs1⟩ := hex
    refine ⟨s1, hs1, fun hc => ⟨?_, ?_⟩⟩
    · exact monitorStep_closed_results prob settings nTasks since sp s1 t hs1 hc
    · have j := (monitorStep_safe prob settings nTasks since sp s1 t hs1 hsafe).1
      have hw1 := (monitorStep_safe prob settings nTasks since sp s1 t hs1 hsafe).2
      have hw0 := hsafe.2.1.1 hc
      have : 0 < s1.resultsClosed := by
        rw [j.2.1, hw1]
        split_ifs <;> omega
      have := j.1
      omega

/-- Witness of C23: on the run `noopTask`, `evalTask`, `majorTask`, `doneTask` with
one worker, the limit is latched at `evalTask`, before the only `signalDone`; at the
end `results` is closed once, with the `PostIteration` task on it. -/
theorem results_safety_witness :
    ({} : Monitor).fresh ∧ (0 : Int) < 1 ∧
    (signals [noopTask, evalTask, majorTask, doneTask] : Int) ≤ 1 ∧
    afterDone.resultsClosed ≤ 1 ∧ afterDone.doneClosed = 1 ∧ posts afterDone.results = 1 :=
  have h := results_safety {} limitOne 1 (fun _ => 0) {} fresh_default (by decide)
    [noopTask, evalTask, majorTask, doneTask] (by decide)
    (Or.inr ⟨[noopTask, evalTask], afterEval, ⟨[majorTask, doneTask], rfl⟩, by decide, rfl,
      Or.inl (by decide)⟩)
    [noopTask, evalTask, majorTask, doneTask] afterDone (List.prefix_refl _) rfl
  ⟨fresh_default, by decide, by decide, h.1, (h.2.2.1 (by decide)).1, (h.2.2.1 (by decide)).2⟩

/-! ## The pair that `minimize` returns -/

/-- A step of the monitor keeps this: once `done` is closed, the pair latched as final
is a termination, a status other than `NotTerminated` or an error. -/
theorem monitorStep_final (prob : Problem) (settings : Settings) (nTasks : Int)
    (since : Nat → Int) (s s1 : Monitor) (task : Task)
    (h : monitorStep prob settings nTasks since s task = Except.ok s1)
    (hs : 0 < s.doneClosed → s.finalStatus ≠ Status.NotTerminated ∨ s.finalError ≠ none) :
    0 < s1.doneClosed → s1.finalStatus ≠ Status.NotTerminated ∨ s1.finalError ≠ none := by
  obtain ⟨-, l2, l3, -⟩ := monitorStep_latch prob settings nTasks since s s1 task h
  intro hd
  by_cases hcond : s.doneClosed = 0 ∧ task.Op ≠ signalDone ∧ s1.terminated
  · obtain ⟨-, e1, e2, -⟩ := l2 hcond
    rw [e1, e2]
    exact hcond.2.2
  · obtain ⟨d1, e1, e2, -⟩ := l3 hcond
    rw [e1, e2]
    apply hs
    rw [← d1]
    exact hd

/-- The monitor loop keeps this: once `done` is closed, the pair latched as final is
a termination. -/
theorem monitorLoop_final (prob : Problem) (settings : Settings) (nTasks : Int)
    (since : Nat → Int) (tasks : List Task) :
    ∀ s sf : Monitor, monitorLoop prob settings nTasks since s tasks = Except.ok sf →
      (0 < s.doneClosed → s.finalStatus ≠ Status.NotTerminated ∨ s.finalError ≠ none) →
      0 < sf.doneClosed → sf.finalStatus ≠ Status.NotTerminated ∨ sf.finalError ≠ none := by
  induction tasks with
  | nil =>
    intro s sf h hs
    rw [monitorLoop_nil] at h
    cases h
    exact hs
  | cons task rest ih =>
    intro s sf h hs
    obtain ⟨s1, h1, h2⟩ := (monitorLoop_cons prob settings nTasks since s sf task rest).1 h
    exact ih s1 sf h2 (monitorStep_final prob settings nTasks since s s1 task h1 hs)

/-- The pair that `finish` returns, when the method has not sent `MethodDone`, is
the pair latched as final; when it has, its status is not `NotTerminated`. -/
theorem finish_ok (method : Method) (s : Monitor) (r : Status × Error)
    (h : finish method s = Except.ok r) :
    (s.methodDone = true → r.1 ≠ Status.NotTerminated) ∧
    (s.methodDone = false → r = (s.finalStatus, s.finalError)) := by
  unfold finish at h
  refine ⟨?_, ?_⟩
  · intro hm
    rw [if_pos hm] at h
    cases hst : method.Status with
    | none =>
      rw [hst] at h
      cases h
    | some pair =>
      obtain ⟨fs, fe⟩ := pair
      rw [hst] at h
      simp only at h
      split_ifs at h with hnt
      cases h
      exact hnt
  · intro hm
    rw [hm] at h
    cases h
    rfl

/-- A return of `minimize` after `done` was closed is not the pair
(`NotTerminated`, nil). -/
theorem minimize_latched (prob : Problem) (method : Method) (settings : Settings)
    (stats : Stats) (initOp : Operation) (initLoc optLoc : Location) (since : Nat → Int)
    (calls : Calls) (arriving : List Task) (r : Status × Error) (s : Monitor)
    (h : minimize prob method settings stats initOp initLoc optLoc since calls arriving =
      Except.ok (r, s))
    (hd : 0 < s.doneClosed) : r.1 ≠ Status.NotTerminated ∨ r.2 ≠ none := by
  obtain ⟨-, -, hl, hf⟩ := minimize_ok _ _ _ _ _ _ _ _ _ _ r s h
  have hfr := entry_fresh stats optLoc calls
  have hfin := monitorLoop_final prob settings _ since arriving _ s hl
    (fun h0 => by rw [hfr.doneClosed] at h0; omega) hd
  obtain ⟨f1, f2⟩ := finish_ok method s r hf
  cases hm : s.methodDone with
  | true => exact Or.inl (f1 hm)
  | false =>
    rw [f2 hm]
    exact hfin

/-- The channel `done` is closed at the end of a run of `minimize` when and only
when the state of the monitor after some prefix of the tasks is a termination. -/
theorem minimize_done (prob : Problem) (method : Method) (settings : Settings)
    (stats : Stats) (initOp : Operation) (initLoc optLoc : Location) (since : Nat → Int)
    (calls : Calls) (arriving : List Task) (r : Status × Error) (s : Monitor)
    (h : minimize prob method settings stats initOp initLoc optLoc since calls arriving =
      Except.ok (r, s)) :
    0 < s.doneClosed ↔
      ∃ q sq, q <+: arriving ∧
        monitorLoop prob settings (method.Init optLoc.X.len (requestedTasks settings)) since
          (entry stats optLoc calls) q = Except.ok sq ∧ sq.terminated := by
  obtain ⟨hn, -, hl, -⟩ := minimize_ok _ _ _ _ _ _ _ _ _ _ r s h
  have hfr := entry_fresh stats optLoc calls
  constructor
  · intro hd
    by_contra hno
    have hq := monitorLoop_quiet prob settings _ since arriving _ s hfr.doneClosed
      ((terminated_iff _).2 ⟨hfr.status, hfr.err⟩) hl
      (fun p sp hp hrun ht => hno ⟨p, sp, hp, hrun, ht⟩)
    omega
  · rintro ⟨q, sq, hq, hrun, ht⟩
    have hsafe := fresh_safe _ _ hfr hn
    have hdq := (monitorLoop_safe prob settings _ since q _ sq hrun hsafe).1.2.2.1 ht
    obtain ⟨u, -, hrest⟩ := monitorLoop_split prob settings _ since _ sq s q arriving hq hrun hl
    have := (monitorLoop_latched prob settings _ since u sq s hdq hrest).1
    omega

/-! ## The goroutines of `minimize`: the loop of the monitor ends after the latch -/

/-- A step of the monitor leaves `done` closed once it is closed. -/
theorem monitorStep_done_closed (prob : Problem) (settings : Settings) (nTasks : Int)
    (since : Nat → Int) (s s1 : Monitor) (task : Task)
    (h : monitorStep prob settings nTasks since s task = Except.ok s1)
    (hd : 0 < s.doneClosed) : 0 < s1.doneClosed := by
  obtain ⟨-, -, l3, -⟩ := monitorStep_latch prob settings nTasks since s s1 task h
  have hcond : ¬ (s.doneClosed = 0 ∧ task.Op ≠ signalDone ∧ s1.terminated) := by
    intro hx
    omega
  rw [(l3 hcond).1]
  exact hd

/-- A state of the goroutines that differs from a sound one in nothing that the
soundness looks at, but for a distributor that has not newly taken its case `<-done`
with `done` open, is sound. -/
theorem sound_frame (prob : Problem) (method : Method) (settings : Settings) (nTasks : Int)
    (since : Nat → Int) (s0 : Monitor) (sys sys1 : System)
    (h : sys.sound prob method settings nTasks since s0)
    (hr : sys1.received = sys.received) (hm : sys1.monitor = sys.monitor)
    (hs : sys1.statsChanClosed = true → 0 < sys.monitor.doneClosed)
    (hl : sys1.loopEnded = true → sys1.statsChanClosed = true)
    (hret : ∀ r, sys1.returned = some r →
      sys1.loopEnded = true ∧ finish method sys.monitor = Except.ok r)
    (hd : sys1.distributor.sawDone = true → 0 < sys.monitor.doneClosed) :
    sys1.sound prob method settings nTasks since s0 := by
  obtain ⟨i1, -, -, -, -⟩ := h
  refine ⟨?_, ?_, ?_, hl, ?_⟩
  · rw [hr, hm]
    exact i1
  · rw [hm]
    exact hd
  · rw [hm]
    exact hs
  · rw [hm]
    exact hret

/-- A change of a sound state in the fields that the soundness does not look at
gives a sound state. -/
theorem sound_same (prob : Problem) (method : Method) (settings : Settings) (nTasks : Int)
    (since : Nat → Int) (s0 : Monitor) (sys sys1 : System)
    (h : sys.sound prob method settings nTasks since s0)
    (hr : sys1.received = sys.received) (hm : sys1.monitor = sys.monitor)
    (hs : sys1.statsChanClosed = sys.statsChanClosed)
    (hl : sys1.loopEnded = sys.loopEnded) (hret : sys1.returned = sys.returned)
    (hd : sys1.distributor.sawDone = true → 0 < sys.monitor.doneClosed) :
    sys1.sound prob method settings nTasks since s0 := by
  refine sound_frame prob method settings nTasks since s0 sys sys1 h hr hm ?_ ?_ ?_ hd
  · rw [hs]
    exact h.2.2.1
  · rw [hl, hs]
    exact h.2.2.2.1
  · rw [hret, hl]
    exact h.2.2.2.2

/-- The switch of the distributor keeps the state sound. -/
theorem distributeTask_sound (prob : Problem) (method : Method) (settings : Settings)
    (nTasks : Int) (since : Nat → Int) (s0 : Monitor) (sys : System) (task : Task)
    (h : sys.sound prob method settings nTasks since s0) :
    (distributeTask sys task).sound prob method settings nTasks since s0 := by
  unfold distributeTask
  split
  · exact sound_same _ _ _ _ _ _ sys _ h rfl rfl rfl rfl rfl h.2.1
  · exact sound_same _ _ _ _ _ _ sys _ h rfl rfl rfl rfl rfl (fun hx => by simp [Distributor.sawDone] at hx)
  · exact sound_same _ _ _ _ _ _ sys _ h rfl rfl rfl rfl rfl (fun hx => by simp [Distributor.sawDone] at hx)

/-- The evaluation of a task by a worker keeps the state sound. -/
theorem workTask_sound (prob : Problem) (method : Method) (settings : Settings)
    (nTasks : Int) (since : Nat → Int) (s0 : Monitor) (sys : System) (i : Nat) (x : Slice)
    (task : Task) (h : sys.sound prob method settings nTasks since s0) :
    (workTask prob sys i x task).sound prob method settings nTasks since s0 := by
  unfold workTask
  split
  · split_ifs
    · exact sound_same _ _ _ _ _ _ sys _ h rfl rfl rfl rfl rfl h.2.1
    · exact sound_same _ _ _ _ _ _ sys _ h rfl rfl rfl rfl rfl h.2.1
  · simp only
    split
    · exact sound_same _ _ _ _ _ _ sys _ h rfl rfl rfl rfl rfl h.2.1
    · exact sound_same _ _ _ _ _ _ sys _ h rfl rfl rfl rfl rfl h.2.1

/-- A turn of the loop of the monitor, while the loop has not ended, keeps the state
sound. -/
theorem monitorReceive_sound (prob : Problem) (method : Method) (settings : Settings)
    (nTasks : Int) (since : Nat → Int) (s0 : Monitor) (sys : System) (task : Task)
    (h : sys.sound prob method settings nTasks since s0) (hl : sys.loopEnded = false) :
    (monitorReceive prob settings nTasks since sys task).sound prob method settings nTasks
      since s0 := by
  unfold monitorReceive
  cases hstep : monitorStep prob settings nTasks since sys.monitor task with
  | error e => exact sound_same _ _ _ _ _ _ sys _ h rfl rfl rfl rfl rfl h.2.1
  | ok m =>
    obtain ⟨i1, i2, i3, i4, i5⟩ := h
    have hmono := monitorStep_done_closed prob settings nTasks since sys.monitor m task hstep
    refine ⟨?_, ?_, ?_, ?_, ?_⟩
    · exact (monitorLoop_append prob settings nTasks since sys.received [task] s0 m).2
        ⟨sys.monitor, i1,
          (monitorLoop_cons prob settings nTasks since sys.monitor m task []).2
            ⟨m, hstep, rfl⟩⟩
    · exact fun hx => hmono (i2 hx)
    · exact fun hx => hmono (i3 hx)
    · exact i4
    · intro r hr
      have := (i5 r hr).1
      rw [hl] at this
      exact absurd this (by decide)

/-- Every step of the goroutines of `minimize` keeps the state sound. -/
theorem sysStep_sound (prob : Problem) (method : Method) (settings : Settings) (nTasks : Int)
    (since : Nat → Int) (s0 : Monitor) (sys sys1 : System) (a : Action)
    (hstep : sysStep prob method settings nTasks since sys a = some sys1)
    (h : sys.sound prob method settings nTasks since s0) :
    sys1.sound prob method settings nTasks since s0 := by
  have same : ∀ x : System, x.received = sys.received → x.monitor = sys.monitor →
      x.statsChanClosed = sys.statsChanClosed → x.loopEnded = sys.loopEnded →
      x.returned = sys.returned →
      (x.distributor.sawDone = true → 0 < sys.monitor.doneClosed) →
      x.sound prob method settings nTasks since s0 :=
    fun x => sound_same prob method settings nTasks since s0 sys x h
  unfold sysStep at hstep
  by_cases hp : sys.panicked ≠ none
  · rw [if_pos hp] at hstep
    cases hstep
  rw [if_neg hp] at hstep
  cases a with
  | methodSend task =>
    simp only at hstep
    split_ifs at hstep <;> cases hstep <;> exact same _ rfl rfl rfl rfl rfl h.2.1
  | methodClose =>
    simp only at hstep
    split_ifs at hstep <;> cases hstep <;> exact same _ rfl rfl rfl rfl rfl h.2.1
  | distribute =>
    simp only at hstep
    split at hstep
    · split at hstep
      · cases hstep
        exact distributeTask_sound _ _ _ _ _ _ _ _ (same _ rfl rfl rfl rfl rfl h.2.1)
      · split_ifs at hstep
        cases hstep
        exact distributeTask_sound _ _ _ _ _ _ _ _ h
    · cases hstep
  | observeDone =>
    simp only at hstep
    split at hstep
    · split_ifs at hstep with hd
      cases hstep
      exact same _ rfl rfl rfl rfl rfl (fun _ => hd)
    · cases hstep
  | drain =>
    simp only at hstep
    split at hstep
    · rename_i hdist
      have hsaw : 0 < sys.monitor.doneClosed := h.2.1 (by rw [hdist]; rfl)
      split at hstep
      · split_ifs at hstep <;> cases hstep <;> exact same _ rfl rfl rfl rfl rfl (fun _ => hsaw)
      · cases hstep
    · cases hstep
  | closeStats =>
    simp only at hstep
    split at hstep
    · rename_i hdist
      have hsaw : 0 < sys.monitor.doneClosed := h.2.1 (by rw [hdist]; rfl)
      split_ifs at hstep <;> cases hstep
      · refine sound_frame _ _ _ _ _ _ sys _ h rfl rfl (fun _ => hsaw) (fun _ => rfl) ?_
          (fun _ => hsaw)
        intro r hr
        exact h.2.2.2.2 r hr
      · refine sound_frame _ _ _ _ _ _ sys _ h rfl rfl (fun _ => hsaw) (fun _ => rfl) ?_
          (fun _ => hsaw)
        intro r hr
        exact h.2.2.2.2 r hr
    · cases hstep
  | work i =>
    simp only at hstep
    split at hstep
    · cases hstep
      exact workTask_sound _ _ _ _ _ _ _ _ _ _
        (same _ rfl rfl rfl rfl rfl (fun hx => by simp [Distributor.sawDone] at hx))
    · cases hstep
  | workerEnd i =>
    simp only at hstep
    split at hstep
    · split_ifs at hstep <;> cases hstep <;> exact same _ rfl rfl rfl rfl rfl h.2.1
    · cases hstep
  | monitorFromDistributor =>
    simp only at hstep
    split_ifs at hstep with hg
    have hl : sys.loopEnded = false := by
      cases hle : sys.loopEnded with
      | false => rfl
      | true => exact absurd (Or.inl hle) hg
    split at hstep
    · cases hstep
      exact monitorReceive_sound _ _ _ _ _ _ _ _
        (same _ rfl rfl rfl rfl rfl (fun hx => by simp [Distributor.sawDone] at hx)) hl
    · rename_i hdist
      have hsaw : 0 < sys.monitor.doneClosed := h.2.1 (by rw [hdist]; rfl)
      cases hstep
      exact monitorReceive_sound _ _ _ _ _ _ _ _
        (same _ rfl rfl rfl rfl rfl (fun _ => hsaw)) hl
    · cases hstep
  | monitorFromWorker i =>
    simp only at hstep
    split_ifs at hstep with hg
    have hl : sys.loopEnded = false := by
      cases hle : sys.loopEnded with
      | false => rfl
      | true => exact absurd (Or.inl hle) hg
    split at hstep
    · cases hstep
      exact monitorReceive_sound _ _ _ _ _ _ _ _ (same _ rfl rfl rfl rfl rfl h.2.1) hl
    · cases hstep
      exact monitorReceive_sound _ _ _ _ _ _ _ _ (same _ rfl rfl rfl rfl rfl h.2.1) hl
    · cases hstep
  | monitorEnd =>
    simp only at hstep
    split_ifs at hstep with hg
    have hnone : ∀ r, sys.returned = some r → False := by
      intro r hr
      have := (h.2.2.2.2 r hr).1
      rw [hg.2] at this
      exact absurd this (by decide)
    split at hstep
    · cases hstep
      refine sound_frame _ _ _ _ _ _ sys _ h rfl rfl h.2.2.1 (fun _ => hg.1) ?_ h.2.1
      intro r hr
      exact absurd hr (fun hx => hnone r hx)
    · rename_i r0 hfin
      cases hstep
      refine sound_frame _ _ _ _ _ _ sys _ h rfl rfl h.2.2.1 (fun _ => hg.1) ?_ h.2.1
      intro r hr
      have hr0 : r0 = r := by
        simpa using hr
      rw [← hr0]
      exact ⟨rfl, hfin⟩

/-- Every run of the goroutines of `minimize` keeps the state sound. -/
theorem runSystem_sound (prob : Problem) (method : Method) (settings : Settings)
    (nTasks : Int) (since : Nat → Int) (s0 : Monitor) (schedule : List Action) :
    ∀ sys sys1 : System,
      runSystem prob method settings nTasks since sys schedule = some sys1 →
      sys.sound prob method settings nTasks since s0 →
      sys1.sound prob method settings nTasks since s0 := by
  induction schedule with
  | nil =>
    intro sys sys1 h hs
    simp only [runSystem] at h
    cases h
    exact hs
  | cons a rest ih =>
    intro sys sys1 h hs
    simp only [runSystem] at h
    cases hstep : sysStep prob method settings nTasks since sys a with
    | none =>
      rw [hstep] at h
      cases h
    | some sys2 =>
      rw [hstep] at h
      exact ih sys2 sys1 h (sysStep_sound _ _ _ _ _ _ sys sys2 a hstep hs)

/-- The goroutines as `minimize` starts them are in a sound state. -/
theorem startSystem_sound (prob : Problem) (method : Method) (settings : Settings)
    (nTasks : Int) (since : Nat → Int) (dim : Nat) (s0 : Monitor) :
    (startSystem nTasks dim s0).sound prob method settings nTasks since s0 := by
  refine ⟨rfl, ?_, ?_, ?_, ?_⟩
  · intro hx
    simp [startSystem, Distributor.sawDone] at hx
  · intro hx
    simp [startSystem] at hx
  · intro hx
    simp [startSystem] at hx
  · intro r hr
    simp [startSystem] at hr

/-- A nil error of `Minimize` after the `PostIteration` record comes from a nil error
of `minimize`. -/
theorem recordPost_nil (settings : Settings) (err : Error) (s : Monitor)
    (h : (recordPost settings err s).1 = none) : err = none := by
  by_contra hne
  unfold recordPost at h
  cases hrec : settings.Recorder with
  | none =>
    rw [hrec] at h
    exact hne h
  | some rec =>
    rw [hrec] at h
    simp only [if_neg hne] at h
    exact hne h

/-- In a run of the goroutines of a call of `minimize`, the loop of the monitor has
ended only after `done` was closed, and the state of the monitor is that of its loop
on the tasks it has received, with the count of tasks that `minimize` has agreed
with the method. -/
theorem runMinimize_sound (prob : Problem) (method : Method) (settings : Settings)
    (stats : Stats) (initOp : Operation) (initLoc optLoc : Location) (since : Nat → Int)
    (calls : Calls) (schedule : List Action) (sys : System)
    (h : runMinimize prob method settings stats initOp initLoc optLoc since calls schedule =
      some sys) :
    sys.sound prob method settings (method.Init optLoc.X.len (requestedTasks settings)) since
      (entry stats optLoc calls) ∧
    0 < method.Init optLoc.X.len (requestedTasks settings) ∧
    method.Init optLoc.X.len (requestedTasks settings) ≤ requestedTasks settings := by
  unfold runMinimize at h
  cases hl : launch method settings initOp initLoc optLoc with
  | error e =>
    rw [hl] at h
    cases h
  | ok l =>
    rw [hl] at h
    have hn : l.nTasks = method.Init optLoc.X.len (requestedTasks settings) ∧
        0 < method.Init optLoc.X.len (requestedTasks settings) ∧
        method.Init optLoc.X.len (requestedTasks settings) ≤ requestedTasks settings := by
      unfold launch at hl
      simp only at hl
      split_ifs at hl with h1 h2 h3
      cases hl
      exact ⟨rfl, by omega, by omega⟩
    have hs := runSystem_sound prob method settings l.nTasks since (entry stats optLoc calls)
      schedule _ sys h (startSystem_sound prob method settings l.nTasks since _ _)
    rw [hn.1] at hs
    exact ⟨hs, hn.2⟩

/-- In a run of the goroutines of a call of `minimize`, the pair returned is what
`minimize` returns on the tasks that the monitor has received, and `done` is closed
by then. -/
theorem runMinimize_returned (prob : Problem) (method : Method) (settings : Settings)
    (stats : Stats) (initOp : Operation) (initLoc optLoc : Location) (since : Nat → Int)
    (calls : Calls) (schedule : List Action) (sys : System) (r : Status × Error)
    (h : runMinimize prob method settings stats initOp initLoc optLoc since calls schedule =
      some sys)
    (hr : sys.returned = some r) :
    minimize prob method settings stats initOp initLoc optLoc since calls sys.received =
      Except.ok (r, sys.monitor) ∧
    0 < sys.monitor.doneClosed := by
  obtain ⟨⟨i1, -, i3, i4, i5⟩, h1, h2⟩ :=
    runMinimize_sound prob method settings stats initOp initLoc optLoc since calls schedule
      sys h
  obtain ⟨hle, hfin⟩ := i5 r hr
  refine ⟨?_, i3 (i4 hle)⟩
  rw [minimize_run prob method settings stats initOp initLoc optLoc since calls sys.received
    h1 h2, i1]
  simp only
  rw [hfin]

/-- The channel `done` is closed at the end of a run of the monitor loop from a fresh
state only when the state after some prefix of the tasks is a termination. -/
theorem monitorLoop_done (prob : Problem) (settings : Settings) (nTasks : Int)
    (since : Nat → Int) (tasks : List Task) (s0 s : Monitor) (h0 : s0.fresh)
    (h : monitorLoop prob settings nTasks since s0 tasks = Except.ok s)
    (hd : 0 < s.doneClosed) :
    ∃ q sq, q <+: tasks ∧ monitorLoop prob settings nTasks since s0 q = Except.ok sq ∧
      sq.terminated := by
  by_contra hno
  have hq := monitorLoop_quiet prob settings nTasks since tasks s0 s h0.doneClosed
    ((terminated_iff _).2 ⟨h0.status, h0.err⟩) h
    (fun p sp hp hrun ht => hno ⟨p, sp, hp, hrun, ht⟩)
  omega

/-- C24: in every run of the goroutines of a call of `minimize` (the method sending
any tasks on `operations` and closing it when it likes, under any schedule), the loop
of the monitor ends only after termination was latched: `done` is closed, and the
state of the monitor after some prefix of the tasks it has received is a
termination.  So the pair that `minimize` returns, which is what the sequential
`minimize` gives on the tasks the monitor has received, is never
(`NotTerminated`, nil): the error is not nil or the status is not `NotTerminated`.
Hence, when `Minimize` returns a `Result` and a nil error on the tasks of a run of
the goroutines of the very call of `minimize` it makes, the status of the `Result`
is the status `minimize` has returned, with a nil error, and it is not
`NotTerminated`. -/
theorem never_not_terminated :
    (∀ (prob : Problem) (method : Method) (settings : Settings) (stats : Stats)
        (initOp : Operation) (initLoc optLoc : Location) (since : Nat → Int) (calls : Calls)
        (schedule : List Action) (sys : System),
      runMinimize prob method settings stats initOp initLoc optLoc since calls schedule =
        some sys →
      (sys.loopEnded = true →
        0 < sys.monitor.doneClosed ∧
        ∃ q sq, q <+: sys.received ∧
          monitorLoop prob settings (method.Init optLoc.X.len (requestedTasks settings)) since
            (entry stats optLoc calls) q = Except.ok sq ∧ sq.terminated) ∧
      ∀ r, sys.returned = some r →
        minimize prob method settings stats initOp initLoc optLoc since calls sys.received =
          Except.ok (r, sys.monitor) ∧
        r ≠ (Status.NotTerminated, none) ∧
        (r.1 ≠ Status.NotTerminated ∨ r.2 ≠ none)) ∧
    (∀ (d : Defaults) (since : Nat → Int) (p : Problem) (initX : Slice)
        (settings : Option Settings) (method : Option Method) (c : Checked)
        (initOp : Operation) (initLoc : Location) (schedule : List Action) (sys : System)
        (r : Status × Error) (res : Result),
      checkOptimization p initX.len (chosenMethod d p method)
        (chosenSettings d settings).Recorder = Except.ok c →
      getInitLocation initX.len initX (chosenSettings d settings).InitValues
        (chosenMethod d p method) = Except.ok (initOp, initLoc) →
      runMinimize p (chosenMethod d p method) (chosenSettings d settings)
        { Runtime := since 0 } initOp initLoc
        (initialOptimum initX.len (chosenMethod d p method)) since
        { polls := c.polls
          records := (recordInit (chosenSettings d settings)
            (initialOptimum initX.len (chosenMethod d p method)) { Runtime := since 0 }).2
          converges := 0, ticks := 1 } schedule = some sys →
      sys.returned = some r →
      (Minimize d since sys.received p initX settings method).result = some res →
      (Minimize d since sys.received p initX settings method).err = none →
      res.Status = r.1 ∧ r.2 = none ∧ res.Status ≠ Status.NotTerminated) := by
  refine ⟨?_, ?_⟩
  · intro prob method settings stats initOp initLoc optLoc since calls schedule sys hrun
    obtain ⟨⟨i1, -, i3, i4, -⟩, -, -⟩ :=
      runMinimize_sound prob method settings stats initOp initLoc optLoc since calls schedule
        sys hrun
    refine ⟨?_, ?_⟩
    · intro hle
      have hd := i3 (i4 hle)
      exact ⟨hd, monitorLoop_done prob settings _ since sys.received _ sys.monitor
        (entry_fresh stats optLoc calls) i1 hd⟩
    · intro r hr
      obtain ⟨hm, hd⟩ := runMinimize_returned prob method settings stats initOp initLoc optLoc
        since calls schedule sys r hrun hr
      have hp := minimize_latched _ _ _ _ _ _ _ _ _ _ r sys.monitor hm hd
      refine ⟨hm, ?_, hp⟩
      intro hx
      rw [hx] at hp
      simp at hp
  · intro d since p initX settings method c initOp initLoc schedule sys r res hc hi hrun hr
      hres herr
    obtain ⟨hm, hd⟩ := runMinimize_returned _ _ _ _ _ _ _ _ _ schedule sys r hrun hr
    obtain ⟨c1, initOp1, initLoc1, r1, s1, hc1, -, hi1, -, hm1, hr1, he1⟩ :=
      Minimize_result d since sys.received p initX settings method res hres
    rw [hc] at hc1
    cases hc1
    rw [hi] at hi1
    cases hi1
    rw [hm] at hm1
    cases hm1
    have hnil : r.2 = none := by
      rw [herr] at he1
      exact recordPost_nil _ _ _ he1.symm
    have hst : res.Status = r.1 := by rw [hr1]
    refine ⟨hst, hnil, ?_⟩
    rcases minimize_latched _ _ _ _ _ _ _ _ _ _ r sys.monitor hm hd with h1 | h1
    · rw [hst]
      exact h1
    · exact absurd hnil h1

/-- Witness of C24: under `shutdownSchedule` the goroutines of `minimize` run
`noopTask`, `evalTask`, `majorTask`, `doneTask` with a limit of one function
evaluation; the loop of the monitor ends with `done` closed, `minimize` returns
`FunctionEvaluationLimit` with a nil error, and `Minimize` at `initX = [10]` returns
a nil error and a `Result` with that status. -/
theorem never_not_terminated_witness :
    runMinimize flat {} limitOne {} NoOperation {} {} (fun _ => 0)
      { polls := 0, records := [], converges := 0, ticks := 0 } shutdownSchedule =
      some shutdownSystem ∧
    shutdownSystem.returned = some (Status.FunctionEvaluationLimit, none) ∧
    minimize flat {} limitOne {} NoOperation {} {} (fun _ => 0)
      { polls := 0, records := [], converges := 0, ticks := 0 } shutdownSystem.received =
      Except.ok ((Status.FunctionEvaluationLimit, none), shutdownSystem.monitor) ∧
    (Status.FunctionEvaluationLimit, (none : Error)) ≠ (Status.NotTerminated, none) ∧
    0 < shutdownSystem.monitor.doneClosed ∧
    (Minimize {} (fun _ => 0) shutdownResult.received flat (some [F64.fin 10]) (some limitOne)
      (some {})).result = some limitResult ∧
    limitResult.Status ≠ Status.NotTerminated :=
  ⟨rfl, rfl,
    ((never_not_terminated.1 flat {} limitOne {} NoOperation {} {} (fun _ => 0)
      { polls := 0, records := [], converges := 0, ticks := 0 } shutdownSchedule
      shutdownSystem rfl).2 (Status.FunctionEvaluationLimit, none) rfl).1,
    ((never_not_terminated.1 flat {} limitOne {} NoOperation {} {} (fun _ => 0)
      { polls := 0, records := [], converges := 0, ticks := 0 } shutdownSchedule
      shutdownSystem rfl).2 (Status.FunctionEvaluationLimit, none) rfl).2.1,
    ((never_not_terminated.1 flat {} limitOne {} NoOperation {} {} (fun _ => 0)
      { polls := 0, records := [], converges := 0, ticks := 0 } shutdownSchedule
      shutdownSystem rfl).1 rfl).1,
    rfl,
    (never_not_terminated.2 {} (fun _ => 0) flat (some [F64.fin 10]) (some limitOne)
      (some {}) {} _ _ shutdownSchedule shutdownResult
      (Status.FunctionEvaluationLimit, none) limitResult rfl rfl rfl rfl rfl rfl).2.2⟩

end Optimize
